import Mathlib

/-!
citeMicros (catalog 0.8): URN validation, work building, passage resolution, navigation
and the catalog


A shallow embedding of `citeMicros-1.1.1_catalog_0.8.go`.

* Go strings are modelled as lists of characters (`Str`).
* A Go runtime panic (index or slice out of range) is modelled by `none`; in a handler that
  installs a `recover` it is the response which the `recover` writes.
* Fetching the CEX file and splitting its blocks into records are outside the model: the
  handlers take the records of the `#!ctsdata` block as pairs (URN, text) and the records
  of the `#!ctscatalog` block as lists of fields.
* `regexp.MatchString` belongs to Go's standard library; the handlers take it as
  the parameter `rx` (pattern, subject), and `goRegexp` further below models it on the
  pattern fragment the handlers generate from plain request strings.
* The iteration order of a Go map is unspecified; it is the parameter `MapOrder`.
-/

namespace CiteMicro

/-- A Go string, as the list of its characters. -/
abbrev Str := List Char

/-! ## Go library primitives -/

/-- Go `strings.Split(s, sep)` for a one-character separator: the fields between the
separators, always at least one field. -/
def Split : Str → Char → List Str
  | [], _ => [[]]
  | c :: cs, sep =>
    if c = sep then [] :: Split cs sep
    else
      match Split cs sep with
      | [] => [[c]]
      | f :: fs => (c :: f) :: fs

/-- Go `strings.Join(fields, sep)`. -/
def Join : List Str → Str → Str
  | [], _ => []
  | [f], _ => f
  | f :: g :: fs, sep => f ++ sep ++ Join (g :: fs) sep

/-- Go `strings.Contains(s, substr)`: `substr` occurs somewhere in `s`. -/
def Contains : Str → Str → Bool
  | [], sub => sub.isEmpty
  | c :: cs, sub => sub.isPrefixOf (c :: cs) || Contains cs sub

/-- Go slice expression `l[lo:hi]` on a slice whose capacity equals its length;
`none` is the slice-bounds panic. -/
def goSlice {α : Type} (l : List α) (lo hi : Int) : Option (List α) :=
  if 0 ≤ lo ∧ lo ≤ hi ∧ hi ≤ (l.length : Int) then some ((l.drop lo.toNat).take (hi - lo).toNat)
  else none

/-- Go index expression `l[i]` for an `int` index; `none` is the index-out-of-range panic. -/
def goIdx {α : Type} (l : List α) (i : Int) : Option α :=
  if 0 ≤ i then l[i.toNat]? else none

/-! ## Helper functions of the source -/

/-- Source `isCTSURN` (the log lines are omitted). -/
def isCTSURN (s : Str) : Bool :=
  let test := Split s ':'
  if test.length < 4 then false
  else if test.length > 5 then false
  else if test[0]? ≠ some "urn".toList then false
  else if test[1]? ≠ some "cts".toList then false
  else true

/-- Source `isRange`. -/
def isRange (s : Str) : Bool :=
  if (Split s ':').length < 5 then false
  else
    match (Split s ':')[4]? with
    | some ref => if Contains ref "-".toList then true else false
    | none => false

/-- Source `contains`. -/
def contains : List Str → Str → Bool
  | [], _ => false
  | currentString :: rest, testedString =>
    if currentString = testedString then true else contains rest testedString

/-- Source `boolcontains`. -/
def boolcontains : List Bool → Bool → Bool
  | [], _ => false
  | a :: rest, e => if a = e then true else boolcontains rest e

/-- Source type `CTSURN`. -/
structure CTSURN where
  Stem : Str
  Reference : Str
deriving DecidableEq

/-- Source `splitCTS`; `none` when the slice `[0:4]` or the index `[4]` panics. -/
def splitCTS (stringToBeSplit : Str) : Option CTSURN := do
  let stem ← goSlice (Split stringToBeSplit ':') 0 4
  let reference ← goIdx (Split stringToBeSplit ':') 4
  pure { Stem := Join stem ":".toList, Reference := reference }

/-- A regular-expression engine: `rx pattern subject` is the boolean that
`regexp.MatchString(pattern, subject)` returns (false when the pattern does not compile). -/
abbrev Regexp := Str → Str → Bool

/-- The pattern suffix of `level1contains`. -/
def level1pattern : Str := "([:|.]*[0-9|a-z]+)$".toList

/-- The pattern suffix of `level2contains`. -/
def level2pattern : Str := "([:|.]*[0-9|a-z]+).([0-9|a-z]+)$".toList

/-- The pattern suffix of `level3contains`. -/
def level3pattern : Str := "([:|.]*[0-9|a-z]+).([0-9|a-z]+).([0-9|a-z]+)$".toList

/-- The pattern suffix of `level4contains`. -/
def level4pattern : Str := "([:|.]*[0-9|a-z]+).([0-9|a-z]+).([0-9|a-z]+).([0-9|a-z]+)$".toList

/-- The loop over `i := range s` with body `match2, _ := regexp.MatchString(e + pattern, s[i])`
and `match = append(match, match2)`, which the source repeats for every level. -/
def matchAll (rx : Regexp) (pattern : Str) (s : List Str) (e : Str) : List Bool :=
  s.map (fun si => rx (e ++ pattern) si)

/-- Source `level1contains`. -/
def level1contains (rx : Regexp) (s : List Str) (e : Str) : Bool :=
  boolcontains (matchAll rx level1pattern s e) true

/-- Source `level2contains`. -/
def level2contains (rx : Regexp) (s : List Str) (e : Str) : Bool :=
  boolcontains (matchAll rx level2pattern s e) true

/-- Source `level3contains`. -/
def level3contains (rx : Regexp) (s : List Str) (e : Str) : Bool :=
  boolcontains (matchAll rx level3pattern s e) true

/-- Source `level4contains`. -/
def level4contains (rx : Regexp) (s : List Str) (e : Str) : Bool :=
  boolcontains (matchAll rx level4pattern s e) true

/-- The order in which a Go `range` loop visits the keys of a map: some permutation of
the keys, not specified by the language. -/
structure MapOrder where
  keys : List Str → List Str
  perm : ∀ l, (keys l).Perm l

/-- The statement `encountered[k] = true` on a map represented by its list of keys. -/
def mapInsert (encountered : List Str) (k : Str) : List Str :=
  if k ∈ encountered then encountered else encountered ++ [k]

/-- Source `removeDuplicatesUnordered`: the keys of the map of all elements, in map order. -/
def removeDuplicatesUnordered (o : MapOrder) (elements : List Str) : List Str :=
  o.keys (elements.foldl mapInsert [])

/-! ## Data types of the source -/

/-- Source type `Node`. -/
structure Node where
  URN : List Str := []
  Text : List Str := []
  Previous : List Str := []
  Next : List Str := []
  Index : Int := 0
deriving DecidableEq

/-- Source type `NodeResponse`. -/
structure NodeResponse where
  requestURN : List Str := []
  Status : Str := []
  Service : Str := []
  Message : Str := []
  URN : List Str := []
  Nodes : List Node := []
deriving DecidableEq

/-- Source type `URNResponse`. -/
structure URNResponse where
  requestURN : List Str := []
  Status : Str := []
  Service : Str := []
  Message : Str := []
  URN : List Str := []
deriving DecidableEq

/-- Source type `Work`. -/
structure Work where
  WorkURN : Str := []
  URN : List Str := []
  Text : List Str := []
  Index : List Int := []
deriving DecidableEq

/-- Source type `CatalogResponse`. -/
structure CatalogResponse where
  Status : Str := []
  Service : Str := []
  Message : Str := []
  URN : List Str := []
deriving DecidableEq

/-- Source type `CatalogEntry`. -/
structure CatalogEntry where
  URN : Str := []
  CitationScheme : Str := []
  GroupName : Str := []
  WorkTitle : Str := []
  VersionLabel : Str := []
  ExemplarLabel : Str := []
  Online : Str := []
  Lang : Str := []
deriving DecidableEq

/-- Source type `Catalog`. -/
structure Catalog where
  CatalogEntries : List CatalogEntry := []
deriving DecidableEq

/-! ## The handlers' common prefix: parsing, stem selection, work building -/

/-- The record loop of source `ParseWork` over the CSV lines of the `#!ctsdata` block (two
fields per line); fetching and tokenising the file are outside the model. -/
def ParseWork (lines : List (Str × Str)) : Work :=
  lines.foldl
    (fun response line =>
      { response with URN := response.URN ++ [line.1], Text := response.Text ++ [line.2] })
    {}

/-- The expression `strings.Join(strings.Split(u, ":")[0:4], ":")`; `none` when the slice
panics (fewer than four fields). -/
def cropToStem (u : Str) : Option Str :=
  (goSlice (Split u ':') 0 4).map (fun fields => Join fields ":".toList)

/-- The loop over `i := range workResult.URN` with body `works[i] = crop(workResult.URN[i])`. -/
def cropAll : List Str → Option (List Str)
  | [] => some []
  | u :: us => do
    let stem ← cropToStem u
    let rest ← cropAll us
    pure (stem :: rest)

/-- The stem-selection loop `for i := range works` with its variable `workindex`. -/
def selectLoop (requestURN : Str) : List Str → Nat → Nat → Nat
  | [], _, workindex => workindex
  | worksi :: rest, i, workindex =>
    if Contains requestURN worksi then
      let teststring := worksi ++ ":".toList
      if requestURN = worksi then selectLoop requestURN rest (i + 1) (i + 1)
      else if Contains requestURN teststring then selectLoop requestURN rest (i + 1) (i + 1)
      else selectLoop requestURN rest (i + 1) workindex
    else selectLoop requestURN rest (i + 1) workindex

/-- The value of `workindex` after the stem-selection loop. -/
def selectWork (requestURN : Str) (works : List Str) : Nat :=
  selectLoop requestURN works 0 0

/-- The filtering loop `for i := range workResult.URN` that fills `RequestedWork`; the
arguments are the URNs still to visit, the loop index, and the variables `RequestedWork`
and `runindex`. -/
def buildLoop (workResult : Work) : List Str → Nat → Work → Int → Option Work
  | [], _, requestedWork, _ => some requestedWork
  | u :: us, i, requestedWork, runindex => do
    let stem ← cropToStem u
    if stem = requestedWork.WorkURN then
      let text ← workResult.Text[i]?
      buildLoop workResult us (i + 1)
        { requestedWork with
          URN := requestedWork.URN ++ [u]
          Text := requestedWork.Text ++ [text]
          Index := requestedWork.Index ++ [runindex + 1] }
        (runindex + 1)
    else buildLoop workResult us (i + 1) requestedWork runindex

/-- The `RequestedWork` the handlers build for the selected stem. -/
def buildWork (workResult : Work) (workURN : Str) : Option Work :=
  buildLoop workResult workResult.URN 0 { WorkURN := workURN } 0

/-! ## Resolution of a request against the built work -/

/-- The loop `for i := range urns` with body `if urns[i] == target then index = i`: the
arguments are the URNs still to visit, the loop index and the variable being assigned. -/
def indexLoop (target : Str) : List Str → Nat → Int → Int
  | [], _, index => index
  | u :: us, i, index =>
    if u = target then indexLoop target us (i + 1) (i : Int)
    else indexLoop target us (i + 1) index

/-- The forward loop `for i := range match` with body `if match[i] == true then index = i; break`. -/
def firstTrueLoop : List Bool → Nat → Int → Int
  | [], _, index => index
  | m :: ms, i, index => if m = true then (i : Int) else firstTrueLoop ms (i + 1) index

/-- The backward loop `for i := len(match) - 1; i >= 0; i--` with body
`if match[i] == true then index = i; break`; the first argument is `i + 1`. -/
def lastTrueLoop (m : List Bool) : Nat → Int → Int
  | 0, index => index
  | i + 1, index => if m[i]? = some true then (i : Int) else lastTrueLoop m i index

/-- The body shared by the node-collecting loops: the node for position `i` of the lists
`urns`, `texts`, `index`, with its neighbours read from the full work. -/
def nodeAt (requestedWork : Work) (urns texts : List Str) (index : List Int) (i : Nat) :
    Option Node := do
  let ix ← index[i]?
  let previousnode ← if ix > 1 then goIdx requestedWork.URN (ix - 2) else pure []
  let nextnode ← if ix < (requestedWork.URN.length : Int) then goIdx requestedWork.URN ix else pure []
  let u ← urns[i]?
  let t ← texts[i]?
  pure { URN := [u], Text := [t], Previous := [previousnode], Next := [nextnode], Index := ix }

/-- The loop `for i := range match` that appends the node of every position with
`match[i] == true` to `matchingNodes`. -/
def matchingLoop (requestedWork : Work) : List Bool → Nat → List Node → Option (List Node)
  | [], _, matchingNodes => some matchingNodes
  | m :: ms, i, matchingNodes =>
    if m = true then do
      let node ← nodeAt requestedWork requestedWork.URN requestedWork.Text requestedWork.Index i
      matchingLoop requestedWork ms (i + 1) (matchingNodes ++ [node])
    else matchingLoop requestedWork ms (i + 1) matchingNodes

/-- The loop `for i := range range_urn` that appends the node of every position of the
slices to `rangeNodes`; the first argument counts the positions still to visit. -/
def rangeLoop (requestedWork : Work) (range_urn range_text : List Str) (range_index : List Int) :
    Nat → Nat → List Node → Option (List Node)
  | 0, _, rangeNodes => some rangeNodes
  | k + 1, i, rangeNodes => do
    let node ← nodeAt requestedWork range_urn range_text range_index i
    rangeLoop requestedWork range_urn range_text range_index k (i + 1) (rangeNodes ++ [node])

/-- The first `switch` of the range branch: the value of `startindex`. -/
def startIndex (rx : Regexp) (requestedWork : Work) (startURN : Str) : Int :=
  if contains requestedWork.URN startURN then indexLoop startURN requestedWork.URN 0 0
  else if level1contains rx requestedWork.URN startURN then
    firstTrueLoop (matchAll rx level1pattern requestedWork.URN startURN) 0 0
  else if level2contains rx requestedWork.URN startURN then
    firstTrueLoop (matchAll rx level2pattern requestedWork.URN startURN) 0 0
  else if level3contains rx requestedWork.URN startURN then
    firstTrueLoop (matchAll rx level3pattern requestedWork.URN startURN) 0 0
  else if level4contains rx requestedWork.URN startURN then
    firstTrueLoop (matchAll rx level4pattern requestedWork.URN startURN) 0 0
  else 0

/-- The second `switch` of the range branch: the value of `endindex`. -/
def endIndex (rx : Regexp) (requestedWork : Work) (endURN : Str) : Int :=
  let back := fun (m : List Bool) => lastTrueLoop m m.length 0
  if contains requestedWork.URN endURN then indexLoop endURN requestedWork.URN 0 0
  else if level1contains rx requestedWork.URN endURN then
    back (matchAll rx level1pattern requestedWork.URN endURN)
  else if level2contains rx requestedWork.URN endURN then
    back (matchAll rx level2pattern requestedWork.URN endURN)
  else if level3contains rx requestedWork.URN endURN then
    back (matchAll rx level3pattern requestedWork.URN endURN)
  else if level4contains rx requestedWork.URN endURN then
    back (matchAll rx level4pattern requestedWork.URN endURN)
  else (requestedWork.URN.length : Int) - 1

/-- The decomposition of a range request into `startURN` and `endURN`. -/
def rangeBounds (requestURN : Str) : Option (Str × Str) := do
  let ctsurn ← splitCTS requestURN
  let ctsrange := Split ctsurn.Reference '-'
  let first ← goIdx ctsrange 0
  let second ← goIdx ctsrange 1
  pure (ctsurn.Stem ++ ":".toList ++ first, ctsurn.Stem ++ ":".toList ++ second)

/-- The case `contains(RequestedWork.URN, requestURN)` of source `ReturnPassage`. -/
def exactPassage (requestedWork : Work) (requestURN : Str) (requestedIndex : Int) :
    Option NodeResponse :=
  if requestedIndex = 0 then do
    let u ← goIdx requestedWork.URN requestedIndex
    let t ← goIdx requestedWork.Text requestedIndex
    let next ← goIdx requestedWork.URN (requestedIndex + 1)
    let ix ← goIdx requestedWork.Index requestedIndex
    pure { requestURN := [requestURN], Status := "Success".toList,
           Nodes := [{ URN := [u], Text := [t], Next := [next], Index := ix }] }
  else if requestedIndex = (requestedWork.URN.length : Int) - 1 then do
    let u ← goIdx requestedWork.URN requestedIndex
    let t ← goIdx requestedWork.Text requestedIndex
    let previous ← goIdx requestedWork.URN (requestedIndex - 1)
    let ix ← goIdx requestedWork.Index requestedIndex
    pure { requestURN := [requestURN], Status := "Success".toList,
           Nodes := [{ URN := [u], Text := [t], Previous := [previous], Index := ix }] }
  else do
    let u ← goIdx requestedWork.URN requestedIndex
    let t ← goIdx requestedWork.Text requestedIndex
    let next ← goIdx requestedWork.URN (requestedIndex + 1)
    let previous ← goIdx requestedWork.URN (requestedIndex - 1)
    let ix ← goIdx requestedWork.Index requestedIndex
    pure { requestURN := [requestURN], Status := "Success".toList,
           Nodes := [{ URN := [u], Text := [t], Next := [next], Previous := [previous],
                       Index := ix }] }

/-- A `case levelNcontains(RequestedWork.URN, requestURN)` of source `ReturnPassage`, for the
pattern that case matches with. -/
def levelPassage (rx : Regexp) (pattern : Str) (requestedWork : Work) (requestURN : Str) :
    Option NodeResponse := do
  let matchingNodes ←
    matchingLoop requestedWork (matchAll rx pattern requestedWork.URN requestURN) 0 []
  pure { requestURN := [requestURN], Status := "Success".toList, Nodes := matchingNodes }

/-- The case `isRange(requestURN)` of source `ReturnPassage`. The slices are taken from
lists built by `append`, whose capacity may exceed their length; the upper bound
`endindex + 1` never exceeds the length, so checking it against the length is exact. -/
def rangePassage (rx : Regexp) (requestedWork : Work) (requestURN : Str) :
    Option NodeResponse := do
  let (startURN, endURN) ← rangeBounds requestURN
  let startindex := startIndex rx requestedWork startURN
  let endindex := endIndex rx requestedWork endURN
  let range_urn ← goSlice requestedWork.URN startindex (endindex + 1)
  let range_text ← goSlice requestedWork.Text startindex (endindex + 1)
  let range_index ← goSlice requestedWork.Index startindex (endindex + 1)
  let rangeNodes ← rangeLoop requestedWork range_urn range_text range_index range_urn.length 0 []
  pure { requestURN := [requestURN], Status := "Success".toList, Nodes := rangeNodes }

/-- The `switch` of source `ReturnPassage` that resolves the request against `RequestedWork`,
preceded by the loop that computes `requestedIndex`. -/
def passage (rx : Regexp) (requestedWork : Work) (requestURN : Str) : Option NodeResponse :=
  let requestedIndex := indexLoop requestURN requestedWork.URN 0 0
  if contains requestedWork.URN requestURN then
    exactPassage requestedWork requestURN requestedIndex
  else if level1contains rx requestedWork.URN requestURN then
    levelPassage rx level1pattern requestedWork requestURN
  else if level2contains rx requestedWork.URN requestURN then
    levelPassage rx level2pattern requestedWork requestURN
  else if level3contains rx requestedWork.URN requestURN then
    levelPassage rx level3pattern requestedWork requestURN
  else if level4contains rx requestedWork.URN requestURN then
    levelPassage rx level4pattern requestedWork requestURN
  else if isRange requestURN then rangePassage rx requestedWork requestURN
  else
    some { requestURN := [requestURN], Status := "Exception".toList,
           Message := "Could not find node to ".toList ++ requestURN ++ " in source.".toList }

/-- The loop `for i := range match` of source `ReturnReff` that appends `RequestedWork.URN[i]`
for every position with `match[i] == true`. -/
def matchingURNLoop (requestedWork : Work) : List Bool → Nat → List Str → Option (List Str)
  | [], _, matchingURNs => some matchingURNs
  | m :: ms, i, matchingURNs =>
    if m = true then do
      let u ← requestedWork.URN[i]?
      matchingURNLoop requestedWork ms (i + 1) (matchingURNs ++ [u])
    else matchingURNLoop requestedWork ms (i + 1) matchingURNs

/-- A `case levelNcontains(RequestedWork.URN, requestURN)` of source `ReturnReff`, for the
pattern its collecting loop matches with. -/
def levelReff (rx : Regexp) (pattern : Str) (requestedWork : Work) (requestURN : Str) :
    Option URNResponse := do
  let matchingURNs ←
    matchingURNLoop requestedWork (matchAll rx pattern requestedWork.URN requestURN) 0 []
  pure { requestURN := [requestURN], Status := "Success".toList, URN := matchingURNs }

/-- The `switch` of source `ReturnReff` that resolves the request against `RequestedWork`. In
the `level4contains` case the collecting loop matches with the level-3 pattern, as in the
source. -/
def reff (rx : Regexp) (requestedWork : Work) (requestURN : Str) : Option URNResponse :=
  if isRange requestURN then do
    let (startURN, endURN) ← rangeBounds requestURN
    let startindex := startIndex rx requestedWork startURN
    let endindex := endIndex rx requestedWork endURN
    let range_urn ← goSlice requestedWork.URN startindex (endindex + 1)
    pure { requestURN := [requestURN], Status := "Success".toList, URN := range_urn,
           Service := "/texts/urns".toList }
  else do
    let result ←
      if contains requestedWork.URN requestURN then
        pure { requestURN := [requestURN], Status := "Success".toList, URN := [requestURN] }
      else if level1contains rx requestedWork.URN requestURN then
        levelReff rx level1pattern requestedWork requestURN
      else if level2contains rx requestedWork.URN requestURN then
        levelReff rx level2pattern requestedWork requestURN
      else if level3contains rx requestedWork.URN requestURN then
        levelReff rx level3pattern requestedWork requestURN
      else if level4contains rx requestedWork.URN requestURN then
        levelReff rx level3pattern requestedWork requestURN
      else
        pure { requestURN := [requestURN], Status := "Exception".toList,
               Message := "Couldn't find URN.".toList }
    pure { result with Service := "/texts/urns".toList }

/-- The `default` case of the outer `switch` of source `ReturnFirst`, after `RequestedWork` is
built: the first node with the second node as its next. -/
def firstPassage (requestedWork : Work) (requestURN : Str) : Option NodeResponse := do
  let u ← goIdx requestedWork.URN 0
  let t ← goIdx requestedWork.Text 0
  let next ← goIdx requestedWork.URN 1
  let ix ← goIdx requestedWork.Index 0
  pure { requestURN := [requestURN], Status := "Success".toList,
         Nodes := [{ URN := [u], Text := [t], Next := [next], Index := ix }] }

/-- The `default` case of the outer `switch` of source `ReturnLast`, after `RequestedWork` is
built: the last node with the node before it as its previous. -/
def lastPassage (requestedWork : Work) (requestURN : Str) : Option NodeResponse := do
  let u ← goIdx requestedWork.URN ((requestedWork.URN.length : Int) - 1)
  let t ← goIdx requestedWork.Text ((requestedWork.URN.length : Int) - 1)
  let previous ← goIdx requestedWork.URN ((requestedWork.URN.length : Int) - 2)
  let ix ← goIdx requestedWork.Index ((requestedWork.URN.length : Int) - 1)
  pure { requestURN := [requestURN], Status := "Success".toList,
         Nodes := [{ URN := [u], Text := [t], Previous := [previous], Index := ix }] }

/-- The inner `switch` of source `ReturnPrev`, preceded by the loop that computes
`requestedIndex`. -/
def prevPassage (requestedWork : Work) (requestURN : Str) : Option NodeResponse :=
  let requestedIndex := indexLoop requestURN requestedWork.URN 0 0
  if contains requestedWork.URN requestURN then
    if requestedIndex = 0 then
      some { requestURN := [requestURN], Status := "Success".toList, Nodes := [] }
    else if requestedIndex - 1 = 0 then do
      let u ← goIdx requestedWork.URN (requestedIndex - 1)
      let t ← goIdx requestedWork.Text (requestedIndex - 1)
      let next ← goIdx requestedWork.URN requestedIndex
      let ix ← goIdx requestedWork.Index (requestedIndex - 1)
      pure { requestURN := [requestURN], Status := "Success".toList,
             Nodes := [{ URN := [u], Text := [t], Next := [next], Index := ix }] }
    else do
      let u ← goIdx requestedWork.URN (requestedIndex - 1)
      let t ← goIdx requestedWork.Text (requestedIndex - 1)
      let next ← goIdx requestedWork.URN requestedIndex
      let previous ← goIdx requestedWork.URN (requestedIndex - 2)
      let ix ← goIdx requestedWork.Index (requestedIndex - 1)
      pure { requestURN := [requestURN], Status := "Success".toList,
             Nodes := [{ URN := [u], Text := [t], Next := [next], Previous := [previous],
                         Index := ix }] }
  else
    some { requestURN := [requestURN], Status := "Exception".toList,
           Message := "Could not find node to ".toList ++ requestURN ++ " in source.".toList }

/-- The inner `switch` of source `ReturnNext`, preceded by the loop that computes
`requestedIndex`. -/
def nextPassage (requestedWork : Work) (requestURN : Str) : Option NodeResponse :=
  let requestedIndex := indexLoop requestURN requestedWork.URN 0 0
  if contains requestedWork.URN requestURN then
    if requestedIndex = (requestedWork.URN.length : Int) - 1 then
      some { requestURN := [requestURN], Status := "Success".toList, Nodes := [] }
    else if requestedIndex + 1 = (requestedWork.URN.length : Int) - 1 then do
      let u ← goIdx requestedWork.URN (requestedIndex + 1)
      let t ← goIdx requestedWork.Text (requestedIndex + 1)
      let previous ← goIdx requestedWork.URN requestedIndex
      let ix ← goIdx requestedWork.Index (requestedIndex + 1)
      pure { requestURN := [requestURN], Status := "Success".toList,
             Nodes := [{ URN := [u], Text := [t], Previous := [previous], Index := ix }] }
    else do
      let u ← goIdx requestedWork.URN (requestedIndex + 1)
      let t ← goIdx requestedWork.Text (requestedIndex + 1)
      let next ← goIdx requestedWork.URN (requestedIndex + 2)
      let previous ← goIdx requestedWork.URN requestedIndex
      let ix ← goIdx requestedWork.Index (requestedIndex + 1)
      pure { requestURN := [requestURN], Status := "Success".toList,
             Nodes := [{ URN := [u], Text := [t], Next := [next], Previous := [previous],
                         Index := ix }] }
  else
    some { requestURN := [requestURN], Status := "Exception".toList,
           Message := "Could not find node to ".toList ++ requestURN ++ " in source.".toList }

/-! ## The handlers -/

/-- Source `ReturnPassage`: the response written for `requestURN` over the parsed lines, or
`none` when the handler panics (it installs no `recover`). -/
def ReturnPassage (o : MapOrder) (rx : Regexp) (lines : List (Str × Str)) (requestURN : Str) :
    Option NodeResponse :=
  if isCTSURN requestURN ≠ true then
    some { requestURN := [requestURN], Status := "Exception".toList,
           Message := requestURN ++ " is not valid CTS.".toList, Service := "/texts".toList }
  else do
    let workResult := ParseWork lines
    let cropped ← cropAll workResult.URN
    let works := removeDuplicatesUnordered o cropped
    let workindex := selectWork requestURN works
    let result ←
      if workindex = 0 then
        pure { requestURN := [requestURN], Status := "Exception".toList,
               Message := "No results for ".toList ++ requestURN }
      else do
        let workURN ← works[workindex - 1]?
        let requestedWork ← buildWork workResult workURN
        passage rx requestedWork requestURN
    pure { result with Service := "/texts".toList }

/-- The response the deferred `recover` of source `ReturnFirst` writes after a panic. -/
def recoveredFirst : NodeResponse :=
  { requestURN := [], Status := "Exception".toList,
    Message :=
      "Error encountered. Please contact development team and send in current logfile!".toList,
    Service := "/texts/first".toList }

/-- Source `ReturnFirst`: the response written for `requestURN` over the parsed lines. A panic
in the body is caught by the deferred `recover`, which writes `recoveredFirst`. -/
def ReturnFirst (o : MapOrder) (lines : List (Str × Str)) (requestURN : Str) : NodeResponse :=
  let body : Option NodeResponse :=
    if isCTSURN requestURN ≠ true then
      some { requestURN := [requestURN], Status := "Exception".toList,
             Message := requestURN ++ " is not valid CTS.".toList,
             Service := "/texts/first".toList }
    else do
      let workResult := ParseWork lines
      let cropped ← cropAll workResult.URN
      let works := removeDuplicatesUnordered o cropped
      let workindex := selectWork requestURN works
      let result ←
        if workindex = 0 then
          pure { requestURN := [requestURN], Status := "Exception".toList,
                 Message := "No results for ".toList ++ requestURN }
        else do
          let workURN ← works[workindex - 1]?
          let requestedWork ← buildWork workResult workURN
          firstPassage requestedWork requestURN
      pure { result with Service := "/texts/first".toList }
  match body with
  | some result => result
  | none => recoveredFirst

/-- Source `ReturnLast`: the response written for `requestURN` over the parsed lines, or
`none` when the handler panics (it installs no `recover`). -/
def ReturnLast (o : MapOrder) (lines : List (Str × Str)) (requestURN : Str) :
    Option NodeResponse :=
  if isCTSURN requestURN ≠ true then
    some { requestURN := [requestURN], Status := "Exception".toList,
           Message := requestURN ++ " is not valid CTS.".toList,
           Service := "/texts/last".toList }
  else do
    let workResult := ParseWork lines
    let cropped ← cropAll workResult.URN
    let works := removeDuplicatesUnordered o cropped
    let workindex := selectWork requestURN works
    let result ←
      if workindex = 0 then
        pure { requestURN := [requestURN], Status := "Exception".toList,
               Message := "No results for ".toList ++ requestURN }
      else do
        let workURN ← works[workindex - 1]?
        let requestedWork ← buildWork workResult workURN
        lastPassage requestedWork requestURN
    pure { result with Service := "/texts/last".toList }

/-- Source `ReturnPrev`: the response written for `requestURN` over the parsed lines, or
`none` when the handler panics (it installs no `recover`). -/
def ReturnPrev (o : MapOrder) (lines : List (Str × Str)) (requestURN : Str) :
    Option NodeResponse :=
  if isCTSURN requestURN ≠ true then
    some { requestURN := [requestURN], Status := "Exception".toList,
           Message := requestURN ++ " is not valid CTS.".toList,
           Service := "/texts/previous".toList }
  else do
    let workResult := ParseWork lines
    let cropped ← cropAll workResult.URN
    let works := removeDuplicatesUnordered o cropped
    let workindex := selectWork requestURN works
    let result ←
      if workindex = 0 then
        pure { requestURN := [requestURN], Status := "Exception".toList,
               Message := "No results for ".toList ++ requestURN }
      else do
        let workURN ← works[workindex - 1]?
        let requestedWork ← buildWork workResult workURN
        prevPassage requestedWork requestURN
    pure { result with Service := "/texts/previous".toList }

/-- Source `ReturnNext`: the response written for `requestURN` over the parsed lines, or
`none` when the handler panics (it installs no `recover`). -/
def ReturnNext (o : MapOrder) (lines : List (Str × Str)) (requestURN : Str) :
    Option NodeResponse :=
  if isCTSURN requestURN ≠ true then
    some { requestURN := [requestURN], Status := "Exception".toList,
           Message := requestURN ++ " is not valid CTS.".toList,
           Service := "/texts/next".toList }
  else do
    let workResult := ParseWork lines
    let cropped ← cropAll workResult.URN
    let works := removeDuplicatesUnordered o cropped
    let workindex := selectWork requestURN works
    let result ←
      if workindex = 0 then
        pure { requestURN := [requestURN], Status := "Exception".toList,
               Message := "No results for ".toList ++ requestURN }
      else do
        let workURN ← works[workindex - 1]?
        let requestedWork ← buildWork workResult workURN
        nextPassage requestedWork requestURN
    pure { result with Service := "/texts/next".toList }

/-- Source `ReturnReff`: the response written for `requestURN` over the parsed lines, or
`none` when the handler panics (it installs no `recover`). An invalid request is answered
with a `NodeResponse`, every other request with a `URNResponse`. -/
def ReturnReff (o : MapOrder) (rx : Regexp) (lines : List (Str × Str)) (requestURN : Str) :
    Option (NodeResponse ⊕ URNResponse) :=
  if isCTSURN requestURN ≠ true then
    some (.inl { requestURN := [requestURN], Status := "Exception".toList,
                 Message := requestURN ++ " is not valid CTS.".toList,
                 Service := "/texts/urns".toList })
  else do
    let workResult := ParseWork lines
    let cropped ← cropAll workResult.URN
    let works := removeDuplicatesUnordered o cropped
    let workindex := selectWork requestURN works
    if workindex = 0 then
      pure (.inr { requestURN := [requestURN], Status := "Exception".toList,
                   Message := "No results for ".toList ++ requestURN,
                   Service := "/texts/urns".toList })
    else do
      let workURN ← works[workindex - 1]?
      let requestedWork ← buildWork workResult workURN
      let result ← reff rx requestedWork requestURN
      pure (.inr result)


/-! ## The list of works and the catalog -/

/-- The record loop of source `ParseURNSFromCTSdata` over the CSV lines of the `#!ctsdata`
block, followed by `urnResponse.Status = "Success"`; fetching and tokenising the file are
outside the model. -/
def ParseURNSFromCTSdata (lines : List (Str × Str)) : URNResponse :=
  let urnResponse : URNResponse :=
    lines.foldl (fun urnResponse line => { urnResponse with URN := urnResponse.URN ++ [line.1] }) {}
  { urnResponse with Status := "Success".toList }

/-- The record loop of source `ParseCatalog` over the CSV records of the `#!ctscatalog` block,
each record given as the list of its fields. The reader is configured with
`FieldsPerRecord = 8`: for a record with another number of fields `reader.Read` returns an
error and the loop panics (`none`). -/
def catalogLoop : List (List Str) → Catalog → Option Catalog
  | [], response => some response
  | line :: rest, response =>
    if line.length ≠ 8 then none
    else do
      let urn ← goIdx line 0
      let citationScheme ← goIdx line 1
      let groupName ← goIdx line 2
      let workTitle ← goIdx line 3
      let versionLabel ← goIdx line 4
      let exemplarLabel ← goIdx line 5
      let online ← goIdx line 6
      let lang ← goIdx line 7
      let entry : CatalogEntry :=
        { URN := urn, CitationScheme := citationScheme, GroupName := groupName,
          WorkTitle := workTitle, VersionLabel := versionLabel, ExemplarLabel := exemplarLabel,
          Online := online, Lang := lang }
      if isCTSURN entry.URN then
        catalogLoop rest { response with CatalogEntries := response.CatalogEntries ++ [entry] }
      else catalogLoop rest response

/-- Source `ParseCatalog` on the records of the `#!ctscatalog` block; fetching and tokenising
the file are outside the model. -/
def ParseCatalog (lines : List (List Str)) : Option Catalog :=
  catalogLoop lines {}


/-- The loop over `i := range urnResponse.URN` of source `ReturnWorkURNS`, which replaces every
URN by its first four fields joined by ":" and followed by ":"; `none` when a slice panics. -/
def stemColonAll : List Str → Option (List Str)
  | [] => some []
  | u :: us => do
    let stem ← cropToStem u
    let rest ← stemColonAll us
    pure ((stem ++ ":".toList) :: rest)

/-- The response the deferred `recover` of source `ReturnWorkURNS` writes after a panic. -/
def recoveredWorkURNS : NodeResponse :=
  { requestURN := [], Status := "Exception".toList,
    Message :=
      "Error encountered. Please contact development team and send in current logfile!".toList,
    Service := "/texts".toList }

/-- Source `ReturnWorkURNS`: the response written over the parsed lines. A panic in the body
is caught by the deferred `recover`, which writes `recoveredWorkURNS`. -/
def ReturnWorkURNS (o : MapOrder) (lines : List (Str × Str)) : NodeResponse ⊕ URNResponse :=
  let urnResponse := ParseURNSFromCTSdata lines
  match stemColonAll urnResponse.URN with
  | none => .inl recoveredWorkURNS
  | some urns =>
    .inr { urnResponse with
           URN := removeDuplicatesUnordered o urns, Service := "/texts".toList, requestURN := [] }

/-- The response the deferred `recover` of source `ReturnCatalog` writes after a panic, for
the value the variable `requestURN` holds at that moment. -/
def recoveredCatalog (requestURN : Str) : NodeResponse :=
  { requestURN := [requestURN], Status := "Exception".toList,
    Message :=
      "Error encountered. Please contact development team and send in current logfile!".toList,
    Service := "/catalog".toList }

/-- The loop `for i := range entries` with body `urns = append(urns, entries[i].URN)`. -/
def catalogURNs (entries : List CatalogEntry) : List Str :=
  entries.map (fun entry => entry.URN)

/-- Source `ReturnCatalog`: the response written for `requestURN` (empty when the route
carries no URN) over the records of the catalog block. A panic in the body is caught by the
deferred `recover`, which writes `recoveredCatalog` for the current value of `requestURN`. -/
def ReturnCatalog (o : MapOrder) (lines : List (List Str)) (requestURN : Str) :
    NodeResponse ⊕ CatalogResponse :=
  if requestURN ≠ [] then
    match cropToStem requestURN with
    | none => .inl (recoveredCatalog requestURN)
    | some stem =>
      let requestURN := stem ++ ":".toList
      if isCTSURN requestURN ≠ true then
        .inl { requestURN := [requestURN], Status := "Exception".toList,
               Message := requestURN ++ " is not valid CTS.".toList,
               Service := "/catalog".toList }
      else
        match ParseCatalog lines with
        | none => .inl (recoveredCatalog requestURN)
        | some catalogResult =>
          let entries := catalogResult.CatalogEntries
          let urns := removeDuplicatesUnordered o (catalogURNs entries)
          if contains urns requestURN then
            .inr { Status := "Success".toList,
                   Message := requestURN ++ " is in the CTS Catalog.".toList,
                   Service := "/catalog".toList }
          else
            .inr { Status := "Exception".toList,
                   Message :=
                     requestURN ++ " is not in the CTS Catalog. Printing URNs in catalog".toList,
                   URN := urns, Service := "/catalog".toList }
  else
    match ParseCatalog lines with
    | none => .inl (recoveredCatalog requestURN)
    | some catalogResult =>
      let entries := catalogResult.CatalogEntries
      let urns := removeDuplicatesUnordered o (catalogURNs entries)
      .inr { Status := "Success".toList,
             Message := "No URN specified. Printing URNs in catalog".toList,
             URN := urns, Service := "/catalog".toList }

/-! ## Go's `regexp.MatchString` on the patterns the handlers generate

The handlers build their patterns by appending a fixed suffix to the request string. The
model covers the patterns made of literal characters, `.`, bracket classes of characters
and ranges, the quantifiers `*` and `+` on a single character or class, groups that
carry no quantifier and no alternation, and a final `$`. Every other pattern is out of
its scope (`compile` gives `none`). -/

/-- What one pattern position accepts. -/
inductive Atom
  | lit (c : Char)
  | anyChar
  | cls (ranges : List (Char × Char))
deriving DecidableEq

/-- The characters an atom accepts: the literal itself; for `.` every character except
newline; for a class the characters of one of its ranges. -/
def Atom.accepts : Atom → Char → Bool
  | .lit c, x => decide (x = c)
  | .anyChar, x => decide (x ≠ '\n')
  | .cls ranges, x => ranges.any (fun r => decide (r.1.toNat ≤ x.toNat) && decide (x.toNat ≤ r.2.toNat))

/-- An atom with its quantifier. -/
inductive Piece
  | one (a : Atom)
  | star (a : Atom)
  | plus (a : Atom)
deriving DecidableEq

/-- Zero or more characters accepted by `a`, then the continuation `k`. -/
def starLoop (k : Str → Bool) (a : Atom) : Str → Bool
  | [] => k []
  | c :: t => k (c :: t) || (a.accepts c && starLoop k a t)

/-- The pieces match a prefix of `s` (all of `s` when the pattern ends with `$`). -/
def matchHere (eot : Bool) : List Piece → Str → Bool
  | [], s => if eot then s.isEmpty else true
  | .one a :: ps, s =>
    match s with
    | [] => false
    | c :: t => a.accepts c && matchHere eot ps t
  | .star a :: ps, s => starLoop (matchHere eot ps) a s
  | .plus a :: ps, s =>
    match s with
    | [] => false
    | c :: t => a.accepts c && starLoop (matchHere eot ps) a t

/-- The pieces match somewhere in `s`: `regexp.MatchString` searches, it does not anchor the
match at the start of the subject. -/
def matchAnywhere (eot : Bool) (ps : List Piece) : Str → Bool
  | [] => matchHere eot ps []
  | c :: t => matchHere eot ps (c :: t) || matchAnywhere eot ps t

/-- Where the pattern scanner stands: at top level (and whether a quantifier may follow),
inside a bracket class, or after the final `$`. -/
inductive Mode
  | top (quantifiable : Bool)
  | classStart (ranges : List (Char × Char))
  | classHave (ranges : List (Char × Char)) (c : Char)
  | classDash (ranges : List (Char × Char)) (c : Char)
  | atEnd
deriving DecidableEq

/-- The state of the pattern scanner: the pieces read so far (last first), the number of
open groups, whether `$` was read, and the mode. -/
structure Scan where
  rpieces : List Piece
  depth : Nat
  eot : Bool
  mode : Mode
deriving DecidableEq

/-- One character of the pattern; `none` when the pattern leaves the modelled fragment. -/
def scanStep (st : Scan) (c : Char) : Option Scan :=
  match st.mode with
  | .atEnd => none
  | .top q =>
    if c = '(' then some { st with depth := st.depth + 1, mode := .top false }
    else if c = ')' then
      if st.depth = 0 then none else some { st with depth := st.depth - 1, mode := .top false }
    else if c = '[' then some { st with mode := .classStart [] }
    else if c = '.' then some { st with rpieces := .one .anyChar :: st.rpieces, mode := .top true }
    else if c = '*' then
      match q, st.rpieces with
      | true, .one a :: r => some { st with rpieces := .star a :: r, mode := .top false }
      | _, _ => none
    else if c = '+' then
      match q, st.rpieces with
      | true, .one a :: r => some { st with rpieces := .plus a :: r, mode := .top false }
      | _, _ => none
    else if c = '$' then some { st with eot := true, mode := .atEnd }
    else if c ∈ ['\\', '|', '?', '^', '{', '}', ']'] then none
    else some { st with rpieces := .one (.lit c) :: st.rpieces, mode := .top true }
  | .classStart rs =>
    if c = ']' then
      if rs = [] then none
      else some { st with rpieces := .one (.cls rs) :: st.rpieces, mode := .top true }
    else if c ∈ ['[', '\\', '^', '-'] then none
    else some { st with mode := .classHave rs c }
  | .classHave rs a =>
    if c = ']' then
      some { st with rpieces := .one (.cls (rs ++ [(a, a)])) :: st.rpieces, mode := .top true }
    else if c = '-' then some { st with mode := .classDash rs a }
    else if c ∈ ['[', '\\', '^'] then none
    else some { st with mode := .classHave (rs ++ [(a, a)]) c }
  | .classDash rs a =>
    if c ∈ [']', '[', '\\', '^', '-'] then none
    else if a.toNat ≤ c.toNat then some { st with mode := .classStart (rs ++ [(a, c)]) }
    else none

/-- The scanner over a whole pattern. -/
def scanAll (st : Scan) : Str → Option Scan
  | [] => some st
  | c :: cs => (scanStep st c).bind (fun st' => scanAll st' cs)

/-- The pieces of a pattern and whether it ends with `$`. -/
def compile (pattern : Str) : Option (List Piece × Bool) :=
  (scanAll { rpieces := [], depth := 0, eot := false, mode := .top false } pattern).bind
    (fun st =>
      match st.mode with
      | .top _ => if st.depth = 0 then some (st.rpieces.reverse, st.eot) else none
      | .atEnd => if st.depth = 0 then some (st.rpieces.reverse, st.eot) else none
      | _ => none)

/-- The modelled `regexp.MatchString(pattern, s)`; `none` outside the modelled fragment. -/
def matchString? (pattern s : Str) : Option Bool :=
  (compile pattern).map (fun prog => matchAnywhere prog.2 prog.1 s)

/-- The regular-expression engine used in the examples: the boolean `match2` of
`match2, _ := regexp.MatchString(pattern, s)`. For a pattern outside the modelled fragment
it is false, which is Go's answer only when the pattern does not compile; the theorems
about `goRegexp` are restricted to patterns inside the fragment. -/
def goRegexp : Regexp := fun pattern s => (matchString? pattern s).getD false

/-- The pattern position a request character stands for when it is no metacharacter other
than `.`. -/
def atomOf (c : Char) : Atom := if c = '.' then .anyChar else .lit c

/-- A request character that the pattern syntax reads as itself, or the wildcard `.`. -/
def plainChar (c : Char) : Bool :=
  !(c ∈ ['\\', '+', '*', '?', '(', ')', '|', '[', ']', '{', '}', '^', '$'])

/-- The class `[:|.]` of the generated patterns. -/
def sepClass : Atom := .cls [(':', ':'), ('|', '|'), ('.', '.')]

/-- The class `[0-9|a-z]` of the generated patterns. -/
def compClass : Atom := .cls [('0', '9'), ('|', '|'), ('a', 'z')]

/-- The pieces `.([0-9|a-z]+)` repeated `k` times. -/
def morePieces : Nat → List Piece
  | 0 => []
  | k + 1 => .one .anyChar :: .plus compClass :: morePieces k

/-! ## The matching rule in the words of the specification -/

/-- A component character of the specification: a digit, a lowercase letter or '|'. -/
def isCompChar (c : Char) : Bool :=
  (decide ('0'.toNat ≤ c.toNat) && decide (c.toNat ≤ '9'.toNat)) || decide (c = '|') ||
    (decide ('a'.toNat ≤ c.toNat) && decide (c.toNat ≤ 'z'.toNat))

/-- Exactly `L` components, each one separator (':' or '.') followed by one or more
component characters, and nothing after the last. A separator is no component character,
so a component is the longest run of component characters after its separator. -/
def specComponents : Nat → Str → Bool
  | 0, r => r.isEmpty
  | _ + 1, [] => false
  | L + 1, sep :: t =>
    (decide (sep = ':') || decide (sep = '.')) && !(t.takeWhile isCompChar).isEmpty &&
      specComponents L (t.dropWhile isCompChar)

/-- The specification's `containsAtLevel(nodeURN, prefixURN, L)`: the node begins with the
prefix and the remainder consists of exactly `L` components. -/
def specContainsAtLevel (L : Nat) (nodeURN prefixURN : Str) : Bool :=
  prefixURN.isPrefixOf nodeURN && specComponents L (nodeURN.drop prefixURN.length)

/-! ## The matching rule of the code, stated on strings -/

/-- The string `body` matches the request `p` position by position: a `.` of `p` stands for
any character except newline, every other character of `p` for itself. -/
def WildEq (p body : Str) : Prop :=
  List.Forall₂ (fun c x => if c = '.' then x ≠ '\n' else x = c) p body

/-- Exactly `k` further components, each one arbitrary character (except newline) followed
by one or more component characters, and nothing after the last. -/
def MoreComponents : Nat → Str → Prop
  | 0, t => t = []
  | k + 1, t =>
    ∃ x comp more, t = x :: comp ++ more ∧ x ≠ '\n' ∧ comp ≠ [] ∧
      (∀ c ∈ comp, isCompChar c = true) ∧ MoreComponents k more

/-- What follows the request in a match at depth `L`: any number (also zero) of characters
from ':', '|', '.', then a first component of one or more component characters, then
`L - 1` further components. -/
def CodeTail (L : Nat) (rest : Str) : Prop :=
  ∃ seps comp more, rest = seps ++ comp ++ more ∧
    (∀ c ∈ seps, c = ':' ∨ c = '|' ∨ c = '.') ∧ comp ≠ [] ∧
    (∀ c ∈ comp, isCompChar c = true) ∧ MoreComponents (L - 1) more

/-- The node `n` matches the request `p` at depth `L` in the code: some part of `n` that
reaches its end matches `p` position by position and continues with a depth-`L` tail. -/
def CodeMatches (L : Nat) (n p : Str) : Prop :=
  ∃ pre body rest, n = pre ++ body ++ rest ∧ WildEq p body ∧ CodeTail L rest

/-! ## Predicates and closed forms used in the statements -/

/-- The records the filtering loop keeps for `stem`. -/
def keptLines (lines : List (Str × Str)) (stem : Str) : List (Str × Str) :=
  lines.filter (fun l => decide (cropToStem l.1 = some stem))

/-- The invariant of a built work: one text per URN, and `Index` enumerates the positions
from 1. -/
def Work.WellFormed (w : Work) : Prop :=
  w.Text.length = w.URN.length ∧
    w.Index = (List.range w.URN.length).map (fun (k : Nat) => (k : Int) + 1)

/-- The test the stem-selection loop applies to a stem. -/
def Qualifies (q S : Str) : Prop := q = S ∨ (S ++ ":".toList) <:+: q

/-- A stem whose first field is "urn", as the stems of a corpus whose URNs begin with
"urn:cts:" are. -/
def UrnStem (S : Str) : Prop :=
  (Split S ':').length = 4 ∧ (Split S ':')[0]? = some "urn".toList

/-- The node the code builds for position `i` of the work in the hierarchical and range
branches: its own URN and text, the URN of the node before it (the empty string at the
first position), the URN of the node after it (the empty string at the last position),
and the 1-based position as `Index`. -/
def nodeOf (w : Work) (i : Nat) : Node :=
  { URN := [w.URN.getD i []]
    Text := [w.Text.getD i []]
    Previous := [if i = 0 then [] else w.URN.getD (i - 1) []]
    Next := [if i + 1 < w.URN.length then w.URN.getD (i + 1) [] else []]
    Index := (i : Int) + 1 }

/-- The pattern suffix of the level-`d` matcher, for `d` from 1 to 4. -/
def levelPattern : Nat → Str
  | 1 => level1pattern
  | 2 => level2pattern
  | 3 => level3pattern
  | _ => level4pattern

/-- The string `u` matches no node of the work: not exactly and at none of the depths 1
to 4. -/
def NoMatch (rx : Regexp) (w : Work) (u : Str) : Prop :=
  contains w.URN u = false ∧ level1contains rx w.URN u = false ∧
    level2contains rx w.URN u = false ∧ level3contains rx w.URN u = false ∧
    level4contains rx w.URN u = false

/-- The node at position `j` matches `u` at depth `d`. -/
def matchesAt (rx : Regexp) (w : Work) (u : Str) (d j : Nat) : Bool :=
  rx (u ++ levelPattern d) (w.URN.getD j [])

/-- The depth `d`, from 1 to 4, is the smallest depth at which some node of the work matches
`u`. -/
def FirstDepth (rx : Regexp) (w : Work) (u : Str) (d : Nat) : Prop :=
  (1 ≤ d ∧ d ≤ 4) ∧ (∃ x ∈ w.URN, rx (u ++ levelPattern d) x = true) ∧
    ∀ d', 1 ≤ d' → d' < d → ∀ x ∈ w.URN, rx (u ++ levelPattern d') x = false

/-- The range request `stem:a-b`. -/
def rangeRequest (stem a b : Str) : Str := stem ++ ":".toList ++ a ++ "-".toList ++ b

/-- The fields of a catalog entry, in the order of the record it was read from. -/
def CatalogEntry.fields (e : CatalogEntry) : List Str :=
  [e.URN, e.CitationScheme, e.GroupName, e.WorkTitle, e.VersionLabel, e.ExemplarLabel,
   e.Online, e.Lang]

/-- The URN field of a catalog record: its first field. -/
def recordURN (line : List Str) : Str := line.getD 0 []

/-! ## Example data -/

/-- A map order: the keys in insertion order. -/
def insertionOrder : MapOrder := ⟨fun l => l, fun l => List.Perm.refl l⟩

/-- Three records of the work `urn:cts:ns:work` with a record of another work in between. -/
def exampleLines : List (Str × Str) :=
  [("urn:cts:ns:work:1.1".toList, "alpha".toList),
   ("urn:cts:ns:other:1".toList, "omega".toList),
   ("urn:cts:ns:work:1.2".toList, "beta".toList),
   ("urn:cts:ns:work:2.1".toList, "gamma".toList)]

/-- The stem of the example work. -/
def exampleStem : Str := "urn:cts:ns:work".toList

/-- A record whose URN lacks the leading "urn", and a request that contains its stem. -/
def headlessLines : List (Str × Str) := [(":cts:ns:work:1".toList, "alpha".toList)]

/-- The stem of `headlessLines`. -/
def headlessStem : Str := ":cts:ns:work".toList

/-- A request for the first passage of the example work. -/
def exampleRequest : Str := "urn:cts:ns:work:1".toList

/-- A work whose first node is the parent of the two others. -/
def nestedWork : Work :=
  { WorkURN := exampleStem
    URN := ["urn:cts:ns:work:1".toList, "urn:cts:ns:work:1.1".toList, "urn:cts:ns:work:1.2".toList]
    Text := ["alpha".toList, "beta".toList, "gamma".toList]
    Index := [1, 2, 3] }

/-- The work built from `exampleLines` for `exampleStem`. -/
def exampleWork : Work :=
  { WorkURN := exampleStem
    URN := ["urn:cts:ns:work:1.1".toList, "urn:cts:ns:work:1.2".toList, "urn:cts:ns:work:2.1".toList]
    Text := ["alpha".toList, "beta".toList, "gamma".toList]
    Index := [1, 2, 3] }

/-- A work in which the URN of the first node occurs again at the third position. -/
def repeatedWork : Work :=
  { WorkURN := exampleStem
    URN := ["urn:cts:ns:work:1".toList, "urn:cts:ns:work:2".toList, "urn:cts:ns:work:1".toList]
    Text := ["alpha".toList, "beta".toList, "gamma".toList]
    Index := [1, 2, 3] }

/-- The records from which `repeatedWork` is built. -/
def repeatedLines : List (Str × Str) :=
  [("urn:cts:ns:work:1".toList, "alpha".toList),
   ("urn:cts:ns:work:2".toList, "beta".toList),
   ("urn:cts:ns:work:1".toList, "gamma".toList)]

/-- A corpus of a single record. -/
def singleLines : List (Str × Str) := [("urn:cts:ns:work:1".toList, "alpha".toList)]

/-- The answer of `passage` to the range request `urn:cts:ns:work:1.2-2.1` over `exampleWork`. -/
def exampleRangeResponse : NodeResponse :=
  { requestURN := ["urn:cts:ns:work:1.2-2.1".toList], Status := "Success".toList,
    Nodes :=
      [{ URN := ["urn:cts:ns:work:1.2".toList], Text := ["beta".toList],
         Previous := ["urn:cts:ns:work:1.1".toList],
         Next := ["urn:cts:ns:work:2.1".toList], Index := 2 },
       { URN := ["urn:cts:ns:work:2.1".toList], Text := ["gamma".toList],
         Previous := ["urn:cts:ns:work:1.2".toList], Next := [[]], Index := 3 }] }

/-- Records in which a node of chapter 1 follows the node of chapter 2. -/
def interleavedLines : List (Str × Str) :=
  [("urn:cts:ns:work:1.1".toList, "alpha".toList),
   ("urn:cts:ns:work:2.1".toList, "beta".toList),
   ("urn:cts:ns:work:1.2".toList, "gamma".toList)]

/-- Records with a node whose URN continues the text of the range request
`urn:cts:ns:work:1.1-2.1`. -/
def shadowedLines : List (Str × Str) :=
  [("urn:cts:ns:work:1.1".toList, "alpha".toList),
   ("urn:cts:ns:work:2.1".toList, "beta".toList),
   ("urn:cts:ns:work:1.1-2.15".toList, "gamma".toList)]

/-- Records with a node whose URN continues the text of the range request
`urn:cts:ns:work:1-2`, none of which matches `urn:cts:ns:work:1` or `urn:cts:ns:work:2`. -/
def hyphenLines : List (Str × Str) :=
  [("urn:cts:ns:work:1-25".toList, "alpha".toList),
   ("urn:cts:ns:work:7".toList, "beta".toList)]

/-- The work built from `hyphenLines`. -/
def hyphenWork : Work :=
  { WorkURN := exampleStem
    URN := ["urn:cts:ns:work:1-25".toList, "urn:cts:ns:work:7".toList]
    Text := ["alpha".toList, "beta".toList]
    Index := [1, 2] }

/-- Four records of one work. -/
def fourLines : List (Str × Str) :=
  [("urn:cts:ns:work:1.1".toList, "alpha".toList),
   ("urn:cts:ns:work:1.2".toList, "beta".toList),
   ("urn:cts:ns:work:2.1".toList, "gamma".toList),
   ("urn:cts:ns:work:2.2".toList, "delta".toList)]

/-- The work built from `fourLines`. -/
def fourWork : Work :=
  { WorkURN := exampleStem
    URN := ["urn:cts:ns:work:1.1".toList, "urn:cts:ns:work:1.2".toList,
            "urn:cts:ns:work:2.1".toList, "urn:cts:ns:work:2.2".toList]
    Text := ["alpha".toList, "beta".toList, "gamma".toList, "delta".toList]
    Index := [1, 2, 3, 4] }

/-- Records in which the URN of the second node occurs again at the fourth position. -/
def revisitedLines : List (Str × Str) :=
  [("urn:cts:ns:work:1".toList, "alpha".toList),
   ("urn:cts:ns:work:2".toList, "beta".toList),
   ("urn:cts:ns:work:3".toList, "gamma".toList),
   ("urn:cts:ns:work:2".toList, "delta".toList)]

/-- The work built from `revisitedLines`. -/
def revisitedWork : Work :=
  { WorkURN := exampleStem
    URN := ["urn:cts:ns:work:1".toList, "urn:cts:ns:work:2".toList,
            "urn:cts:ns:work:3".toList, "urn:cts:ns:work:2".toList]
    Text := ["alpha".toList, "beta".toList, "gamma".toList, "delta".toList]
    Index := [1, 2, 3, 4] }

/-- Two records whose URNs lack the leading "urn". -/
def headlessPair : List (Str × Str) :=
  [(":cts:ns:work:1".toList, "alpha".toList), (":cts:ns:work:2".toList, "beta".toList)]

/-- A request that is no CTS URN. -/
def invalidRequest : Str := "foo:bar".toList

/-- A request for a work that `exampleLines` does not hold. -/
def absentRequest : Str := "urn:cts:ns:missing:1".toList

/-- A catalog block: the header line, two entries whose URNs end with ':', a record whose
URN has three fields, and the first entry once more. -/
def catalogLines : List (List Str) :=
  [["urn".toList, "citationScheme".toList, "groupName".toList, "workTitle".toList,
    "versionLabel".toList, "exemplarLabel".toList, "online".toList, "lang".toList],
   ["urn:cts:ns:work:".toList, "book,line".toList, "Group".toList, "Work".toList,
    "Version".toList, "".toList, "true".toList, "eng".toList],
   ["urn:cts:ns".toList, "book".toList, "Group".toList, "Broken".toList,
    "Version".toList, "".toList, "true".toList, "eng".toList],
   ["urn:cts:ns:other:".toList, "chapter".toList, "Group".toList, "Other".toList,
    "Version".toList, "".toList, "false".toList, "lat".toList],
   ["urn:cts:ns:work:".toList, "book,line".toList, "Group".toList, "Work".toList,
    "Version".toList, "".toList, "true".toList, "eng".toList]]

/-- A catalog block whose only record has seven fields (no language). -/
def sevenFieldLines : List (List Str) :=
  [["urn:cts:ns:work:".toList, "book,line".toList, "Group".toList, "Work".toList,
    "Version".toList, "".toList, "true".toList]]

/-- A catalog block whose only entry has a URN of four fields, without a final ':'. -/
def bareCatalogLines : List (List Str) :=
  [["urn:cts:ns:work".toList, "book,line".toList, "Group".toList, "Work".toList,
    "Version".toList, "".toList, "true".toList, "eng".toList]]

/-- A record whose URN has three fields. -/
def shortLines : List (Str × Str) := [("urn:cts:ns".toList, "alpha".toList)]

/-- The first entry of the catalog built from `catalogLines`. -/
def workEntry : CatalogEntry :=
  { URN := "urn:cts:ns:work:".toList, CitationScheme := "book,line".toList,
    GroupName := "Group".toList, WorkTitle := "Work".toList, VersionLabel := "Version".toList,
    ExemplarLabel := "".toList, Online := "true".toList, Lang := "eng".toList }

/-- The catalog built from `catalogLines`. -/
def exampleCatalog : Catalog :=
  { CatalogEntries :=
      [workEntry,
       { URN := "urn:cts:ns:other:".toList, CitationScheme := "chapter".toList,
         GroupName := "Group".toList, WorkTitle := "Other".toList,
         VersionLabel := "Version".toList, ExemplarLabel := "".toList,
         Online := "false".toList, Lang := "lat".toList },
       workEntry] }

/-- The entry of the catalog built from `bareCatalogLines`. -/
def bareEntry : CatalogEntry :=
  { URN := "urn:cts:ns:work".toList, CitationScheme := "book,line".toList,
    GroupName := "Group".toList, WorkTitle := "Work".toList, VersionLabel := "Version".toList,
    ExemplarLabel := "".toList, Online := "true".toList, Lang := "eng".toList }

/-- A request for a passage that the example work does not hold. -/
def unmatchedRequest : Str := "urn:cts:ns:work:9".toList

/-- Records of which the first continues the request `urn:cts:ns:work:1` with a further digit
and no separator. -/
def elevenLines : List (Str × Str) :=
  [("urn:cts:ns:work:11".toList, "alpha".toList), ("urn:cts:ns:work:2".toList, "beta".toList)]

/-- Records of a work two of whose nodes lie four levels below `urn:cts:ns:work:1`, after a
node of another chapter. -/
def deepLines : List (Str × Str) :=
  [("urn:cts:ns:work:2".toList, "alpha".toList),
   ("urn:cts:ns:work:1.1.1.1.1".toList, "beta".toList),
   ("urn:cts:ns:work:1.1.1.1.2".toList, "gamma".toList)]

/-- The work built from `deepLines`. -/
def deepWork : Work :=
  { WorkURN := exampleStem
    URN := ["urn:cts:ns:work:2".toList, "urn:cts:ns:work:1.1.1.1.1".toList,
            "urn:cts:ns:work:1.1.1.1.2".toList]
    Text := ["alpha".toList, "beta".toList, "gamma".toList]
    Index := [1, 2, 3] }

/-- A map order: the keys in the reverse of their insertion order. -/
def reverseOrder : MapOrder := ⟨fun l => l.reverse, fun l => List.reverse_perm l⟩

/-! ## Facts about the string primitives -/

theorem Split_ne_nil (s : Str) (sep : Char) : Split s sep ≠ [] := by
  induction s with
  | nil => simp [Split]
  | cons c cs ih =>
    unfold Split
    split
    · simp
    · split
      · simp
      · simp

theorem Contains_iff_occurs (s sub : Str) : Contains s sub = true ↔ sub <:+: s := by
  induction s with
  | nil =>
    cases sub <;> simp [Contains]
  | cons c cs ih =>
    unfold Contains
    rw [Bool.or_eq_true, ih, List.infix_cons_iff, List.isPrefixOf_iff_prefix]

theorem Contains_singleton (s : Str) (c : Char) : Contains s [c] = true ↔ c ∈ s := by
  rw [Contains_iff_occurs]
  constructor
  · rintro ⟨a, b, h⟩
    rw [← h]
    simp
  · intro h
    obtain ⟨a, b, rfl⟩ := List.append_of_mem h
    exact ⟨a, b, by simp⟩

theorem Split_cons_sep (cs : Str) (sep : Char) : Split (sep :: cs) sep = [] :: Split cs sep := by
  simp [Split]

theorem Split_cons_ne (c : Char) (cs : Str) (sep : Char) (f : Str) (fs : List Str) (h : c ≠ sep)
    (hs : Split cs sep = f :: fs) : Split (c :: cs) sep = (c :: f) :: fs := by
  simp [Split, h, hs]

theorem Split_exists_cons (s : Str) (sep : Char) : ∃ f fs, Split s sep = f :: fs := by
  cases h : Split s sep with
  | nil => exact absurd h (Split_ne_nil s sep)
  | cons f fs => exact ⟨f, fs, rfl⟩

theorem Split_length (s : Str) (sep : Char) : (Split s sep).length = s.count sep + 1 := by
  induction s with
  | nil => simp [Split]
  | cons c cs ih =>
    by_cases h : c = sep
    · subst h
      rw [Split_cons_sep]
      simp [ih]
    · obtain ⟨f, fs, hs⟩ := Split_exists_cons cs sep
      rw [Split_cons_ne c cs sep f fs h hs, List.count_cons_of_ne (Ne.symm h), ← ih, hs]
      simp

theorem Split_append_sep (x y : Str) (sep : Char) :
    Split (x ++ sep :: y) sep = Split x sep ++ Split y sep := by
  induction x with
  | nil => simp [Split]
  | cons c x ih =>
    by_cases h : c = sep
    · subst h
      rw [List.cons_append, Split_cons_sep, Split_cons_sep, ih]
      rfl
    · obtain ⟨f, fs, hs⟩ := Split_exists_cons x sep
      rw [List.cons_append, Split_cons_ne c x sep f fs h hs,
        Split_cons_ne c (x ++ sep :: y) sep f (fs ++ Split y sep) h (by rw [ih, hs]; rfl)]
      rfl

theorem Split_append_of_not_mem (a x : Str) (sep : Char) (f : Str) (fs : List Str)
    (ha : sep ∉ a) (hs : Split x sep = f :: fs) : Split (a ++ x) sep = (a ++ f) :: fs := by
  induction a with
  | nil => simpa using hs
  | cons c a ih =>
    have hc : c ≠ sep := fun h => ha (by simp [h])
    have ha' : sep ∉ a := fun h => ha (List.mem_cons_of_mem _ h)
    rw [List.cons_append, Split_cons_ne c (a ++ x) sep (a ++ f) fs hc (ih ha')]
    rfl

theorem Split_of_not_mem (a : Str) (sep : Char) (ha : sep ∉ a) : Split a sep = [a] := by
  have := Split_append_of_not_mem a [] sep [] [] ha (by simp [Split])
  simpa using this

theorem Split_fields_not_mem (s : Str) (sep : Char) : ∀ f ∈ Split s sep, sep ∉ f := by
  induction s with
  | nil => simp [Split]
  | cons c cs ih =>
    by_cases h : c = sep
    · subst h
      rw [Split_cons_sep]
      intro f hf
      rcases List.mem_cons.mp hf with rfl | hf
      · simp
      · exact ih f hf
    · obtain ⟨g, gs, hs⟩ := Split_exists_cons cs sep
      rw [Split_cons_ne c cs sep g gs h hs]
      rw [hs] at ih
      intro f hf
      rcases List.mem_cons.mp hf with rfl | hf
      · intro hmem
        rcases List.mem_cons.mp hmem with h' | h'
        · exact h h'.symm
        · exact ih g (List.mem_cons_self _ _) h'
      · exact ih f (List.mem_cons_of_mem _ hf)

theorem Join_cons_cons (f g : Str) (fs : List Str) (sep : Str) :
    Join (f :: g :: fs) sep = f ++ sep ++ Join (g :: fs) sep := by
  simp [Join]

theorem Join_Split (s : Str) (sep : Char) : Join (Split s sep) [sep] = s := by
  induction s with
  | nil => simp [Split, Join]
  | cons c cs ih =>
    by_cases h : c = sep
    · subst h
      obtain ⟨f, fs, hs⟩ := Split_exists_cons cs c
      rw [Split_cons_sep, hs, Join_cons_cons, ← hs, ih]
      simp
    · obtain ⟨f, fs, hs⟩ := Split_exists_cons cs sep
      rw [Split_cons_ne c cs sep f fs h hs]
      rw [hs] at ih
      cases fs with
      | nil =>
        simp only [Join] at ih ⊢
        rw [ih]
      | cons g gs =>
        rw [Join_cons_cons] at ih ⊢
        rw [← ih]
        simp

theorem Split_injective (s t : Str) (sep : Char) (h : Split s sep = Split t sep) : s = t := by
  rw [← Join_Split s sep, ← Join_Split t sep, h]

theorem Split_Join (F : List Str) (sep : Char) (hne : F ≠ []) (hF : ∀ f ∈ F, sep ∉ f) :
    Split (Join F [sep]) sep = F := by
  induction F with
  | nil => exact absurd rfl hne
  | cons f fs ih =>
    cases fs with
    | nil =>
      simp only [Join]
      exact Split_of_not_mem f sep (hF f (List.mem_cons_self _ _))
    | cons g gs =>
      rw [Join_cons_cons, List.append_assoc, List.singleton_append, Split_append_sep,
        Split_of_not_mem f sep (hF f (List.mem_cons_self _ _)),
        ih (by simp) (fun f' hf' => hF f' (List.mem_cons_of_mem _ hf'))]
      rfl

/-! ## C1, C2: the validators -/

theorem isCTSURN_true_iff (s : Str) :
    isCTSURN s = true ↔
      ((Split s ':').length = 4 ∨ (Split s ':').length = 5) ∧
        (Split s ':')[0]? = some "urn".toList ∧ (Split s ':')[1]? = some "cts".toList := by
  unfold isCTSURN
  simp only []
  split_ifs with h1 h2 h3 h4
  · simp; omega
  · simp; omega
  · simp; intro _ h; exact absurd h h3
  · simp; intro _ _; exact h4
  · simp only [ne_eq, Decidable.not_not] at h3 h4
    simp [h3, h4]; omega

/-- C1: `isCTSURN s` holds exactly when `s` splits on ':' into 4 or 5 fields of which the
first is "urn" and the second is "cts"; so two strings that agree on the number of fields
and on the first two fields get the same verdict, whatever the other fields are. -/
theorem isCTSURN_iff (s : Str) :
    (isCTSURN s = true ↔
      ((Split s ':').length = 4 ∨ (Split s ':').length = 5) ∧
        (Split s ':')[0]? = some "urn".toList ∧ (Split s ':')[1]? = some "cts".toList) ∧
    ∀ t : Str, (Split t ':').length = (Split s ':').length →
      (Split t ':')[0]? = (Split s ':')[0]? → (Split t ':')[1]? = (Split s ':')[1]? →
      isCTSURN t = isCTSURN s := by
  refine ⟨isCTSURN_true_iff s, ?_⟩
  intro t hl h0 h1
  unfold isCTSURN
  simp only [hl, h0, h1]

theorem isRange_true_iff (s : Str) :
    isRange s = true ↔
      5 ≤ (Split s ':').length ∧ ∃ ref, (Split s ':')[4]? = some ref ∧ '-' ∈ ref := by
  unfold isRange
  by_cases h : (Split s ':').length < 5
  · rw [if_pos h]
    constructor
    · intro hf; cases hf
    · rintro ⟨h5, _⟩; omega
  · have h5 : 5 ≤ (Split s ':').length := by omega
    rw [if_neg h]
    cases hq : (Split s ':')[4]? with
    | none =>
      constructor
      · intro hf; cases hf
      · rintro ⟨_, r, hr, _⟩; cases hr
    | some ref =>
      have hc : Contains ref "-".toList = true ↔ '-' ∈ ref := Contains_singleton ref '-'
      by_cases hm : '-' ∈ ref
      · simp only [if_pos (hc.mpr hm)]
        exact ⟨fun _ => ⟨h5, ref, rfl, hm⟩, fun _ => trivial⟩
      · simp only [if_neg (fun hcon => hm (hc.mp hcon))]
        constructor
        · intro hf; cases hf
        · rintro ⟨_, r, hr, hmem⟩
          cases hr
          exact absurd hmem hm

/-- C2: `isRange s` holds exactly when `s` has at least five ':'-separated fields and the
fifth field contains the character '-'; it is false for every string with four fields. -/
theorem isRange_iff (s : Str) :
    (isRange s = true ↔
      5 ≤ (Split s ':').length ∧ ∃ ref, (Split s ':')[4]? = some ref ∧ '-' ∈ ref) ∧
    ((Split s ':').length = 4 → isRange s = false) := by
  refine ⟨?_, ?_⟩
  · exact isRange_true_iff s
  · intro h4
    unfold isRange
    simp [h4]

/-! ## C3, C4: the work-building loop -/

theorem ParseWork_foldl (lines : List (Str × Str)) (acc : Work) :
    lines.foldl
        (fun response line =>
          { response with URN := response.URN ++ [line.1], Text := response.Text ++ [line.2] })
        acc =
      { acc with URN := acc.URN ++ lines.map Prod.fst, Text := acc.Text ++ lines.map Prod.snd } := by
  induction lines generalizing acc with
  | nil => simp
  | cons l ls ih => simp [ih]

theorem ParseWork_URN (lines : List (Str × Str)) : (ParseWork lines).URN = lines.map Prod.fst := by
  simp [ParseWork, ParseWork_foldl]

theorem ParseWork_Text (lines : List (Str × Str)) : (ParseWork lines).Text = lines.map Prod.snd := by
  simp [ParseWork, ParseWork_foldl]

theorem cropToStem_isSome (u : Str) : (cropToStem u).isSome = true ↔ 4 ≤ (Split u ':').length := by
  unfold cropToStem goSlice
  by_cases h : 4 ≤ (Split u ':').length
  · have : (0 : Int) ≤ 0 ∧ (0 : Int) ≤ 4 ∧ (4 : Int) ≤ ((Split u ':').length : Int) := by omega
    simp [this, h]
  · have : ¬ ((0 : Int) ≤ 0 ∧ (0 : Int) ≤ 4 ∧ (4 : Int) ≤ ((Split u ':').length : Int)) := by omega
    simp [this, h]

theorem buildLoop_eq (workResult : Work) (ls : List (Str × Str)) :
    ∀ (i : Nat) (rw : Work) (run : Int),
      (∀ l ∈ ls, 4 ≤ (Split l.1 ':').length) →
      workResult.Text.drop i = ls.map Prod.snd →
      buildLoop workResult (ls.map Prod.fst) i rw run =
        some { rw with
          URN := rw.URN ++ (keptLines ls rw.WorkURN).map Prod.fst
          Text := rw.Text ++ (keptLines ls rw.WorkURN).map Prod.snd
          Index := rw.Index ++
            (List.range (keptLines ls rw.WorkURN).length).map (fun (k : Nat) => run + (k : Int) + 1) } := by
  induction ls with
  | nil => intro i rw run _ _; simp [buildLoop, keptLines]
  | cons l ls ih =>
    intro i rw run hfields htext
    have h4 : 4 ≤ (Split l.1 ':').length := hfields l (List.mem_cons_self _ _)
    obtain ⟨stem, hstem⟩ := Option.isSome_iff_exists.mp ((cropToStem_isSome l.1).mpr h4)
    have hrest : ∀ l' ∈ ls, 4 ≤ (Split l'.1 ':').length :=
      fun l' hl' => hfields l' (List.mem_cons_of_mem _ hl')
    have hti : workResult.Text[i]? = some l.2 := by
      have := congrArg (fun t => t[0]?) htext
      simpa using this
    have htext' : workResult.Text.drop (i + 1) = ls.map Prod.snd := by
      have := congrArg List.tail htext
      simpa [List.tail_drop] using this
    simp only [List.map_cons, buildLoop, hstem, Option.bind_eq_bind, Option.some_bind]
    by_cases hs : stem = rw.WorkURN
    · rw [if_pos hs, hti]
      simp only [Option.some_bind]
      rw [ih (i + 1) _ (run + 1) hrest htext']
      have hk : keptLines (l :: ls) rw.WorkURN = l :: keptLines ls rw.WorkURN := by
        simp [keptLines, hstem, hs]
      simp only [hk, List.map_cons, List.length_cons, List.range_succ_eq_map, List.map_map,
        List.append_assoc, List.singleton_append]
      congr 2
      simp only [Work.mk.injEq, true_and, List.append_cancel_left_eq, List.cons.injEq]
      refine ⟨by simp, ?_⟩
      apply List.map_congr_left
      intro k _
      simp only [Function.comp, Nat.succ_eq_add_one]
      push_cast
      ring
    · rw [if_neg hs]
      rw [ih (i + 1) rw run hrest htext']
      have hk : keptLines (l :: ls) rw.WorkURN = keptLines ls rw.WorkURN := by
        simp [keptLines, hstem, hs]
      rw [hk]

theorem buildWork_eq (lines : List (Str × Str)) (stem : Str)
    (h : ∀ l ∈ lines, 4 ≤ (Split l.1 ':').length) :
    buildWork (ParseWork lines) stem =
      some { WorkURN := stem
             URN := (keptLines lines stem).map Prod.fst
             Text := (keptLines lines stem).map Prod.snd
             Index := (List.range (keptLines lines stem).length).map (fun (k : Nat) => (k : Int) + 1) } := by
  unfold buildWork
  rw [ParseWork_URN, buildLoop_eq (ParseWork lines) lines 0 _ 0 h (by simp [ParseWork_Text])]
  simp

theorem keptLines_length (lines : List (Str × Str)) (stem : Str) :
    (keptLines lines stem).length = lines.countP (fun l => decide (cropToStem l.1 = some stem)) := by
  simp [keptLines, List.countP_eq_length_filter]

theorem range_map_succ_eq (n : Nat) :
    (List.range n).map (fun (k : Nat) => (k : Int) + 1) =
      (List.range' 1 n).map (fun (k : Nat) => (k : Int)) := by
  rw [List.range'_eq_map_range, List.map_map]
  apply List.map_congr_left
  intro k _
  simp only [Function.comp]
  push_cast
  ring

theorem range_map_succ_getElem? (n i : Nat) (h : i < n) :
    ((List.range n).map (fun (k : Nat) => (k : Int) + 1))[i]? = some ((i : Int) + 1) := by
  simp [List.getElem?_map, List.getElem?_range h]

theorem range_map_succ_nodup (n : Nat) :
    ((List.range n).map (fun (k : Nat) => (k : Int) + 1)).Nodup := by
  apply List.Nodup.map _ (List.nodup_range n)
  intro a b hab
  simpa using hab

theorem buildWork_wellFormed (lines : List (Str × Str)) (stem : Str) (w : Work)
    (h : ∀ l ∈ lines, 4 ≤ (Split l.1 ':').length)
    (hw : buildWork (ParseWork lines) stem = some w) : w.WellFormed := by
  rw [buildWork_eq lines stem h] at hw
  cases hw
  simp [Work.WellFormed]

/-- C3: when every record URN has at least four fields (otherwise the handler has already
panicked), the filtering loop returns a work whose `Index` is `[1, 2, ..., N]`, where `N`
counts the records whose first four fields joined by ':' equal the stem: position `i`
holds `i + 1`, no value occurs twice, and `URN`, `Text` and `Index` all have length `N`. -/
theorem buildWork_index_enumeration (lines : List (Str × Str)) (stem : Str)
    (h : ∀ l ∈ lines, 4 ≤ (Split l.1 ':').length) :
    ∃ w, buildWork (ParseWork lines) stem = some w ∧
      w.Index =
        (List.range' 1 (lines.countP (fun l => decide (cropToStem l.1 = some stem)))).map
          (fun (k : Nat) => (k : Int)) ∧
      (∀ i, i < lines.countP (fun l => decide (cropToStem l.1 = some stem)) →
        w.Index[i]? = some ((i : Int) + 1)) ∧
      w.Index.Nodup ∧
      w.URN.length = lines.countP (fun l => decide (cropToStem l.1 = some stem)) ∧
      w.Text.length = lines.countP (fun l => decide (cropToStem l.1 = some stem)) ∧
      w.Index.length = lines.countP (fun l => decide (cropToStem l.1 = some stem)) := by
  refine ⟨_, buildWork_eq lines stem h, ?_, ?_, ?_, ?_, ?_, ?_⟩
  · simp only [keptLines_length, range_map_succ_eq]
  · intro i hi
    simp only [keptLines_length]
    exact range_map_succ_getElem? _ i hi
  · exact range_map_succ_nodup _
  · simp [keptLines_length]
  · simp [keptLines_length]
  · simp [keptLines_length]

/-- Witness of C3 on the example records: the built work has `Index = [1, 2, 3]`. -/
theorem buildWork_index_enumeration_witness :
    (∀ l ∈ exampleLines, 4 ≤ (Split l.1 ':').length) ∧
    ∃ w, buildWork (ParseWork exampleLines) exampleStem = some w ∧
      w.Index =
        (List.range' 1 (exampleLines.countP
          (fun l => decide (cropToStem l.1 = some exampleStem)))).map (fun (k : Nat) => (k : Int)) ∧
      (∀ i, i < exampleLines.countP (fun l => decide (cropToStem l.1 = some exampleStem)) →
        w.Index[i]? = some ((i : Int) + 1)) ∧
      w.Index.Nodup ∧
      w.URN.length = exampleLines.countP (fun l => decide (cropToStem l.1 = some exampleStem)) ∧
      w.Text.length = exampleLines.countP (fun l => decide (cropToStem l.1 = some exampleStem)) ∧
      w.Index.length = exampleLines.countP (fun l => decide (cropToStem l.1 = some exampleStem)) :=
  ⟨by decide, buildWork_index_enumeration exampleLines exampleStem (by decide)⟩

/-- C4: when every record URN has at least four fields, the `(URN, Text)` pairs of the built
work are exactly the records whose first four fields joined by ':' equal the stem, in
their original order; so every node URN of the work has that stem. -/
theorem buildWork_pairs (lines : List (Str × Str)) (stem : Str)
    (h : ∀ l ∈ lines, 4 ≤ (Split l.1 ':').length) :
    ∃ w, buildWork (ParseWork lines) stem = some w ∧
      List.zip w.URN w.Text = lines.filter (fun l => decide (cropToStem l.1 = some stem)) ∧
      ∀ u ∈ w.URN, cropToStem u = some stem := by
  refine ⟨_, buildWork_eq lines stem h, ?_, ?_⟩
  · show List.zip ((keptLines lines stem).map Prod.fst) ((keptLines lines stem).map Prod.snd) = _
    rw [List.zip_map']
    simp [keptLines]
  · intro u hu
    simp only [keptLines, List.mem_map, List.mem_filter, decide_eq_true_eq] at hu
    obtain ⟨l, ⟨_, hl⟩, rfl⟩ := hu
    exact hl

/-- Witness of C4 on the example records. -/
theorem buildWork_pairs_witness :
    (∀ l ∈ exampleLines, 4 ≤ (Split l.1 ':').length) ∧
    ∃ w, buildWork (ParseWork exampleLines) exampleStem = some w ∧
      List.zip w.URN w.Text =
        exampleLines.filter (fun l => decide (cropToStem l.1 = some exampleStem)) ∧
      ∀ u ∈ w.URN, cropToStem u = some exampleStem :=
  ⟨by decide, buildWork_pairs exampleLines exampleStem (by decide)⟩

/-! ## C5: the stem-selection loop -/

theorem Qualifies_of_loopTest (q S : Str) :
    (Contains q S = true ∧ (q = S ∨ Contains q (S ++ ":".toList) = true)) ↔ Qualifies q S := by
  unfold Qualifies
  rw [Contains_iff_occurs, Contains_iff_occurs]
  constructor
  · rintro ⟨_, h⟩; exact h
  · intro h
    refine ⟨?_, h⟩
    rcases h with h | h
    · rw [h]
    · exact (List.prefix_append S ":".toList).isInfix.trans h

theorem selectLoop_cons (q S : Str) (ws : List Str) (i wi : Nat) [Decidable (Qualifies q S)] :
    selectLoop q (S :: ws) i wi = selectLoop q ws (i + 1) (if Qualifies q S then i + 1 else wi) := by
  have hq := Qualifies_of_loopTest q S
  simp only [selectLoop]
  by_cases h1 : Contains q S = true
  · rw [if_pos h1]
    by_cases h2 : q = S
    · rw [if_pos h2, if_pos (hq.mp ⟨h1, Or.inl h2⟩)]
    · rw [if_neg h2]
      by_cases h3 : Contains q (S ++ ":".toList) = true
      · rw [if_pos h3, if_pos (hq.mp ⟨h1, Or.inr h3⟩)]
      · rw [if_neg h3, if_neg]
        intro hQ
        rcases (hq.mpr hQ).2 with h | h
        · exact h2 h
        · exact h3 h
  · rw [if_neg h1, if_neg]
    intro hQ
    exact h1 (hq.mpr hQ).1

theorem selectLoop_none (q : Str) (ws : List Str) :
    ∀ (i wi : Nat), (∀ S ∈ ws, ¬ Qualifies q S) → selectLoop q ws i wi = wi := by
  classical
  induction ws with
  | nil => intro i wi _; rfl
  | cons S ws ih =>
    intro i wi h
    rw [selectLoop_cons, if_neg (h S (List.mem_cons_self _ _))]
    exact ih _ _ (fun S' hS' => h S' (List.mem_cons_of_mem _ hS'))

theorem selectLoop_last (q : Str) (a : List Str) (S : Str) (b : List Str) :
    ∀ (i wi : Nat), Qualifies q S → (∀ S' ∈ b, ¬ Qualifies q S') →
      selectLoop q (a ++ S :: b) i wi = i + a.length + 1 := by
  classical
  induction a with
  | nil =>
    intro i wi hS hb
    rw [List.nil_append, selectLoop_cons, if_pos hS, selectLoop_none q b _ _ hb]
    simp
  | cons x a ih =>
    intro i wi hS hb
    rw [List.cons_append, selectLoop_cons, ih _ _ hS hb]
    simp only [List.length_cons]
    omega

theorem cropToStem_some (u S : Str) (h : cropToStem u = some S) :
    4 ≤ (Split u ':').length ∧ S = Join ((Split u ':').take 4) [':'] := by
  have h4 : 4 ≤ (Split u ':').length := (cropToStem_isSome u).mp (by rw [h]; rfl)
  refine ⟨h4, ?_⟩
  unfold cropToStem goSlice at h
  have hc : (0 : Int) ≤ 0 ∧ (0 : Int) ≤ 4 ∧ (4 : Int) ≤ ((Split u ':').length : Int) := by omega
  rw [if_pos hc] at h
  simpa using h.symm

theorem cropToStem_Split (u S : Str) (h : cropToStem u = some S) :
    Split S ':' = (Split u ':').take 4 ∧ (Split S ':').length = 4 := by
  obtain ⟨h4, hS⟩ := cropToStem_some u S h
  have hsp : Split S ':' = (Split u ':').take 4 := by
    rw [hS]
    apply Split_Join
    · intro hnil
      rcases List.take_eq_nil_iff.mp hnil with h0 | h0
      · omega
      · exact Split_ne_nil u ':' h0
    · intro f hf
      exact Split_fields_not_mem u ':' f (List.mem_of_mem_take hf)
  refine ⟨hsp, ?_⟩
  rw [hsp, List.length_take]
  omega

theorem Split_urn_cts (rest : Str) :
    Split ("urn:cts:".toList ++ rest) ':' = "urn".toList :: "cts".toList :: Split rest ':' := by
  simp [Split]

theorem UrnStem_of_crop (u S : Str) (hu : "urn:cts:".toList <+: u) (h : cropToStem u = some S) :
    UrnStem S := by
  obtain ⟨hsp, hlen⟩ := cropToStem_Split u S h
  refine ⟨hlen, ?_⟩
  obtain ⟨rest, rfl⟩ := hu
  rw [hsp, Split_urn_cts]
  rfl

theorem isCTSURN_fields (q : Str) (hq : isCTSURN q = true) :
    (Split q ':').length ≤ 5 ∧ (Split q ':')[0]? = some "urn".toList := by
  have := (isCTSURN_true_iff q).mp hq
  exact ⟨by omega, this.2.1⟩

theorem prefix_of_qualifies (q S : Str) (hq : isCTSURN q = true) (hS : UrnStem S)
    (h : Qualifies q S) : q = S ∨ (S ++ ":".toList) <+: q := by
  rcases h with h | ⟨a, b, hab⟩
  · exact Or.inl h
  · right
    obtain ⟨hlen, h0⟩ := isCTSURN_fields q hq
    obtain ⟨hS4, hS0⟩ := hS
    have hq' : q = (a ++ S) ++ ':' :: b := by
      rw [← hab]; simp
    have hsplit : Split q ':' = Split (a ++ S) ':' ++ Split b ':' := by
      rw [hq', Split_append_sep]
    have hl := congrArg List.length hsplit
    rw [List.length_append, Split_length (a ++ S), Split_length b, List.count_append] at hl
    rw [Split_length S] at hS4
    have hca : a.count ':' = 0 := by omega
    have ha : ':' ∉ a := List.count_eq_zero.mp hca
    obtain ⟨f, fs, hfs⟩ := Split_exists_cons S ':'
    rw [hfs] at hS0
    have hf : f = "urn".toList := by simpa using hS0
    rw [Split_append_of_not_mem a S ':' f fs ha hfs] at hsplit
    rw [hsplit] at h0
    have hau : a ++ f = "urn".toList := by simpa using h0
    rw [hf] at hau
    have hnil : a = [] := by
      have := congrArg List.length hau
      simp only [List.length_append] at this
      exact List.length_eq_zero.mp (by omega)
    subst hnil
    exact ⟨b, by rw [hq']; simp⟩

theorem qualifies_of_startsWith (q S : Str) (h : q = S ∨ (S ++ ":".toList) <+: q) : Qualifies q S := by
  rcases h with h | h
  · exact Or.inl h
  · exact Or.inr h.isInfix

theorem stem_unique (q S T : Str) (hS : (Split S ':').length = 4) (hT : (Split T ':').length = 4)
    (h1 : q = S ∨ (S ++ ":".toList) <+: q) (h2 : q = T ∨ (T ++ ":".toList) <+: q) : S = T := by
  have key : ∀ X b : Str, (X ++ ":".toList) ++ b = q →
      Split q ':' = Split X ':' ++ Split b ':' := by
    intro X b hb
    rw [← hb]
    have : (X ++ ":".toList) ++ b = X ++ ':' :: b := by simp
    rw [this, Split_append_sep]
  rcases h1 with h1 | ⟨b, hb⟩ <;> rcases h2 with h2 | ⟨c, hc⟩
  · rw [← h1, ← h2]
  · exfalso
    have := congrArg List.length (key T c hc)
    rw [h1, hS, List.length_append, hT, Split_length c] at this
    omega
  · exfalso
    have := congrArg List.length (key S b hb)
    rw [h2, hT, List.length_append, hS, Split_length b] at this
    omega
  · have h := (key S b hb).symm.trans (key T c hc)
    exact Split_injective S T ':' (List.append_inj h (by rw [hS, hT])).1

theorem foldl_mapInsert (elements : List Str) :
    ∀ acc : List Str, acc.Nodup →
      (elements.foldl mapInsert acc).Nodup ∧
        ∀ x, x ∈ elements.foldl mapInsert acc ↔ x ∈ acc ∨ x ∈ elements := by
  induction elements with
  | nil => intro acc h; simp [h]
  | cons e es ih =>
    intro acc h
    have hn : (mapInsert acc e).Nodup := by
      unfold mapInsert
      split_ifs with he
      · exact h
      · exact List.Nodup.append h (List.nodup_singleton e) (by simpa using he)
    obtain ⟨h1, h2⟩ := ih (mapInsert acc e) hn
    refine ⟨h1, ?_⟩
    intro x
    rw [List.foldl_cons, h2]
    unfold mapInsert
    split_ifs with he
    · constructor
      · rintro (hx | hx)
        · exact Or.inl hx
        · exact Or.inr (List.mem_cons_of_mem _ hx)
      · rintro (hx | hx)
        · exact Or.inl hx
        · rcases List.mem_cons.mp hx with rfl | hx
          · exact Or.inl he
          · exact Or.inr hx
    · simp only [List.mem_append, List.mem_singleton, List.mem_cons]
      tauto

theorem removeDuplicatesUnordered_nodup (o : MapOrder) (elements : List Str) :
    (removeDuplicatesUnordered o elements).Nodup :=
  (o.perm _).nodup_iff.mpr (foldl_mapInsert elements [] List.nodup_nil).1

theorem mem_removeDuplicatesUnordered (o : MapOrder) (elements : List Str) (x : Str) :
    x ∈ removeDuplicatesUnordered o elements ↔ x ∈ elements := by
  unfold removeDuplicatesUnordered
  rw [(o.perm _).mem_iff, (foldl_mapInsert elements [] List.nodup_nil).2]
  simp

theorem cropAll_mem (urns : List Str) :
    ∀ cropped, cropAll urns = some cropped → ∀ S ∈ cropped, ∃ u ∈ urns, cropToStem u = some S := by
  induction urns with
  | nil =>
    intro cropped h S hS
    simp [cropAll] at h
    subst h
    simp at hS
  | cons u us ih =>
    intro cropped h S hS
    simp only [cropAll, Option.bind_eq_bind, Option.bind_eq_some] at h
    obtain ⟨stem, hstem, rest, hrest, hpure⟩ := h
    simp only [Option.pure_def, Option.some.injEq] at hpure
    subst hpure
    rcases List.mem_cons.mp hS with rfl | hS
    · exact ⟨u, List.mem_cons_self _ _, hstem⟩
    · obtain ⟨u', hu', h'⟩ := ih rest hrest S hS
      exact ⟨u', List.mem_cons_of_mem _ hu', h'⟩

theorem getElem?_split {α : Type} (l : List α) (i : Nat) (x : α) (h : l[i]? = some x) :
    ∃ a b, l = a ++ x :: b ∧ a.length = i := by
  obtain ⟨hi, hx⟩ := List.getElem?_eq_some.mp h
  refine ⟨l.take i, l.drop (i + 1), ?_, ?_⟩
  · rw [← hx, ← List.drop_eq_getElem_cons hi, List.take_append_drop]
  · rw [List.length_take]
    omega

theorem selectWork_of_unique (q : Str) (works a b : List Str) (T : Str)
    (hq : isCTSURN q = true) (hnd : works.Nodup) (hwf : ∀ X ∈ works, UrnStem X)
    (hw : works = a ++ T :: b) (hT : Qualifies q T) : selectWork q works = a.length + 1 := by
  have hTmem : T ∈ works := by rw [hw]; simp
  have hb : ∀ X ∈ b, ¬ Qualifies q X := by
    intro X hX hQX
    have hXmem : X ∈ works := by rw [hw]; simp [hX]
    have hTX : T = X :=
      stem_unique q T X (hwf T hTmem).1 (hwf X hXmem).1
        (prefix_of_qualifies q T hq (hwf T hTmem) hT)
        (prefix_of_qualifies q X hq (hwf X hXmem) hQX)
    rw [hw] at hnd
    have := (List.nodup_append.mp hnd).2.1
    rw [List.nodup_cons] at this
    exact this.1 (hTX ▸ hX)
  unfold selectWork
  rw [hw, selectLoop_last q a T b 0 0 hT hb]
  omega

/-- The stems computed from a corpus whose URNs all begin with "urn:cts:" have four fields
of which the first is "urn". -/
theorem works_urnStem (o : MapOrder) (lines : List (Str × Str)) (cropped : List Str)
    (hwf : ∀ l ∈ lines, "urn:cts:".toList <+: l.1)
    (hc : cropAll (ParseWork lines).URN = some cropped) :
    ∀ X ∈ removeDuplicatesUnordered o cropped, UrnStem X := by
  intro X hX
  rw [mem_removeDuplicatesUnordered] at hX
  obtain ⟨u, hu, hux⟩ := cropAll_mem _ cropped hc X hX
  rw [ParseWork_URN] at hu
  obtain ⟨l, hl, rfl⟩ := List.mem_map.mp hu
  exact UrnStem_of_crop l.1 X (hwf l hl) hux

/-- The stem-selection loop in general: it ends at the position of the last stem that
equals the request or that the request contains followed by ':', and at 0 without one. -/
theorem selectWork_last_qualifying (q : Str) (works : List Str) :
    ((∀ X ∈ works, ¬ Qualifies q X) → selectWork q works = 0) ∧
    ∀ a T b, works = a ++ T :: b → Qualifies q T → (∀ X ∈ b, ¬ Qualifies q X) →
      selectWork q works = a.length + 1 := by
  refine ⟨fun h => selectLoop_none q works 0 0 h, ?_⟩
  intro a T b hw hT hb
  unfold selectWork
  rw [hw, selectLoop_last q a T b 0 0 hT hb]
  omega

/-- C5 (amended): for a validated request `q` and a corpus whose record URNs all begin with
"urn:cts:", a stem `S` at position `i` of the deduplicated stem list is selected
(`workindex` ends as `i + 1`) exactly when `q` equals `S` or `q` starts with `S` followed
by ':'. -/
theorem selectWork_iff_prefix (o : MapOrder) (lines : List (Str × Str)) (cropped : List Str)
    (q : Str) (i : Nat) (S : Str)
    (hq : isCTSURN q = true)
    (hwf : ∀ l ∈ lines, "urn:cts:".toList <+: l.1)
    (hc : cropAll (ParseWork lines).URN = some cropped)
    (hS : (removeDuplicatesUnordered o cropped)[i]? = some S) :
    selectWork q (removeDuplicatesUnordered o cropped) = i + 1 ↔
      (q = S ∨ (S ++ ":".toList) <+: q) := by
  have hnd := removeDuplicatesUnordered_nodup o cropped
  have hus := works_urnStem o lines cropped hwf hc
  obtain ⟨a, b, hw, ha⟩ := getElem?_split _ i S hS
  have hSmem : S ∈ removeDuplicatesUnordered o cropped := by rw [hw]; simp
  constructor
  · intro hsel
    by_cases hex : ∃ T ∈ removeDuplicatesUnordered o cropped, Qualifies q T
    · obtain ⟨T, hTmem, hT⟩ := hex
      obtain ⟨a', b', hw'⟩ := List.append_of_mem hTmem
      have hsel' := selectWork_of_unique q _ a' b' T hq hnd hus hw' hT
      have hlen : a'.length = i := by omega
      have hTS : (removeDuplicatesUnordered o cropped)[i]? = some T := by
        rw [hw', ← hlen]
        exact List.getElem?_eq_some.mpr ⟨by simp, List.getElem_of_append rfl rfl⟩
      rw [hS] at hTS
      cases hTS
      exact prefix_of_qualifies q S hq (hus S hSmem) hT
    · exfalso
      have hnone : ∀ X ∈ removeDuplicatesUnordered o cropped, ¬ Qualifies q X :=
        fun X hX hQ => hex ⟨X, hX, hQ⟩
      have h0 : selectWork q (removeDuplicatesUnordered o cropped) = 0 :=
        selectLoop_none q _ 0 0 hnone
      omega
  · intro hpre
    rw [selectWork_of_unique q _ a b S hq hnd hus hw (qualifies_of_startsWith q S hpre), ha]

/-- Witness of C5 (amended): on the example corpus the stem `urn:cts:ns:work` stands first
and the request `urn:cts:ns:work:1` selects it. -/
theorem selectWork_iff_prefix_witness :
    isCTSURN exampleRequest = true ∧
    (∀ l ∈ exampleLines, "urn:cts:".toList <+: l.1) ∧
    cropAll (ParseWork exampleLines).URN =
      some [exampleStem, "urn:cts:ns:other".toList, exampleStem, exampleStem] ∧
    (removeDuplicatesUnordered insertionOrder
      [exampleStem, "urn:cts:ns:other".toList, exampleStem, exampleStem])[0]? = some exampleStem ∧
    (selectWork exampleRequest (removeDuplicatesUnordered insertionOrder
        [exampleStem, "urn:cts:ns:other".toList, exampleStem, exampleStem]) = 0 + 1 ↔
      (exampleRequest = exampleStem ∨ (exampleStem ++ ":".toList) <+: exampleRequest)) :=
  ⟨by decide, by decide, by decide, by decide,
    selectWork_iff_prefix insertionOrder exampleLines _ exampleRequest 0 exampleStem
      (by decide) (by decide) (by decide) (by decide)⟩

/-- C5 fails as stated: over a corpus holding the record URN `:cts:ns:work:1` the validated
request `urn:cts:ns:work:1` selects the stem `:cts:ns:work` (the only stem, so `workindex`
ends as 1), although the request neither equals that stem nor starts with it followed by
':'. -/
theorem selectWork_counterexample :
    isCTSURN exampleRequest = true ∧
    cropAll (ParseWork headlessLines).URN = some [headlessStem] ∧
    removeDuplicatesUnordered insertionOrder [headlessStem] = [headlessStem] ∧
    selectWork exampleRequest [headlessStem] = 1 ∧
    ¬ (exampleRequest = headlessStem ∨ (headlessStem ++ ":".toList) <+: exampleRequest) := by
  refine ⟨by decide, by decide, by decide, by decide, ?_⟩
  decide

/-! ## C6: the level matchers -/

theorem char_eq_of_toNat (c d : Char) (h : c.toNat = d.toNat) : c = d := by
  apply Char.ext
  apply UInt32.ext
  exact h

theorem compClass_accepts (c : Char) : compClass.accepts c = isCompChar c := by
  have hpipe : (decide ('|'.toNat ≤ c.toNat) && decide (c.toNat ≤ '|'.toNat)) = decide (c = '|') := by
    by_cases h : c = '|'
    · subst h; rfl
    · have : c.toNat ≠ '|'.toNat := fun hn => h (char_eq_of_toNat c '|' hn)
      have h2 : ¬ ('|'.toNat ≤ c.toNat ∧ c.toNat ≤ '|'.toNat) := by omega
      simp only [decide_eq_false h]
      rw [← Bool.decide_and, decide_eq_false h2]
  simp only [compClass, Atom.accepts, isCompChar, List.any_cons, List.any_nil, Bool.or_false, hpipe,
    Bool.or_assoc]

theorem sepClass_accepts (c : Char) :
    sepClass.accepts c = true ↔ (c = ':' ∨ c = '|' ∨ c = '.') := by
  have key : ∀ d : Char, (decide (d.toNat ≤ c.toNat) && decide (c.toNat ≤ d.toNat)) = true ↔ c = d := by
    intro d
    rw [Bool.and_eq_true, decide_eq_true_eq, decide_eq_true_eq]
    constructor
    · intro h; exact char_eq_of_toNat c d (by omega)
    · intro h; subst h; exact ⟨le_refl _, le_refl _⟩
  simp only [sepClass, Atom.accepts, List.any_cons, List.any_nil, Bool.or_false, Bool.or_eq_true, key]

theorem atomOf_accepts (c x : Char) :
    (atomOf c).accepts x = true ↔ (if c = '.' then x ≠ '\n' else x = c) := by
  unfold atomOf
  split_ifs with h <;> simp [Atom.accepts]

theorem starLoop_iff (k : Str → Bool) (a : Atom) (s : Str) :
    starLoop k a s = true ↔
      ∃ xs t, s = xs ++ t ∧ (∀ c ∈ xs, a.accepts c = true) ∧ k t = true := by
  induction s with
  | nil =>
    simp only [starLoop]
    constructor
    · intro h; exact ⟨[], [], rfl, by simp, h⟩
    · rintro ⟨xs, t, hs, _, hk⟩
      have ht : t = [] := (List.append_eq_nil.mp hs.symm).2
      rw [← ht]; exact hk
  | cons c s ih =>
    simp only [starLoop, Bool.or_eq_true, Bool.and_eq_true, ih]
    constructor
    · rintro (h | ⟨hc, xs, t, hs, hxs, hk⟩)
      · exact ⟨[], c :: s, rfl, by simp, h⟩
      · refine ⟨c :: xs, t, by rw [hs]; rfl, ?_, hk⟩
        intro d hd
        rcases List.mem_cons.mp hd with rfl | hd
        · exact hc
        · exact hxs d hd
    · rintro ⟨xs, t, hs, hxs, hk⟩
      cases xs with
      | nil =>
        left
        rw [List.nil_append] at hs
        rw [hs]; exact hk
      | cons d xs =>
        right
        rw [List.cons_append, List.cons.injEq] at hs
        obtain ⟨rfl, rfl⟩ := hs
        exact ⟨hxs c (List.mem_cons_self _ _), xs, t, rfl,
          fun e he => hxs e (List.mem_cons_of_mem _ he), hk⟩

theorem matchHere_one (eot : Bool) (a : Atom) (ps : List Piece) (s : Str) :
    matchHere eot (.one a :: ps) s = true ↔
      ∃ c t, s = c :: t ∧ a.accepts c = true ∧ matchHere eot ps t = true := by
  cases s with
  | nil => simp [matchHere]
  | cons c t =>
    simp only [matchHere, Bool.and_eq_true]
    constructor
    · rintro ⟨h1, h2⟩; exact ⟨c, t, rfl, h1, h2⟩
    · rintro ⟨c', t', hs, h1, h2⟩
      rw [List.cons.injEq] at hs
      obtain ⟨rfl, rfl⟩ := hs
      exact ⟨h1, h2⟩

theorem matchHere_star (eot : Bool) (a : Atom) (ps : List Piece) (s : Str) :
    matchHere eot (.star a :: ps) s = true ↔
      ∃ xs t, s = xs ++ t ∧ (∀ c ∈ xs, a.accepts c = true) ∧ matchHere eot ps t = true := by
  simp only [matchHere, starLoop_iff]

theorem matchHere_plus (eot : Bool) (a : Atom) (ps : List Piece) (s : Str) :
    matchHere eot (.plus a :: ps) s = true ↔
      ∃ xs t, s = xs ++ t ∧ xs ≠ [] ∧ (∀ c ∈ xs, a.accepts c = true) ∧
        matchHere eot ps t = true := by
  cases s with
  | nil =>
    simp only [matchHere]
    constructor
    · intro h; cases h
    · rintro ⟨xs, t, hs, hne, _⟩
      exact absurd (List.append_eq_nil.mp hs.symm).1 hne
  | cons c s =>
    simp only [matchHere, Bool.and_eq_true, starLoop_iff]
    constructor
    · rintro ⟨hc, xs, t, hs, hxs, hk⟩
      refine ⟨c :: xs, t, by rw [hs]; rfl, by simp, ?_, hk⟩
      intro d hd
      rcases List.mem_cons.mp hd with rfl | hd
      · exact hc
      · exact hxs d hd
    · rintro ⟨xs, t, hs, hne, hxs, hk⟩
      cases xs with
      | nil => exact absurd rfl hne
      | cons d xs =>
        rw [List.cons_append, List.cons.injEq] at hs
        obtain ⟨rfl, rfl⟩ := hs
        exact ⟨hxs c (List.mem_cons_self _ _), xs, t, rfl,
          fun e he => hxs e (List.mem_cons_of_mem _ he), hk⟩

theorem matchHere_lits (eot : Bool) (p : Str) (ps : List Piece) :
    ∀ s : Str, matchHere eot (p.map (fun c => Piece.one (atomOf c)) ++ ps) s = true ↔
      ∃ body t, s = body ++ t ∧ WildEq p body ∧ matchHere eot ps t = true := by
  induction p with
  | nil =>
    intro s
    simp only [List.map_nil, List.nil_append, WildEq]
    constructor
    · intro h; exact ⟨[], s, rfl, List.Forall₂.nil, h⟩
    · rintro ⟨body, t, hs, hw, hk⟩
      cases hw
      rw [hs]; exact hk
  | cons c p ih =>
    intro s
    simp only [List.map_cons, List.cons_append, matchHere_one, ih, atomOf_accepts]
    constructor
    · rintro ⟨x, t, hs, hx, body, t', ht, hw, hk⟩
      exact ⟨x :: body, t', by rw [hs, ht]; rfl, List.Forall₂.cons hx hw, hk⟩
    · rintro ⟨body, t, hs, hw, hk⟩
      cases hw with
      | cons hx hw' =>
        rename_i x body'
        exact ⟨x, body' ++ t, by rw [hs]; rfl, hx, body', t, rfl, hw', hk⟩

theorem matchAnywhere_iff (eot : Bool) (ps : List Piece) (s : Str) :
    matchAnywhere eot ps s = true ↔ ∃ pre t, s = pre ++ t ∧ matchHere eot ps t = true := by
  induction s with
  | nil =>
    simp only [matchAnywhere]
    constructor
    · intro h; exact ⟨[], [], rfl, h⟩
    · rintro ⟨pre, t, hs, hk⟩
      have ht : t = [] := (List.append_eq_nil.mp hs.symm).2
      rw [← ht]; exact hk
  | cons c s ih =>
    simp only [matchAnywhere, Bool.or_eq_true, ih]
    constructor
    · rintro (h | ⟨pre, t, hs, hk⟩)
      · exact ⟨[], c :: s, rfl, h⟩
      · exact ⟨c :: pre, t, by rw [hs]; rfl, hk⟩
    · rintro ⟨pre, t, hs, hk⟩
      cases pre with
      | nil =>
        left
        rw [List.nil_append] at hs
        rw [hs]; exact hk
      | cons d pre =>
        right
        rw [List.cons_append, List.cons.injEq] at hs
        exact ⟨pre, t, hs.2, hk⟩

theorem matchHere_morePieces (k : Nat) :
    ∀ t : Str, matchHere true (morePieces k) t = true ↔ MoreComponents k t := by
  induction k with
  | zero =>
    intro t
    simp [morePieces, matchHere, MoreComponents]
  | succ k ih =>
    intro t
    simp only [morePieces, MoreComponents, matchHere_one, matchHere_plus, ih, compClass_accepts]
    constructor
    · rintro ⟨x, t', ht, hx, comp, more, ht', hne, hcomp, hmore⟩
      refine ⟨x, comp, more, by rw [ht, ht']; rfl, ?_, hne, hcomp, hmore⟩
      simpa [Atom.accepts] using hx
    · rintro ⟨x, comp, more, ht, hx, hne, hcomp, hmore⟩
      refine ⟨x, comp ++ more, ht, ?_, comp, more, rfl, hne, hcomp, hmore⟩
      simpa [Atom.accepts] using hx

theorem matchHere_tail (L : Nat) (rest : Str) :
    matchHere true (.star sepClass :: .plus compClass :: morePieces (L - 1)) rest = true ↔
      CodeTail L rest := by
  simp only [matchHere_star, matchHere_plus, matchHere_morePieces, CodeTail, sepClass_accepts,
    compClass_accepts]
  constructor
  · rintro ⟨seps, t, hr, hseps, comp, more, ht, hne, hcomp, hmore⟩
    exact ⟨seps, comp, more, by rw [hr, ht, List.append_assoc], hseps, hne, hcomp, hmore⟩
  · rintro ⟨seps, comp, more, hr, hseps, hne, hcomp, hmore⟩
    exact ⟨seps, comp ++ more, by rw [hr, List.append_assoc], hseps, comp, more, rfl, hne, hcomp,
      hmore⟩

theorem scanStep_plain (st : Scan) (q : Bool) (c : Char) (hm : st.mode = .top q)
    (hc : plainChar c = true) :
    scanStep st c = some { st with rpieces := .one (atomOf c) :: st.rpieces, mode := .top true } := by
  simp only [plainChar, List.mem_cons, List.mem_singleton, List.not_mem_nil, or_false,
    Bool.not_eq_true', decide_eq_false_iff_not, not_or] at hc
  obtain ⟨h1, h2, h3, h4, h5, h6, h7, h8, h9, h10, h11, h12, h13⟩ := hc
  unfold scanStep atomOf
  rw [hm]
  by_cases hdot : c = '.'
  · simp [hdot]
  · simp [hdot, h1, h2, h3, h4, h5, h6, h7, h8, h9, h10, h11, h12, h13]

theorem scanAll_plain (e : Str) :
    ∀ (st : Scan) (q : Bool), st.mode = .top q → (∀ c ∈ e, plainChar c = true) →
      ∃ q', scanAll st e =
        some { st with
          rpieces := (e.map (fun c => Piece.one (atomOf c))).reverse ++ st.rpieces
          mode := .top q' } := by
  induction e with
  | nil =>
    intro st q hm _
    refine ⟨q, ?_⟩
    simp only [scanAll, List.map_nil, List.reverse_nil, List.nil_append, ← hm]
  | cons c e ih =>
    intro st q hm hp
    have hc := hp c (List.mem_cons_self _ _)
    obtain ⟨q', hq'⟩ := ih { st with rpieces := .one (atomOf c) :: st.rpieces, mode := .top true }
      true rfl (fun d hd => hp d (List.mem_cons_of_mem _ hd))
    refine ⟨q', ?_⟩
    simp only [scanAll, scanStep_plain st q c hm hc, Option.some_bind, hq', List.map_cons,
      List.reverse_cons, List.append_assoc, List.singleton_append]

theorem scanAll_append (a b : Str) :
    ∀ st : Scan, scanAll st (a ++ b) = (scanAll st a).bind (fun st' => scanAll st' b) := by
  induction a with
  | nil => intro st; simp [scanAll]
  | cons c a ih =>
    intro st
    simp only [List.cons_append, scanAll]
    cases scanStep st c with
    | none => simp
    | some st' => simp [ih]

theorem scanStep_base (R : List Piece) (st st' : Scan) (c : Char)
    (h : scanStep st c = some st') :
    scanStep { st with rpieces := st.rpieces ++ R } c =
      some { st' with rpieces := st'.rpieces ++ R } := by
  obtain ⟨rp, d, e, m⟩ := st
  cases m with
  | atEnd => simp [scanStep] at h
  | top q =>
    simp only [scanStep] at h ⊢
    split_ifs at h ⊢ <;> try (cases h; rfl)
    · cases q <;> cases rp with
      | nil => simp at h
      | cons x r =>
        cases x <;> simp at h
        all_goals (subst h; rfl)
    · cases q <;> cases rp with
      | nil => simp at h
      | cons x r =>
        cases x <;> simp at h
        all_goals (subst h; rfl)
  | classStart rs =>
    simp only [scanStep] at h ⊢
    split_ifs at h ⊢ <;> (cases h; rfl)
  | classHave rs a =>
    simp only [scanStep] at h ⊢
    split_ifs at h ⊢ <;> (cases h; rfl)
  | classDash rs a =>
    simp only [scanStep] at h ⊢
    split_ifs at h ⊢
    cases h
    rfl

theorem scanAll_base (R : List Piece) (cs : Str) :
    ∀ st st' : Scan, scanAll st cs = some st' →
      scanAll { st with rpieces := st.rpieces ++ R } cs =
        some { st' with rpieces := st'.rpieces ++ R } := by
  induction cs with
  | nil =>
    intro st st' h
    simp only [scanAll, Option.some.injEq] at h ⊢
    rw [h]
  | cons c cs ih =>
    intro st st' h
    simp only [scanAll] at h ⊢
    cases hstep : scanStep st c with
    | none => rw [hstep] at h; simp at h
    | some st1 =>
      rw [hstep] at h
      rw [scanStep_base R st st1 c hstep]
      exact ih st1 st' h

/-- Scanning a suffix that opens with a group does not depend on the pieces read before
it, nor on whether a quantifier might have followed them. -/
theorem scanAll_group (R : List Piece) (q : Bool) (cs : Str) (st' : Scan)
    (h : scanAll { rpieces := [], depth := 0, eot := false, mode := .top false } ('(' :: cs) =
      some st') :
    scanAll { rpieces := R, depth := 0, eot := false, mode := .top q } ('(' :: cs) =
      some { st' with rpieces := st'.rpieces ++ R } := by
  have h0 : ∀ (rp : List Piece) (b : Bool),
      scanStep { rpieces := rp, depth := 0, eot := false, mode := .top b } '(' =
        some { rpieces := rp, depth := 1, eot := false, mode := .top false } := by
    intro rp b
    simp [scanStep]
  simp only [scanAll, h0, Option.some_bind] at h ⊢
  have := scanAll_base R cs _ st' h
  simpa using this

theorem level1pattern_scan :
    scanAll { rpieces := [], depth := 0, eot := false, mode := .top false }
        ('(' :: "[:|.]*[0-9|a-z]+)$".toList) =
      some { rpieces := (.star sepClass :: .plus compClass :: morePieces 0).reverse, depth := 0,
             eot := true, mode := .atEnd } := by rfl

theorem level2pattern_scan :
    scanAll { rpieces := [], depth := 0, eot := false, mode := .top false }
        ('(' :: "[:|.]*[0-9|a-z]+).([0-9|a-z]+)$".toList) =
      some { rpieces := (.star sepClass :: .plus compClass :: morePieces 1).reverse, depth := 0,
             eot := true, mode := .atEnd } := by rfl

theorem level3pattern_scan :
    scanAll { rpieces := [], depth := 0, eot := false, mode := .top false }
        ('(' :: "[:|.]*[0-9|a-z]+).([0-9|a-z]+).([0-9|a-z]+)$".toList) =
      some { rpieces := (.star sepClass :: .plus compClass :: morePieces 2).reverse, depth := 0,
             eot := true, mode := .atEnd } := by rfl

theorem level4pattern_scan :
    scanAll { rpieces := [], depth := 0, eot := false, mode := .top false }
        ('(' :: "[:|.]*[0-9|a-z]+).([0-9|a-z]+).([0-9|a-z]+).([0-9|a-z]+)$".toList) =
      some { rpieces := (.star sepClass :: .plus compClass :: morePieces 3).reverse, depth := 0,
             eot := true, mode := .atEnd } := by rfl

theorem compile_of_scan (p sfx : Str) (tailp : List Piece) (hp : ∀ c ∈ p, plainChar c = true)
    (h : scanAll { rpieces := [], depth := 0, eot := false, mode := .top false } ('(' :: sfx) =
      some { rpieces := tailp.reverse, depth := 0, eot := true, mode := .atEnd }) :
    compile (p ++ '(' :: sfx) = some (p.map (fun c => Piece.one (atomOf c)) ++ tailp, true) := by
  obtain ⟨q', hq'⟩ := scanAll_plain p { rpieces := [], depth := 0, eot := false, mode := .top false }
    false rfl hp
  unfold compile
  rw [scanAll_append, hq', Option.some_bind, List.append_nil, scanAll_group _ q' _ _ h,
    Option.some_bind]
  simp

/-- The pattern the level-`L` matcher builds from a request without metacharacters other
than `.`: the request position by position, then `[:|.]*`, `[0-9|a-z]+` and `L - 1` times
an arbitrary character followed by `[0-9|a-z]+`, anchored at the end. -/
theorem compile_level (p : Str) (hp : ∀ c ∈ p, plainChar c = true) :
    compile (p ++ level1pattern) =
      some (p.map (fun c => Piece.one (atomOf c)) ++
        (.star sepClass :: .plus compClass :: morePieces 0), true) ∧
    compile (p ++ level2pattern) =
      some (p.map (fun c => Piece.one (atomOf c)) ++
        (.star sepClass :: .plus compClass :: morePieces 1), true) ∧
    compile (p ++ level3pattern) =
      some (p.map (fun c => Piece.one (atomOf c)) ++
        (.star sepClass :: .plus compClass :: morePieces 2), true) ∧
    compile (p ++ level4pattern) =
      some (p.map (fun c => Piece.one (atomOf c)) ++
        (.star sepClass :: .plus compClass :: morePieces 3), true) :=
  ⟨compile_of_scan p _ _ hp level1pattern_scan, compile_of_scan p _ _ hp level2pattern_scan,
    compile_of_scan p _ _ hp level3pattern_scan, compile_of_scan p _ _ hp level4pattern_scan⟩

theorem boolcontains_singleton (b : Bool) : boolcontains [b] true = b := by
  cases b <;> simp [boolcontains]

theorem goRegexp_of_compile (pattern s : Str) (ps : List Piece) (eot : Bool)
    (h : compile pattern = some (ps, eot)) : goRegexp pattern s = matchAnywhere eot ps s := by
  simp [goRegexp, matchString?, h]

theorem goRegexp_level (L : Nat) (pattern n p : Str)
    (h : compile (p ++ pattern) =
      some (p.map (fun c => Piece.one (atomOf c)) ++
        (.star sepClass :: .plus compClass :: morePieces (L - 1)), true)) :
    goRegexp (p ++ pattern) n = true ↔ CodeMatches L n p := by
  rw [goRegexp_of_compile _ n _ _ h, matchAnywhere_iff]
  simp only [matchHere_lits, matchHere_tail, CodeMatches]
  constructor
  · rintro ⟨pre, t, hn, body, rest, ht, hw, htail⟩
    exact ⟨pre, body, rest, by rw [hn, ht, List.append_assoc], hw, htail⟩
  · rintro ⟨pre, body, rest, hn, hw, htail⟩
    exact ⟨pre, body ++ rest, by rw [hn, List.append_assoc], body, rest, rfl, hw, htail⟩

/-- C6 (amended): for a request `p` without regular-expression metacharacters other than
`.`, and every depth `L` from 1 to 4, `levelLcontains([n], p)` holds exactly when some part
of `n` that reaches the end of `n` consists of: a segment matching `p` position by position
(a `.` of `p` standing for any character except newline); then any number, also zero, of
characters from ':', '|', '.'; then one or more characters from 0-9, a-z, '|'; then `L - 1`
further components, each one arbitrary character (except newline) followed by one or more
characters from 0-9, a-z, '|'; with nothing after the last component. -/
theorem levelcontains_iff (n p : Str) (hp : ∀ c ∈ p, plainChar c = true) :
    (level1contains goRegexp [n] p = true ↔ CodeMatches 1 n p) ∧
    (level2contains goRegexp [n] p = true ↔ CodeMatches 2 n p) ∧
    (level3contains goRegexp [n] p = true ↔ CodeMatches 3 n p) ∧
    (level4contains goRegexp [n] p = true ↔ CodeMatches 4 n p) := by
  obtain ⟨h1, h2, h3, h4⟩ := compile_level p hp
  refine ⟨?_, ?_, ?_, ?_⟩
  · rw [level1contains, matchAll, List.map_singleton, boolcontains_singleton]
    exact goRegexp_level 1 level1pattern n p h1
  · rw [level2contains, matchAll, List.map_singleton, boolcontains_singleton]
    exact goRegexp_level 2 level2pattern n p h2
  · rw [level3contains, matchAll, List.map_singleton, boolcontains_singleton]
    exact goRegexp_level 3 level3pattern n p h3
  · rw [level4contains, matchAll, List.map_singleton, boolcontains_singleton]
    exact goRegexp_level 4 level4pattern n p h4

/-- Witness of C6 (amended) at the request `urn:cts:ns:work:1` and the node
`urn:cts:ns:work:1.1`. -/
theorem levelcontains_iff_witness :
    (∀ c ∈ exampleRequest, plainChar c = true) ∧
    ((level1contains goRegexp ["urn:cts:ns:work:1.1".toList] exampleRequest = true ↔
        CodeMatches 1 "urn:cts:ns:work:1.1".toList exampleRequest) ∧
      (level2contains goRegexp ["urn:cts:ns:work:1.1".toList] exampleRequest = true ↔
        CodeMatches 2 "urn:cts:ns:work:1.1".toList exampleRequest) ∧
      (level3contains goRegexp ["urn:cts:ns:work:1.1".toList] exampleRequest = true ↔
        CodeMatches 3 "urn:cts:ns:work:1.1".toList exampleRequest) ∧
      (level4contains goRegexp ["urn:cts:ns:work:1.1".toList] exampleRequest = true ↔
        CodeMatches 4 "urn:cts:ns:work:1.1".toList exampleRequest)) :=
  ⟨by decide, levelcontains_iff "urn:cts:ns:work:1.1".toList exampleRequest (by decide)⟩

/-- C6 fails as stated. With the request `urn:cts:ns:work:1` the depth-1 matcher accepts the
node `urn:cts:ns:work:11` (no separator), the node `urn:cts:ns:work:1.:2` (two separators)
and the node `xurn:cts:ns:work:1.2` (which does not begin with the request); the depth-2
matcher accepts `urn:cts:ns:work:1.2-3` (second component introduced by '-'); with the
request `urn:cts:ns:work:1.1` the depth-1 matcher accepts `urn:cts:ns:work:1x1.2` (the `.`
of the request read as a wildcard); and with the request `urn:cts:ns:work:1+` it rejects
`urn:cts:ns:work:1+.2` (the `+` read as a quantifier). The rule of the specification
decides each of these the other way. -/
theorem levelcontains_counterexample :
    (level1contains goRegexp ["urn:cts:ns:work:11".toList] exampleRequest = true ∧
      specContainsAtLevel 1 "urn:cts:ns:work:11".toList exampleRequest = false) ∧
    (level1contains goRegexp ["urn:cts:ns:work:1.:2".toList] exampleRequest = true ∧
      specContainsAtLevel 1 "urn:cts:ns:work:1.:2".toList exampleRequest = false) ∧
    (level1contains goRegexp ["xurn:cts:ns:work:1.2".toList] exampleRequest = true ∧
      specContainsAtLevel 1 "xurn:cts:ns:work:1.2".toList exampleRequest = false) ∧
    (level2contains goRegexp ["urn:cts:ns:work:1.2-3".toList] exampleRequest = true ∧
      specContainsAtLevel 2 "urn:cts:ns:work:1.2-3".toList exampleRequest = false) ∧
    (level1contains goRegexp ["urn:cts:ns:work:1x1.2".toList] "urn:cts:ns:work:1.1".toList = true ∧
      specContainsAtLevel 1 "urn:cts:ns:work:1x1.2".toList "urn:cts:ns:work:1.1".toList = false) ∧
    (level1contains goRegexp ["urn:cts:ns:work:1+.2".toList] "urn:cts:ns:work:1+".toList = false ∧
      specContainsAtLevel 1 "urn:cts:ns:work:1+.2".toList "urn:cts:ns:work:1+".toList = true) := by
  refine ⟨by decide, by decide, by decide, by decide, by decide, by decide⟩

/-! ## C7 to C10: resolution of a request against the work -/

theorem contains_iff (l : List Str) (t : Str) : contains l t = true ↔ t ∈ l := by
  induction l with
  | nil => simp [contains]
  | cons c cs ih =>
    unfold contains
    by_cases h : c = t
    · simp [h]
    · rw [if_neg h, ih]
      simp [Ne.symm h]

theorem boolcontains_true_iff (l : List Bool) : boolcontains l true = true ↔ true ∈ l := by
  induction l with
  | nil => simp [boolcontains]
  | cons b bs ih =>
    cases b
    · simp [boolcontains, ih]
    · simp [boolcontains]

theorem matchAll_contains_iff (rx : Regexp) (pattern : Str) (urns : List Str) (q : Str) :
    boolcontains (matchAll rx pattern urns q) true = true ↔
      ∃ u ∈ urns, rx (q ++ pattern) u = true := by
  rw [boolcontains_true_iff, matchAll, List.mem_map]

theorem goIdx_natCast {α : Type} (l : List α) (n : Nat) : goIdx l (n : Int) = l[n]? := by
  simp [goIdx]

theorem indexLoop_cons (q u : Str) (us : List Str) (i : Nat) (idx : Int) :
    indexLoop q (u :: us) i idx = indexLoop q us (i + 1) (if u = q then (i : Int) else idx) := by
  by_cases h : u = q
  · simp [indexLoop, h]
  · simp [indexLoop, h]

theorem indexLoop_not_mem (q : Str) (us : List Str) :
    ∀ (i : Nat) (idx : Int), q ∉ us → indexLoop q us i idx = idx := by
  induction us with
  | nil => intro i idx _; rfl
  | cons u us ih =>
    intro i idx h
    have hu : u ≠ q := fun e => h (by simp [e])
    rw [indexLoop_cons, if_neg hu]
    exact ih _ _ (fun hm => h (List.mem_cons_of_mem _ hm))

theorem indexLoop_last (q : Str) (a b : List Str) :
    ∀ (i : Nat) (idx : Int), q ∉ b → indexLoop q (a ++ q :: b) i idx = ((i + a.length : Nat) : Int) := by
  induction a with
  | nil =>
    intro i idx hb
    rw [List.nil_append, indexLoop_cons, if_pos rfl, indexLoop_not_mem q b _ _ hb]
    simp
  | cons x a ih =>
    intro i idx hb
    rw [List.cons_append, indexLoop_cons, ih _ _ hb, List.length_cons]
    congr 1
    omega

theorem WellFormed_text (w : Work) (hw : w.WellFormed) (i : Nat) (hi : i < w.URN.length) :
    w.Text[i]? = some (w.Text.getD i []) := by
  have : i < w.Text.length := by rw [hw.1]; exact hi
  simp [List.getD, List.getElem?_eq_getElem this]

theorem WellFormed_index (w : Work) (hw : w.WellFormed) (i : Nat) (hi : i < w.URN.length) :
    w.Index[i]? = some ((i : Int) + 1) := by
  rw [hw.2]
  exact range_map_succ_getElem? _ i hi

theorem getElem?_getD (l : List Str) (i : Nat) (hi : i < l.length) :
    l[i]? = some (l.getD i []) := by
  simp [List.getD, List.getElem?_eq_getElem hi]

theorem nodeAt_of (w : Work) (hw : w.WellFormed) (urns texts : List Str) (index : List Int)
    (j i : Nat) (hi : i < w.URN.length) (hu : urns[j]? = w.URN[i]?) (ht : texts[j]? = w.Text[i]?)
    (hx : index[j]? = w.Index[i]?) : nodeAt w urns texts index j = some (nodeOf w i) := by
  unfold nodeAt nodeOf
  rw [hx, WellFormed_index w hw i hi, hu, getElem?_getD w.URN i hi, ht, WellFormed_text w hw i hi]
  simp only [Option.bind_eq_bind, Option.some_bind, Option.pure_def]
  have hnext : ∀ h : i + 1 < w.URN.length, goIdx w.URN ((i : Int) + 1) = some (w.URN.getD (i + 1) []) := by
    intro h
    have h2 : (i : Int) + 1 = ((i + 1 : Nat) : Int) := by omega
    rw [h2, goIdx_natCast, getElem?_getD w.URN (i + 1) h]
  have hprev : ∀ h : i ≠ 0, goIdx w.URN ((i : Int) + 1 - 2) = some (w.URN.getD (i - 1) []) := by
    intro h
    have h2 : (i : Int) + 1 - 2 = ((i - 1 : Nat) : Int) := by omega
    rw [h2, goIdx_natCast, getElem?_getD w.URN (i - 1) (by omega)]
  by_cases h0 : i = 0
  · have h1 : ¬ ((i : Int) + 1 > 1) := by omega
    rw [if_neg h1, if_pos h0]
    by_cases hn : i + 1 < w.URN.length
    · have h3 : (i : Int) + 1 < (w.URN.length : Int) := by omega
      simp only [Option.some_bind, if_pos h3, if_pos hn, hnext hn]
    · have h3 : ¬ (i : Int) + 1 < (w.URN.length : Int) := by omega
      simp only [Option.some_bind, if_neg h3, if_neg hn]
  · have h1 : (i : Int) + 1 > 1 := by omega
    rw [if_pos h1, if_neg h0, hprev h0]
    by_cases hn : i + 1 < w.URN.length
    · have h3 : (i : Int) + 1 < (w.URN.length : Int) := by omega
      simp only [Option.some_bind, if_pos h3, if_pos hn, hnext hn]
    · have h3 : ¬ (i : Int) + 1 < (w.URN.length : Int) := by omega
      simp only [Option.some_bind, if_neg h3, if_neg hn]

theorem drop_eq_cons {α : Type} (l : List α) (i : Nat) (u : α) (us : List α)
    (h : l.drop i = u :: us) : i < l.length ∧ l[i]? = some u ∧ l.drop (i + 1) = us := by
  have hi : i < l.length := by
    by_contra hc
    rw [List.drop_eq_nil_of_le (by omega)] at h
    cases h
  refine ⟨hi, ?_, ?_⟩
  · have := congrArg (fun t => t[0]?) h
    simpa using this
  · have := congrArg List.tail h
    simpa [List.tail_drop] using this

theorem matchingLoop_eq (w : Work) (hw : w.WellFormed) (f : Str → Bool) (us : List Str) :
    ∀ (i : Nat) (acc : List Node), w.URN.drop i = us →
      matchingLoop w (us.map f) i acc =
        some (acc ++ ((List.range' i us.length).filter
          (fun j => f (w.URN.getD j []))).map (nodeOf w)) := by
  induction us with
  | nil => intro i acc _; simp [matchingLoop]
  | cons u us ih =>
    intro i acc hdrop
    obtain ⟨hi, hu, hdrop'⟩ := drop_eq_cons w.URN i u us hdrop
    have hgd : w.URN.getD i [] = u := by
      have := getElem?_getD w.URN i hi
      rw [hu] at this
      exact (Option.some.inj this).symm
    simp only [List.map_cons, matchingLoop, List.length_cons, List.range'_succ, List.filter_cons, hgd]
    by_cases hf : f u = true
    · rw [if_pos hf, if_pos hf, nodeAt_of w hw w.URN w.Text w.Index i i hi rfl rfl rfl]
      simp only [Option.bind_eq_bind, Option.some_bind]
      rw [ih (i + 1) _ hdrop']
      simp
    · rw [if_neg hf, if_neg hf, ih (i + 1) _ hdrop']

theorem levelPassage_eq (rx : Regexp) (pattern : Str) (w : Work) (hw : w.WellFormed) (q : Str) :
    levelPassage rx pattern w q =
      some { requestURN := [q], Status := "Success".toList,
             Nodes := ((List.range w.URN.length).filter
               (fun j => rx (q ++ pattern) (w.URN.getD j []))).map (nodeOf w) } := by
  unfold levelPassage matchAll
  rw [matchingLoop_eq w hw (fun si => rx (q ++ pattern) si) w.URN 0 [] (by simp)]
  simp [List.range_eq_range']

theorem exists_last_occurrence (q : Str) (l : List Str) (h : q ∈ l) :
    ∃ a b, l = a ++ q :: b ∧ q ∉ b := by
  induction l with
  | nil => cases h
  | cons x l ih =>
    by_cases hl : q ∈ l
    · obtain ⟨a, b, hab, hb⟩ := ih hl
      exact ⟨x :: a, b, by rw [hab]; rfl, hb⟩
    · rcases List.mem_cons.mp h with rfl | h'
      · exact ⟨[], l, rfl, hl⟩
      · exact absurd h' hl

theorem not_mem_of_no_later (q : Str) (l a b : List Str) (hl : l = a ++ q :: b)
    (hlast : ∀ j, a.length < j → l[j]? ≠ some q) : q ∉ b := by
  intro hb
  obtain ⟨k, hk⟩ := List.mem_iff_getElem?.mp hb
  apply hlast (a.length + 1 + k) (by omega)
  rw [hl, List.getElem?_append_right (by omega)]
  have : a.length + 1 + k - a.length = k + 1 := by omega
  rw [this, List.getElem?_cons_succ]
  exact hk

theorem passage_exact (rx : Regexp) (w : Work) (hw : w.WellFormed) (q : Str) (a b : List Str)
    (hN : 2 ≤ w.URN.length) (hab : w.URN = a ++ q :: b) (hb : q ∉ b) :
    passage rx w q =
      some { requestURN := [q], Status := "Success".toList,
             Nodes := [{ URN := [q], Text := [w.Text.getD a.length []],
                         Previous := if a.length = 0 then [] else [w.URN.getD (a.length - 1) []],
                         Next := if a.length + 1 = w.URN.length then []
                                 else [w.URN.getD (a.length + 1) []],
                         Index := (a.length : Int) + 1 }] } := by
  have hmem : q ∈ w.URN := by rw [hab]; simp
  have hi : a.length < w.URN.length := by rw [hab]; simp
  have hidx : indexLoop q w.URN 0 0 = (a.length : Int) := by
    rw [hab, indexLoop_last q a b 0 0 hb]
    simp
  have hu : w.URN[a.length]? = some q := by
    rw [hab]
    exact List.getElem?_eq_some.mpr ⟨by simp, List.getElem_of_append rfl rfl⟩
  unfold passage
  simp only [(contains_iff w.URN q).mpr hmem, if_true, hidx]
  unfold exactPassage
  have hnext : a.length + 1 < w.URN.length →
      goIdx w.URN ((a.length : Int) + 1) = some (w.URN.getD (a.length + 1) []) := by
    intro h
    have h2 : (a.length : Int) + 1 = ((a.length + 1 : Nat) : Int) := by omega
    rw [h2, goIdx_natCast, getElem?_getD w.URN _ h]
  have hprev : a.length ≠ 0 →
      goIdx w.URN ((a.length : Int) - 1) = some (w.URN.getD (a.length - 1) []) := by
    intro h
    have h2 : (a.length : Int) - 1 = ((a.length - 1 : Nat) : Int) := by omega
    rw [h2, goIdx_natCast, getElem?_getD w.URN _ (by omega)]
  simp only [goIdx_natCast, hu, WellFormed_text w hw _ hi, WellFormed_index w hw _ hi,
    Option.bind_eq_bind, Option.some_bind, Option.pure_def]
  by_cases h0 : a.length = 0
  · have h0' : (a.length : Int) = 0 := by omega
    have hn : a.length + 1 < w.URN.length := by omega
    have hne : ¬ a.length + 1 = w.URN.length := by omega
    rw [if_pos h0', hnext hn]
    simp only [Option.some_bind, if_pos h0, if_neg hne]
  · have h0' : ¬ (a.length : Int) = 0 := by omega
    rw [if_neg h0']
    by_cases h1 : a.length + 1 = w.URN.length
    · have h1' : (a.length : Int) = (w.URN.length : Int) - 1 := by omega
      rw [if_pos h1', hprev h0]
      simp only [Option.some_bind, if_neg h0, if_pos h1]
    · have h1' : ¬ (a.length : Int) = (w.URN.length : Int) - 1 := by omega
      have hn : a.length + 1 < w.URN.length := by omega
      rw [if_neg h1', hnext hn, hprev h0]
      simp only [Option.some_bind, if_neg h0, if_neg h1]

/-- C7: in a work of at least two nodes (one text per URN, `Index` enumerating from 1), a
request that is no range and equals some node URN is answered from the exact-match case:
`passage` returns exactly one node and its URN is the request, and `reff` returns exactly
the list of that one URN. This holds for every regular-expression engine, so also when
other nodes match the request at depth 1 to 4. -/
theorem exact_preempts (rx : Regexp) (w : Work) (q : Str) (hw : w.WellFormed)
    (hN : 2 ≤ w.URN.length) (hq : q ∈ w.URN) (hr : isRange q = false) :
    (∃ node, passage rx w q =
        some { requestURN := [q], Status := "Success".toList, Nodes := [node] } ∧
      node.URN = [q]) ∧
    reff rx w q =
      some { requestURN := [q], Status := "Success".toList, URN := [q],
             Service := "/texts/urns".toList } := by
  obtain ⟨a, b, hab, hb⟩ := exists_last_occurrence q w.URN hq
  refine ⟨⟨_, passage_exact rx w hw q a b hN hab hb, rfl⟩, ?_⟩
  unfold reff
  simp [hr, (contains_iff w.URN q).mpr hq]

/-- Witness of C7: in `nestedWork` the request `urn:cts:ns:work:1` equals the first node and
the two other nodes match it at depth 1. -/
theorem exact_preempts_witness :
    nestedWork.WellFormed ∧ 2 ≤ nestedWork.URN.length ∧ exampleRequest ∈ nestedWork.URN ∧
    isRange exampleRequest = false ∧
    level1contains goRegexp nestedWork.URN exampleRequest = true ∧
    ((∃ node, passage goRegexp nestedWork exampleRequest =
        some { requestURN := [exampleRequest], Status := "Success".toList, Nodes := [node] } ∧
      node.URN = [exampleRequest]) ∧
    reff goRegexp nestedWork exampleRequest =
      some { requestURN := [exampleRequest], Status := "Success".toList, URN := [exampleRequest],
             Service := "/texts/urns".toList }) :=
  ⟨⟨by decide, by decide⟩, by decide, by decide, by decide, by decide,
    exact_preempts goRegexp nestedWork exampleRequest ⟨by decide, by decide⟩ (by decide)
      (by decide) (by decide)⟩

/-- C10 (amended): in a work of at least two nodes, a request equal to the URN of the node
at 0-based position `i`, with no later node carrying the same URN, is answered with status
Success and exactly that node: its URN and text, `Index` `i + 1`, the URN of node `i - 1`
as previous when `i > 0` and no previous otherwise, the URN of node `i + 1` as next when
`i < N - 1` and no next otherwise. -/
theorem passage_exact_neighbours (rx : Regexp) (w : Work) (q : Str) (i : Nat)
    (hw : w.WellFormed) (hN : 2 ≤ w.URN.length) (hq : w.URN[i]? = some q)
    (hlast : ∀ j, i < j → w.URN[j]? ≠ some q) :
    passage rx w q =
      some { requestURN := [q], Status := "Success".toList,
             Nodes := [{ URN := [q], Text := [w.Text.getD i []],
                         Previous := if i = 0 then [] else [w.URN.getD (i - 1) []],
                         Next := if i + 1 = w.URN.length then [] else [w.URN.getD (i + 1) []],
                         Index := (i : Int) + 1 }] } := by
  obtain ⟨a, b, hab, ha⟩ := getElem?_split w.URN i q hq
  subst ha
  exact passage_exact rx w hw q a b hN hab (not_mem_of_no_later q w.URN a b hab hlast)

/-- Witness of C10 (amended): the middle node of `exampleWork`. -/
theorem passage_exact_neighbours_witness :
    exampleWork.WellFormed ∧ 2 ≤ exampleWork.URN.length ∧
    exampleWork.URN[1]? = some "urn:cts:ns:work:1.2".toList ∧
    (∀ j, 1 < j → exampleWork.URN[j]? ≠ some "urn:cts:ns:work:1.2".toList) ∧
    passage goRegexp exampleWork "urn:cts:ns:work:1.2".toList =
      some { requestURN := ["urn:cts:ns:work:1.2".toList], Status := "Success".toList,
             Nodes := [{ URN := ["urn:cts:ns:work:1.2".toList], Text := ["beta".toList],
                         Previous := ["urn:cts:ns:work:1.1".toList],
                         Next := ["urn:cts:ns:work:2.1".toList], Index := 2 }] } :=
  have hlast : ∀ j, 1 < j → exampleWork.URN[j]? ≠ some "urn:cts:ns:work:1.2".toList := by
    intro j hj
    match j, hj with
    | 2, _ => decide
    | j + 3, _ => simp [exampleWork]
  ⟨⟨by decide, by decide⟩, by decide, by decide, hlast,
    passage_exact_neighbours goRegexp exampleWork "urn:cts:ns:work:1.2".toList 1
      ⟨by decide, by decide⟩ (by decide) (by decide) hlast⟩

/-- C10 fails as stated, by the way the index is found: in the work built from
`repeatedLines` the request `urn:cts:ns:work:1` equals the URN of the node at position 0, yet
`ReturnPassage` answers with the node at position 2 (`Index` 3, text "gamma", previous node
`urn:cts:ns:work:2`, no next) instead of the node with `Index` 1. -/
theorem passage_exact_counterexample :
    buildWork (ParseWork repeatedLines) exampleStem = some repeatedWork ∧
    repeatedWork.URN[0]? = some exampleRequest ∧
    ReturnPassage insertionOrder goRegexp repeatedLines exampleRequest =
      some { requestURN := [exampleRequest], Status := "Success".toList,
             Service := "/texts".toList,
             Nodes := [{ URN := [exampleRequest], Text := ["gamma".toList],
                         Previous := ["urn:cts:ns:work:2".toList], Next := [], Index := 3 }] } := by
  refine ⟨by decide, by decide, by decide⟩

/-- The boundary that the amended C10 leaves out: over a corpus of a single record the
request for that record makes `ReturnPassage` panic (index 1 out of range while the
`requestedIndex == 0` case reads the next node), so no response is written. -/
theorem ReturnPassage_single_node_panics :
    ReturnPassage insertionOrder goRegexp singleLines exampleRequest = none := by
  decide

theorem levelN_contains_exists (rx : Regexp) (urns : List Str) (q : Str) :
    (level1contains rx urns q = true ↔ ∃ u ∈ urns, rx (q ++ levelPattern 1) u = true) ∧
    (level2contains rx urns q = true ↔ ∃ u ∈ urns, rx (q ++ levelPattern 2) u = true) ∧
    (level3contains rx urns q = true ↔ ∃ u ∈ urns, rx (q ++ levelPattern 3) u = true) ∧
    (level4contains rx urns q = true ↔ ∃ u ∈ urns, rx (q ++ levelPattern 4) u = true) :=
  ⟨matchAll_contains_iff rx level1pattern urns q, matchAll_contains_iff rx level2pattern urns q,
    matchAll_contains_iff rx level3pattern urns q, matchAll_contains_iff rx level4pattern urns q⟩

theorem not_levelcontains (b : Bool) (P : Prop) (h : b = true ↔ P) (hn : ¬ P) : b = false := by
  cases b
  · rfl
  · exact absurd (h.mp rfl) hn

/-- C8: in a work (one text per URN, `Index` enumerating from 1) without an exact match for
the request, when `d` is the smallest depth from 1 to 4 at which some node matches,
`passage` answers with status Success and exactly the nodes matching at depth `d`: all of
them, in work order, each with the annotation of its position, and no other node. -/
theorem passage_first_depth (rx : Regexp) (w : Work) (q : Str) (d : Nat) (hw : w.WellFormed)
    (hq : contains w.URN q = false) (hd : 1 ≤ d ∧ d ≤ 4)
    (hmatch : ∃ u ∈ w.URN, rx (q ++ levelPattern d) u = true)
    (hmin : ∀ d', 1 ≤ d' → d' < d → ∀ u ∈ w.URN, rx (q ++ levelPattern d') u = false) :
    passage rx w q =
      some { requestURN := [q], Status := "Success".toList,
             Nodes := ((List.range w.URN.length).filter
               (fun j => rx (q ++ levelPattern d) (w.URN.getD j []))).map (nodeOf w) } := by
  obtain ⟨h1, h2, h3, h4⟩ := levelN_contains_exists rx w.URN q
  have hfalse : ∀ d', 1 ≤ d' → d' < d → ¬ ∃ u ∈ w.URN, rx (q ++ levelPattern d') u = true := by
    rintro d' hd1 hd2 ⟨u, hu, hm⟩
    rw [hmin d' hd1 hd2 u hu] at hm
    cases hm
  obtain ⟨hd1, hd4⟩ := hd
  unfold passage
  simp only [hq, Bool.false_eq_true, if_false]
  have hcases : d = 1 ∨ d = 2 ∨ d = 3 ∨ d = 4 := by omega
  rcases hcases with rfl | rfl | rfl | rfl
  · rw [if_pos (h1.mpr hmatch)]
    exact levelPassage_eq rx level1pattern w hw q
  · rw [not_levelcontains _ _ h1 (hfalse 1 (by omega) (by omega))]
    simp only [Bool.false_eq_true, if_false]
    rw [if_pos (h2.mpr hmatch)]
    exact levelPassage_eq rx level2pattern w hw q
  · rw [not_levelcontains _ _ h1 (hfalse 1 (by omega) (by omega)),
      not_levelcontains _ _ h2 (hfalse 2 (by omega) (by omega))]
    simp only [Bool.false_eq_true, if_false]
    rw [if_pos (h3.mpr hmatch)]
    exact levelPassage_eq rx level3pattern w hw q
  · rw [not_levelcontains _ _ h1 (hfalse 1 (by omega) (by omega)),
      not_levelcontains _ _ h2 (hfalse 2 (by omega) (by omega)),
      not_levelcontains _ _ h3 (hfalse 3 (by omega) (by omega))]
    simp only [Bool.false_eq_true, if_false]
    rw [if_pos (h4.mpr hmatch)]
    exact levelPassage_eq rx level4pattern w hw q

/-- Witness of C8: over the nodes 1.1, 1.2, 2.1 of `exampleWork` the request
`urn:cts:ns:work:1` has no exact match, matches first at depth 1, and `passage` returns the
nodes 1.1 and 1.2 in that order; the request `urn:cts:ns:work` matches no node at depth 1
and all three at depth 2. -/
theorem passage_first_depth_witness :
    exampleWork.WellFormed ∧ contains exampleWork.URN exampleRequest = false ∧
    (1 ≤ 1 ∧ 1 ≤ 4) ∧
    (∃ u ∈ exampleWork.URN, goRegexp (exampleRequest ++ levelPattern 1) u = true) ∧
    (∀ d', 1 ≤ d' → d' < 1 → ∀ u ∈ exampleWork.URN,
      goRegexp (exampleRequest ++ levelPattern d') u = false) ∧
    passage goRegexp exampleWork exampleRequest =
      some { requestURN := [exampleRequest], Status := "Success".toList,
             Nodes := ((List.range exampleWork.URN.length).filter
               (fun j => goRegexp (exampleRequest ++ levelPattern 1)
                 (exampleWork.URN.getD j []))).map (nodeOf exampleWork) } ∧
    ((List.range exampleWork.URN.length).filter
        (fun j => goRegexp (exampleRequest ++ levelPattern 1)
          (exampleWork.URN.getD j []))).map (nodeOf exampleWork) =
      [{ URN := ["urn:cts:ns:work:1.1".toList], Text := ["alpha".toList], Previous := [[]],
         Next := ["urn:cts:ns:work:1.2".toList], Index := 1 },
       { URN := ["urn:cts:ns:work:1.2".toList], Text := ["beta".toList],
         Previous := ["urn:cts:ns:work:1.1".toList], Next := ["urn:cts:ns:work:2.1".toList],
         Index := 2 }] ∧
    (∀ d', 1 ≤ d' → d' < 2 → ∀ u ∈ exampleWork.URN,
      goRegexp (exampleStem ++ levelPattern d') u = false) ∧
    passage goRegexp exampleWork exampleStem =
      some { requestURN := [exampleStem], Status := "Success".toList,
             Nodes := ((List.range exampleWork.URN.length).filter
               (fun j => goRegexp (exampleStem ++ levelPattern 2)
                 (exampleWork.URN.getD j []))).map (nodeOf exampleWork) } ∧
    ((List.range exampleWork.URN.length).filter
        (fun j => goRegexp (exampleStem ++ levelPattern 2)
          (exampleWork.URN.getD j []))).map (nodeOf exampleWork) =
      [nodeOf exampleWork 0, nodeOf exampleWork 1, nodeOf exampleWork 2] :=
  have hmin : ∀ d', 1 ≤ d' → d' < 1 → ∀ u ∈ exampleWork.URN,
      goRegexp (exampleRequest ++ levelPattern d') u = false := by
    intro d' h1 h2
    omega
  have hmin2 : ∀ d', 1 ≤ d' → d' < 2 → ∀ u ∈ exampleWork.URN,
      goRegexp (exampleStem ++ levelPattern d') u = false := by
    intro d' h1 h2
    have hd : d' = 1 := by omega
    subst hd
    decide
  ⟨⟨by decide, by decide⟩, by decide, by decide, by decide, hmin,
    passage_first_depth goRegexp exampleWork exampleRequest 1 ⟨by decide, by decide⟩ (by decide)
      (by decide) (by decide) hmin,
    by decide, hmin2,
    passage_first_depth goRegexp exampleWork exampleStem 2 ⟨by decide, by decide⟩ (by decide)
      (by decide) (by decide) hmin2,
    by decide⟩

theorem rangeLoop_eq (w : Work) (ru rt : List Str) (ri : List Int) (g : Nat → Node) :
    ∀ (k i : Nat) (acc : List Node),
      (∀ j, i ≤ j → j < i + k → nodeAt w ru rt ri j = some (g j)) →
      rangeLoop w ru rt ri k i acc = some (acc ++ (List.range' i k).map g) := by
  intro k
  induction k with
  | zero => intro i acc _; simp [rangeLoop]
  | succ k ih =>
    intro i acc h
    simp only [rangeLoop, h i (le_refl i) (by omega), Option.bind_eq_bind, Option.some_bind]
    rw [ih (i + 1) _ (fun j hj1 hj2 => h j (by omega) (by omega))]
    simp [List.range'_succ]

theorem goSlice_some {α : Type} (l : List α) (lo hi : Int) (r : List α)
    (h : goSlice l lo hi = some r) :
    ∃ s m : Nat, lo = (s : Int) ∧ hi = ((s + m : Nat) : Int) ∧ s + m ≤ l.length ∧
      r = (l.drop s).take m := by
  unfold goSlice at h
  split_ifs at h with hc
  obtain ⟨h0, h1, h2⟩ := hc
  refine ⟨lo.toNat, (hi - lo).toNat, by omega, by omega, by omega, ?_⟩
  exact (Option.some.inj h).symm

theorem slice_getElem? {α : Type} (l : List α) (s m j : Nat) (hj : j < m) :
    ((l.drop s).take m)[j]? = l[s + j]? := by
  rw [List.getElem?_take_of_lt hj, List.getElem?_drop]

theorem rangePassage_nodes (rx : Regexp) (w : Work) (hw : w.WellFormed) (q : Str)
    (resp : NodeResponse) (h : rangePassage rx w q = some resp) :
    ∃ s m : Nat, s + m ≤ w.URN.length ∧
      resp.Nodes = (List.range' s m).map (nodeOf w) := by
  unfold rangePassage at h
  simp only [Option.bind_eq_bind, Option.bind_eq_some] at h
  obtain ⟨⟨startURN, endURN⟩, _, ru, hru, rt, hrt, rx', hri, nodes, hnodes, hresp⟩ := h
  obtain ⟨s, m, hs, he, hle, hrueq⟩ := goSlice_some _ _ _ _ hru
  obtain ⟨s', m', hs', he', hle', hrteq⟩ := goSlice_some _ _ _ _ hrt
  obtain ⟨s'', m'', hs'', he'', hle'', hrieq⟩ := goSlice_some _ _ _ _ hri
  have e1 : s' = s := by omega
  have e2 : m' = m := by omega
  have e3 : s'' = s := by omega
  have e4 : m'' = m := by omega
  rw [e1, e2] at hrteq
  rw [e3, e4] at hrieq
  have hlen : ru.length = m := by
    rw [hrueq, List.length_take, List.length_drop]
    omega
  have hloop := rangeLoop_eq w ru rt rx' (fun j => nodeOf w (s + j)) ru.length 0 [] (by
    intro j _ hj
    have hjm : j < m := by omega
    apply nodeAt_of w hw ru rt rx' j (s + j) (by omega)
    · rw [hrueq, slice_getElem? _ _ _ _ hjm]
    · rw [hrteq, slice_getElem? _ _ _ _ hjm]
    · rw [hrieq, slice_getElem? _ _ _ _ hjm])
  rw [hloop] at hnodes
  refine ⟨s, m, hle, ?_⟩
  simp only [Option.pure_def, Option.some.injEq] at hresp hnodes
  rw [← hresp, ← hnodes, hlen]
  simp only [List.nil_append]
  rw [List.range'_eq_map_range, List.range'_eq_map_range, List.map_map, List.map_map]
  apply List.map_congr_left
  intro j _
  simp [Function.comp]

theorem passage_nodes_positions (rx : Regexp) (w : Work) (q : Str) (resp : NodeResponse)
    (hw : w.WellFormed) (hq : contains w.URN q = false) (h : passage rx w q = some resp) :
    ∀ nd ∈ resp.Nodes, ∃ i, i < w.URN.length ∧ nd = nodeOf w i := by
  have hlevel : ∀ pattern, levelPassage rx pattern w q = some resp →
      ∀ nd ∈ resp.Nodes, ∃ i, i < w.URN.length ∧ nd = nodeOf w i := by
    intro pattern hl nd hnd
    rw [levelPassage_eq rx pattern w hw q] at hl
    rw [← Option.some.inj hl] at hnd
    simp only [List.mem_map, List.mem_filter, List.mem_range] at hnd
    obtain ⟨i, ⟨hi, _⟩, rfl⟩ := hnd
    exact ⟨i, hi, rfl⟩
  unfold passage at h
  simp only [hq, Bool.false_eq_true, if_false] at h
  split_ifs at h
  · exact hlevel _ h
  · exact hlevel _ h
  · exact hlevel _ h
  · exact hlevel _ h
  · obtain ⟨s, m, hle, hn⟩ := rangePassage_nodes rx w hw q resp h
    intro nd hnd
    rw [hn] at hnd
    simp only [List.mem_map, List.mem_range'_1] at hnd
    obtain ⟨i, ⟨_, hi⟩, rfl⟩ := hnd
    exact ⟨i, by omega, rfl⟩
  · intro nd hnd
    rw [← Option.some.inj h] at hnd
    cases hnd

/-- C9: every node that `passage` returns for a request without exact match (a hierarchical
or a range request) is annotated from its own position in the full work: for some 0-based
position `i` below the number `N` of nodes, its `Index` is `i + 1`, its URN and text are
those of node `i`, its `Previous` is the URN of node `i - 1` (the empty string when
`i = 0`) and its `Next` is the URN of node `i + 1` (the empty string when `i = N - 1`),
whichever other nodes were matched. -/
theorem passage_annotation (rx : Regexp) (w : Work) (q : Str) (resp : NodeResponse)
    (hw : w.WellFormed) (hq : contains w.URN q = false) (h : passage rx w q = some resp) :
    ∀ nd ∈ resp.Nodes, ∃ i, i < w.URN.length ∧ nd.Index = (i : Int) + 1 ∧
      nd.URN = [w.URN.getD i []] ∧ nd.Text = [w.Text.getD i []] ∧
      nd.Previous = [if i = 0 then [] else w.URN.getD (i - 1) []] ∧
      nd.Next = [if i + 1 < w.URN.length then w.URN.getD (i + 1) [] else []] := by
  intro nd hnd
  obtain ⟨i, hi, rfl⟩ := passage_nodes_positions rx w q resp hw hq h nd hnd
  exact ⟨i, hi, rfl, rfl, rfl, rfl, rfl⟩

/-- Witness of C9: the range request `urn:cts:ns:work:1.2-2.1` over `exampleWork` returns the
second and third node; the second keeps the first node, which is outside the range, as
its previous. -/
theorem passage_annotation_witness :
    exampleWork.WellFormed ∧
    contains exampleWork.URN "urn:cts:ns:work:1.2-2.1".toList = false ∧
    passage goRegexp exampleWork "urn:cts:ns:work:1.2-2.1".toList = some exampleRangeResponse ∧
    ∀ nd ∈ exampleRangeResponse.Nodes,
      ∃ i, i < exampleWork.URN.length ∧ nd.Index = (i : Int) + 1 ∧
        nd.URN = [exampleWork.URN.getD i []] ∧ nd.Text = [exampleWork.Text.getD i []] ∧
        nd.Previous = [if i = 0 then [] else exampleWork.URN.getD (i - 1) []] ∧
        nd.Next = [if i + 1 < exampleWork.URN.length then exampleWork.URN.getD (i + 1) [] else []] :=
  ⟨⟨by decide, by decide⟩, by decide, by decide,
    passage_annotation goRegexp exampleWork "urn:cts:ns:work:1.2-2.1".toList exampleRangeResponse
      ⟨by decide, by decide⟩ (by decide) (by decide)⟩

theorem cropAll_fields (urns : List Str) :
    ∀ cropped, cropAll urns = some cropped → ∀ u ∈ urns, 4 ≤ (Split u ':').length := by
  induction urns with
  | nil => intro _ _ u hu; cases hu
  | cons x xs ih =>
    intro cropped h u hu
    simp only [cropAll, Option.bind_eq_bind, Option.bind_eq_some] at h
    obtain ⟨stem, hstem, rest, hrest, _⟩ := h
    rcases List.mem_cons.mp hu with rfl | hu
    · exact (cropToStem_isSome u).mp (by rw [hstem]; rfl)
    · exact ih rest hrest u hu

/-- The handler and the resolution switch: for a validated request that selects the stem at
position `i` of the stem list, `ReturnPassage` builds a well-formed work for that stem and
answers with what `passage` returns on it, with the service name filled in. -/
theorem ReturnPassage_resolved (o : MapOrder) (rx : Regexp) (lines : List (Str × Str))
    (q : Str) (cropped : List Str) (i : Nat) (S : Str)
    (hq : isCTSURN q = true) (hc : cropAll (ParseWork lines).URN = some cropped)
    (hsel : selectWork q (removeDuplicatesUnordered o cropped) = i + 1)
    (hS : (removeDuplicatesUnordered o cropped)[i]? = some S) :
    ∃ w, buildWork (ParseWork lines) S = some w ∧ w.WellFormed ∧
      ReturnPassage o rx lines q =
        (passage rx w q).map (fun r => { r with Service := "/texts".toList }) := by
  have hfields : ∀ l ∈ lines, 4 ≤ (Split l.1 ':').length := by
    intro l hl
    apply cropAll_fields _ cropped hc
    rw [ParseWork_URN]
    exact List.mem_map_of_mem _ hl
  have hb := buildWork_eq lines S hfields
  refine ⟨_, hb, buildWork_wellFormed lines S _ hfields hb, ?_⟩
  unfold ReturnPassage
  simp only [hq, ne_eq, not_true_eq_false, if_false, hc, Option.bind_eq_bind, Option.some_bind,
    hsel, Nat.add_one_ne_zero, Nat.add_sub_cancel, hS, hb]
  cases passage rx _ q <;> rfl

/-- The example work is the work the filtering loop builds from the example records. -/
theorem exampleWork_built :
    buildWork (ParseWork exampleLines) exampleStem = some exampleWork := by
  decide

/-! ## C11 to C15: range resolution -/

theorem firstTrueLoop_spec (ms : List Bool) :
    ∀ (i : Nat) (idx : Int), (∃ k : Nat, ms[k]? = some true) →
      ∃ k : Nat, firstTrueLoop ms i idx = ((i + k : Nat) : Int) ∧ ms[k]? = some true ∧
        ∀ k' : Nat, k' < k → ms[k']? ≠ some true := by
  induction ms with
  | nil => intro i idx h; obtain ⟨k, hk⟩ := h; simp at hk
  | cons m ms ih =>
    intro i idx h
    cases m with
    | true =>
      refine ⟨0, by simp [firstTrueLoop], by simp, ?_⟩
      intro k' hk'; omega
    | false =>
      obtain ⟨k, hk⟩ := h
      cases k with
      | zero => simp at hk
      | succ k =>
        rw [List.getElem?_cons_succ] at hk
        obtain ⟨k0, h1, h2, h3⟩ := ih (i + 1) idx ⟨k, hk⟩
        refine ⟨k0 + 1, ?_, by rw [List.getElem?_cons_succ]; exact h2, ?_⟩
        · simp only [firstTrueLoop, Bool.false_eq_true, if_false, h1]
          congr 1
          omega
        · intro k' hk'
          cases k' with
          | zero => simp
          | succ k' =>
            rw [List.getElem?_cons_succ]
            exact h3 k' (by omega)

theorem lastTrueLoop_spec (m : List Bool) :
    ∀ (k : Nat) (idx : Int), (∃ j : Nat, j < k ∧ m[j]? = some true) →
      ∃ j : Nat, j < k ∧ lastTrueLoop m k idx = (j : Int) ∧ m[j]? = some true ∧
        ∀ j' : Nat, j < j' → j' < k → m[j']? ≠ some true := by
  intro k
  induction k with
  | zero => intro idx h; obtain ⟨j, hj, _⟩ := h; omega
  | succ k ih =>
    intro idx h
    by_cases hk : m[k]? = some true
    · refine ⟨k, by omega, by simp [lastTrueLoop, hk], hk, ?_⟩
      intro j' h1 h2; omega
    · obtain ⟨j, hj, hjt⟩ := h
      have hjk : j < k := by
        rcases Nat.lt_or_ge j k with h' | h'
        · exact h'
        · have : j = k := by omega
          subst this
          exact absurd hjt hk
      obtain ⟨j0, h0, h1, h2, h3⟩ := ih idx ⟨j, hjk, hjt⟩
      refine ⟨j0, by omega, ?_, h2, ?_⟩
      · simp only [lastTrueLoop, if_neg hk, h1]
      · intro j' hj1 hj2
        rcases Nat.lt_or_ge j' k with h' | h'
        · exact h3 j' hj1 h'
        · have : j' = k := by omega
          subst this
          exact hk

theorem matchAll_getElem? (rx : Regexp) (pattern : Str) (urns : List Str) (u : Str) (j : Nat) :
    (matchAll rx pattern urns u)[j]? = some true ↔
      j < urns.length ∧ rx (u ++ pattern) (urns.getD j []) = true := by
  unfold matchAll
  rw [List.getElem?_map]
  by_cases hj : j < urns.length
  · rw [getElem?_getD urns j hj]
    simp [hj]
  · rw [List.getElem?_eq_none (by omega)]
    simp [hj]

theorem exists_match_index (rx : Regexp) (pattern : Str) (urns : List Str) (u : Str)
    (h : ∃ x ∈ urns, rx (u ++ pattern) x = true) :
    ∃ j, j < urns.length ∧ (matchAll rx pattern urns u)[j]? = some true := by
  obtain ⟨x, hx, hm⟩ := h
  obtain ⟨j, hj⟩ := List.mem_iff_getElem?.mp hx
  obtain ⟨hlt, hget⟩ := List.getElem?_eq_some.mp hj
  refine ⟨j, hlt, (matchAll_getElem? rx pattern urns u j).mpr ⟨hlt, ?_⟩⟩
  have := getElem?_getD urns j hlt
  rw [hj] at this
  rw [← Option.some.inj this]
  exact hm

theorem levelPattern_cases (d : Nat) (hd : 1 ≤ d ∧ d ≤ 4) :
    d = 1 ∨ d = 2 ∨ d = 3 ∨ d = 4 := by omega

theorem startIndex_of_contains (rx : Regexp) (w : Work) (u : Str)
    (h : contains w.URN u = true) : startIndex rx w u = indexLoop u w.URN 0 0 := by
  simp [startIndex, h]

theorem endIndex_of_contains (rx : Regexp) (w : Work) (u : Str)
    (h : contains w.URN u = true) : endIndex rx w u = indexLoop u w.URN 0 0 := by
  simp [endIndex, h]

theorem levels_of_firstDepth (rx : Regexp) (w : Work) (u : Str) (d : Nat)
    (h : FirstDepth rx w u d) :
    (d = 1 ∧ level1contains rx w.URN u = true) ∨
    (d = 2 ∧ level1contains rx w.URN u = false ∧ level2contains rx w.URN u = true) ∨
    (d = 3 ∧ level1contains rx w.URN u = false ∧ level2contains rx w.URN u = false ∧
      level3contains rx w.URN u = true) ∨
    (d = 4 ∧ level1contains rx w.URN u = false ∧ level2contains rx w.URN u = false ∧
      level3contains rx w.URN u = false ∧ level4contains rx w.URN u = true) := by
  obtain ⟨hd, hmatch, hmin⟩ := h
  obtain ⟨h1, h2, h3, h4⟩ := levelN_contains_exists rx w.URN u
  have hfalse : ∀ d', 1 ≤ d' → d' < d → ¬ ∃ x ∈ w.URN, rx (u ++ levelPattern d') x = true := by
    rintro d' hd1 hd2 ⟨x, hx, hm⟩
    rw [hmin d' hd1 hd2 x hx] at hm
    cases hm
  rcases levelPattern_cases d hd with rfl | rfl | rfl | rfl
  · exact Or.inl ⟨rfl, h1.mpr hmatch⟩
  · exact Or.inr (Or.inl ⟨rfl, not_levelcontains _ _ h1 (hfalse 1 (by omega) (by omega)),
      h2.mpr hmatch⟩)
  · exact Or.inr (Or.inr (Or.inl ⟨rfl, not_levelcontains _ _ h1 (hfalse 1 (by omega) (by omega)),
      not_levelcontains _ _ h2 (hfalse 2 (by omega) (by omega)), h3.mpr hmatch⟩))
  · exact Or.inr (Or.inr (Or.inr ⟨rfl, not_levelcontains _ _ h1 (hfalse 1 (by omega) (by omega)),
      not_levelcontains _ _ h2 (hfalse 2 (by omega) (by omega)),
      not_levelcontains _ _ h3 (hfalse 3 (by omega) (by omega)), h4.mpr hmatch⟩))

theorem startIndex_of_depth (rx : Regexp) (w : Work) (u : Str) (d : Nat)
    (hc : contains w.URN u = false) (h : FirstDepth rx w u d) :
    startIndex rx w u = firstTrueLoop (matchAll rx (levelPattern d) w.URN u) 0 0 := by
  rcases levels_of_firstDepth rx w u d h with ⟨rfl, h1⟩ | ⟨rfl, h1, h2⟩ | ⟨rfl, h1, h2, h3⟩ |
    ⟨rfl, h1, h2, h3, h4⟩
  · simp [startIndex, hc, h1, levelPattern]
  · simp [startIndex, hc, h1, h2, levelPattern]
  · simp [startIndex, hc, h1, h2, h3, levelPattern]
  · simp [startIndex, hc, h1, h2, h3, h4, levelPattern]

theorem endIndex_of_depth (rx : Regexp) (w : Work) (u : Str) (d : Nat)
    (hc : contains w.URN u = false) (h : FirstDepth rx w u d) :
    endIndex rx w u =
      lastTrueLoop (matchAll rx (levelPattern d) w.URN u)
        (matchAll rx (levelPattern d) w.URN u).length 0 := by
  rcases levels_of_firstDepth rx w u d h with ⟨rfl, h1⟩ | ⟨rfl, h1, h2⟩ | ⟨rfl, h1, h2, h3⟩ |
    ⟨rfl, h1, h2, h3, h4⟩
  · simp [endIndex, hc, h1, levelPattern]
  · simp [endIndex, hc, h1, h2, levelPattern]
  · simp [endIndex, hc, h1, h2, h3, levelPattern]
  · simp [endIndex, hc, h1, h2, h3, h4, levelPattern]

theorem startIndex_of_noMatch (rx : Regexp) (w : Work) (u : Str) (h : NoMatch rx w u) :
    startIndex rx w u = 0 := by
  obtain ⟨h0, h1, h2, h3, h4⟩ := h
  simp [startIndex, h0, h1, h2, h3, h4]

theorem endIndex_of_noMatch (rx : Regexp) (w : Work) (u : Str) (h : NoMatch rx w u) :
    endIndex rx w u = (w.URN.length : Int) - 1 := by
  obtain ⟨h0, h1, h2, h3, h4⟩ := h
  simp [endIndex, h0, h1, h2, h3, h4]

theorem indexLoop_of_contains (w : Work) (u : Str) (h : contains w.URN u = true) :
    ∃ i : Nat, indexLoop u w.URN 0 0 = (i : Int) ∧ w.URN[i]? = some u ∧
      ∀ j, i < j → w.URN[j]? ≠ some u := by
  obtain ⟨a, b, hab, hb⟩ := exists_last_occurrence u w.URN ((contains_iff w.URN u).mp h)
  refine ⟨a.length, ?_, ?_, ?_⟩
  · rw [hab, indexLoop_last u a b 0 0 hb]
    simp
  · rw [hab]
    exact List.getElem?_eq_some.mpr ⟨by simp, List.getElem_of_append rfl rfl⟩
  · intro j hj hget
    apply hb
    rw [hab, List.getElem?_append_right (by omega)] at hget
    have : j - a.length = (j - a.length - 1) + 1 := by omega
    rw [this, List.getElem?_cons_succ] at hget
    exact List.mem_iff_getElem?.mpr ⟨_, hget⟩

theorem startIndex_first_match (rx : Regexp) (w : Work) (u : Str) (d : Nat)
    (hc : contains w.URN u = false) (h : FirstDepth rx w u d) :
    ∃ i : Nat, startIndex rx w u = (i : Int) ∧ i < w.URN.length ∧
      matchesAt rx w u d i = true ∧ ∀ j, j < i → matchesAt rx w u d j = false := by
  obtain ⟨j, _, hj⟩ := exists_match_index rx (levelPattern d) w.URN u h.2.1
  obtain ⟨k, h1, h2, h3⟩ := firstTrueLoop_spec (matchAll rx (levelPattern d) w.URN u) 0 0 ⟨j, hj⟩
  obtain ⟨hk, hm⟩ := (matchAll_getElem? rx (levelPattern d) w.URN u k).mp h2
  refine ⟨k, ?_, hk, hm, ?_⟩
  · rw [startIndex_of_depth rx w u d hc h, h1]
    simp
  · intro j' hj'
    have := h3 j' hj'
    rw [Ne, matchAll_getElem?] at this
    cases hv : matchesAt rx w u d j'
    · rfl
    · exact absurd ⟨by omega, hv⟩ this

theorem endIndex_last_match (rx : Regexp) (w : Work) (u : Str) (d : Nat)
    (hc : contains w.URN u = false) (h : FirstDepth rx w u d) :
    ∃ i : Nat, endIndex rx w u = (i : Int) ∧ i < w.URN.length ∧
      matchesAt rx w u d i = true ∧
      ∀ j, i < j → j < w.URN.length → matchesAt rx w u d j = false := by
  obtain ⟨j, hjl, hj⟩ := exists_match_index rx (levelPattern d) w.URN u h.2.1
  have hlen : (matchAll rx (levelPattern d) w.URN u).length = w.URN.length := by
    simp [matchAll]
  obtain ⟨k, hk0, h1, h2, h3⟩ := lastTrueLoop_spec (matchAll rx (levelPattern d) w.URN u)
    (matchAll rx (levelPattern d) w.URN u).length 0 ⟨j, by omega, hj⟩
  obtain ⟨hk, hm⟩ := (matchAll_getElem? rx (levelPattern d) w.URN u k).mp h2
  refine ⟨k, ?_, hk, hm, ?_⟩
  · rw [endIndex_of_depth rx w u d hc h, h1]
  · intro j' hj1 hj2
    have := h3 j' hj1 (by omega)
    rw [Ne, matchAll_getElem?] at this
    cases hv : matchesAt rx w u d j'
    · rfl
    · exact absurd ⟨hj2, hv⟩ this

theorem indexLoop_eq_of_last (w : Work) (u : Str) (s : Nat) (hs : w.URN[s]? = some u)
    (hslast : ∀ j, s < j → w.URN[j]? ≠ some u) :
    contains w.URN u = true ∧ indexLoop u w.URN 0 0 = (s : Int) := by
  have hc : contains w.URN u = true := (contains_iff w.URN u).mpr (List.getElem?_mem hs)
  obtain ⟨i, hi, hget, hlast⟩ := indexLoop_of_contains w u hc
  refine ⟨hc, ?_⟩
  rw [hi]
  rcases Nat.lt_trichotomy i s with h | h | h
  · exact absurd hs (hlast s h)
  · rw [h]
  · exact absurd hget (hslast i h)

theorem no_later_of_not_mem_drop (l : List Str) (u : Str) (s : Nat)
    (h : u ∉ l.drop (s + 1)) : ∀ j, s < j → l[j]? ≠ some u := by
  intro j hj hget
  apply h
  have : j = (s + 1) + (j - (s + 1)) := by omega
  rw [this, ← List.getElem?_drop] at hget
  exact List.getElem?_mem hget

/-- C12 (amended): the start boundary of a range. If `startURN` equals a node URN, the start
index is the index of the last node with that URN; so it is the index of the node at `i`
whenever that node carries `startURN` and no later node does. Otherwise, when `d` is the
smallest depth from 1 to 4 at which some node matches `startURN`, the start index is the
lowest index among the nodes matching at depth `d`. -/
theorem startIndex_resolution (rx : Regexp) (w : Work) (startURN : Str) :
    (contains w.URN startURN = true →
      ∃ i : Nat, startIndex rx w startURN = (i : Int) ∧ w.URN[i]? = some startURN ∧
        ∀ j, i < j → w.URN[j]? ≠ some startURN) ∧
    (∀ i : Nat, w.URN[i]? = some startURN → (∀ j, i < j → w.URN[j]? ≠ some startURN) →
      startIndex rx w startURN = (i : Int)) ∧
    (contains w.URN startURN = false → ∀ d, FirstDepth rx w startURN d →
      ∃ i : Nat, startIndex rx w startURN = (i : Int) ∧ i < w.URN.length ∧
        matchesAt rx w startURN d i = true ∧
        ∀ j, j < i → matchesAt rx w startURN d j = false) := by
  refine ⟨?_, ?_, ?_⟩
  · intro h
    rw [startIndex_of_contains rx w startURN h]
    exact indexLoop_of_contains w startURN h
  · intro i hi hlast
    obtain ⟨hc, hidx⟩ := indexLoop_eq_of_last w startURN i hi hlast
    rw [startIndex_of_contains rx w startURN hc, hidx]
  · intro hc d hd
    exact startIndex_first_match rx w startURN d hc hd

theorem exampleRequest_firstDepth : FirstDepth goRegexp exampleWork exampleRequest 1 := by
  refine ⟨⟨by decide, by decide⟩, by decide, ?_⟩
  intro d' h1 h2
  omega

theorem secondChapter_firstDepth :
    FirstDepth goRegexp exampleWork "urn:cts:ns:work:2".toList 1 := by
  refine ⟨⟨by decide, by decide⟩, by decide, ?_⟩
  intro d' h1 h2
  omega

/-- Witness of C12 (amended) on `exampleWork`: the start `urn:cts:ns:work:1.2` is the second
node and no later node carries that URN; the start `urn:cts:ns:work:1` matches the first two
nodes at depth 1 and resolves to index 0. -/
theorem startIndex_resolution_witness :
    contains exampleWork.URN "urn:cts:ns:work:1.2".toList = true ∧
    (∃ i : Nat, startIndex goRegexp exampleWork "urn:cts:ns:work:1.2".toList = (i : Int) ∧
      exampleWork.URN[i]? = some "urn:cts:ns:work:1.2".toList ∧
      ∀ j, i < j → exampleWork.URN[j]? ≠ some "urn:cts:ns:work:1.2".toList) ∧
    exampleWork.URN[1]? = some "urn:cts:ns:work:1.2".toList ∧
    (∀ j, 1 < j → exampleWork.URN[j]? ≠ some "urn:cts:ns:work:1.2".toList) ∧
    startIndex goRegexp exampleWork "urn:cts:ns:work:1.2".toList = ((1 : Nat) : Int) ∧
    contains exampleWork.URN exampleRequest = false ∧
    FirstDepth goRegexp exampleWork exampleRequest 1 ∧
    (∃ i : Nat, startIndex goRegexp exampleWork exampleRequest = (i : Int) ∧
      i < exampleWork.URN.length ∧ matchesAt goRegexp exampleWork exampleRequest 1 i = true ∧
      ∀ j, j < i → matchesAt goRegexp exampleWork exampleRequest 1 j = false) ∧
    startIndex goRegexp exampleWork exampleRequest = 0 :=
  ⟨by decide,
    (startIndex_resolution goRegexp exampleWork "urn:cts:ns:work:1.2".toList).1 (by decide),
    by decide, no_later_of_not_mem_drop _ _ 1 (by decide),
    (startIndex_resolution goRegexp exampleWork "urn:cts:ns:work:1.2".toList).2.1 1 (by decide)
      (no_later_of_not_mem_drop _ _ 1 (by decide)),
    by decide, exampleRequest_firstDepth,
    (startIndex_resolution goRegexp exampleWork exampleRequest).2.2 (by decide) 1
      exampleRequest_firstDepth,
    by decide⟩

/-- C12 fails as stated: in the work built from `repeatedLines` (nodes 1, 2, 1) the start
`urn:cts:ns:work:1` is the URN of the node at index 0, yet the start index is 2, the index of
the last node with that URN; so `ReturnReff` answers the range `1-2` with an empty list, not
with the nodes at indices 0 and 1. -/
theorem startIndex_counterexample :
    buildWork (ParseWork repeatedLines) exampleStem = some repeatedWork ∧
    repeatedWork.URN[0]? = some exampleRequest ∧
    startIndex goRegexp repeatedWork exampleRequest = 2 ∧
    rangeBounds "urn:cts:ns:work:1-2".toList =
      some (exampleRequest, "urn:cts:ns:work:2".toList) ∧
    endIndex goRegexp repeatedWork "urn:cts:ns:work:2".toList = 1 ∧
    ReturnReff insertionOrder goRegexp repeatedLines "urn:cts:ns:work:1-2".toList =
      some (Sum.inr { requestURN := ["urn:cts:ns:work:1-2".toList],
                      Status := "Success".toList, Service := "/texts/urns".toList,
                      URN := [] }) := by
  refine ⟨by decide, by decide, by decide, by decide, by decide, by decide⟩

/-- C13 (amended): the end boundary of a range. If `endURN` equals a node URN, the end index
is the index of the last node with that URN; so it is the index of the node at `i` whenever
that node carries `endURN` and no later node does. Otherwise, when `d` is the smallest depth
from 1 to 4 at which some node matches `endURN`, the end index is the highest index among
the nodes matching at depth `d`. -/
theorem endIndex_resolution (rx : Regexp) (w : Work) (endURN : Str) :
    (contains w.URN endURN = true →
      ∃ i : Nat, endIndex rx w endURN = (i : Int) ∧ w.URN[i]? = some endURN ∧
        ∀ j, i < j → w.URN[j]? ≠ some endURN) ∧
    (∀ i : Nat, w.URN[i]? = some endURN → (∀ j, i < j → w.URN[j]? ≠ some endURN) →
      endIndex rx w endURN = (i : Int)) ∧
    (contains w.URN endURN = false → ∀ d, FirstDepth rx w endURN d →
      ∃ i : Nat, endIndex rx w endURN = (i : Int) ∧ i < w.URN.length ∧
        matchesAt rx w endURN d i = true ∧
        ∀ j, i < j → j < w.URN.length → matchesAt rx w endURN d j = false) := by
  refine ⟨?_, ?_, ?_⟩
  · intro h
    rw [endIndex_of_contains rx w endURN h]
    exact indexLoop_of_contains w endURN h
  · intro i hi hlast
    obtain ⟨hc, hidx⟩ := indexLoop_eq_of_last w endURN i hi hlast
    rw [endIndex_of_contains rx w endURN hc, hidx]
  · intro hc d hd
    exact endIndex_last_match rx w endURN d hc hd

/-- Witness of C13 (amended) on `exampleWork`: the end `urn:cts:ns:work:1.2` is the second
node and no later node carries that URN; the end `urn:cts:ns:work:1` matches the first two
nodes at depth 1 and resolves to index 1. -/
theorem endIndex_resolution_witness :
    contains exampleWork.URN "urn:cts:ns:work:1.2".toList = true ∧
    (∃ i : Nat, endIndex goRegexp exampleWork "urn:cts:ns:work:1.2".toList = (i : Int) ∧
      exampleWork.URN[i]? = some "urn:cts:ns:work:1.2".toList ∧
      ∀ j, i < j → exampleWork.URN[j]? ≠ some "urn:cts:ns:work:1.2".toList) ∧
    exampleWork.URN[1]? = some "urn:cts:ns:work:1.2".toList ∧
    (∀ j, 1 < j → exampleWork.URN[j]? ≠ some "urn:cts:ns:work:1.2".toList) ∧
    endIndex goRegexp exampleWork "urn:cts:ns:work:1.2".toList = ((1 : Nat) : Int) ∧
    contains exampleWork.URN exampleRequest = false ∧
    FirstDepth goRegexp exampleWork exampleRequest 1 ∧
    (∃ i : Nat, endIndex goRegexp exampleWork exampleRequest = (i : Int) ∧
      i < exampleWork.URN.length ∧ matchesAt goRegexp exampleWork exampleRequest 1 i = true ∧
      ∀ j, i < j → j < exampleWork.URN.length →
        matchesAt goRegexp exampleWork exampleRequest 1 j = false) ∧
    endIndex goRegexp exampleWork exampleRequest = 1 :=
  ⟨by decide,
    (endIndex_resolution goRegexp exampleWork "urn:cts:ns:work:1.2".toList).1 (by decide),
    by decide, no_later_of_not_mem_drop _ _ 1 (by decide),
    (endIndex_resolution goRegexp exampleWork "urn:cts:ns:work:1.2".toList).2.1 1 (by decide)
      (no_later_of_not_mem_drop _ _ 1 (by decide)),
    by decide, exampleRequest_firstDepth,
    (endIndex_resolution goRegexp exampleWork exampleRequest).2.2 (by decide) 1
      exampleRequest_firstDepth,
    by decide⟩

/-- C13 fails as stated: in the work built from `repeatedLines` (nodes 1, 2, 1) the end
`urn:cts:ns:work:1` is the URN of the node at index 0, yet the end index is 2, the index of
the last node with that URN; so `ReturnReff` answers the range `2-1` with the nodes at
indices 1 and 2, whereas an end index of 0 would lie before the start index 1. -/
theorem endIndex_counterexample :
    buildWork (ParseWork repeatedLines) exampleStem = some repeatedWork ∧
    repeatedWork.URN[0]? = some exampleRequest ∧
    endIndex goRegexp repeatedWork exampleRequest = 2 ∧
    rangeBounds "urn:cts:ns:work:2-1".toList =
      some ("urn:cts:ns:work:2".toList, exampleRequest) ∧
    startIndex goRegexp repeatedWork "urn:cts:ns:work:2".toList = 1 ∧
    ReturnReff insertionOrder goRegexp repeatedLines "urn:cts:ns:work:2-1".toList =
      some (Sum.inr { requestURN := ["urn:cts:ns:work:2-1".toList],
                      Status := "Success".toList, Service := "/texts/urns".toList,
                      URN := ["urn:cts:ns:work:2".toList, exampleRequest] }) := by
  refine ⟨by decide, by decide, by decide, by decide, by decide, by decide⟩

theorem goSlice_natCast {α : Type} (l : List α) (s m : Nat) (h : s + m ≤ l.length) :
    goSlice l (s : Int) ((s + m : Nat) : Int) = some ((l.drop s).take m) := by
  unfold goSlice
  have hc : (0 : Int) ≤ (s : Int) ∧ (s : Int) ≤ ((s + m : Nat) : Int) ∧
      ((s + m : Nat) : Int) ≤ (l.length : Int) := by omega
  rw [if_pos hc]
  have h1 : (s : Int).toNat = s := by simp
  have h2 : (((s + m : Nat) : Int) - (s : Int)).toNat = m := by omega
  rw [h1, h2]

theorem WellFormed_index_length (w : Work) (hw : w.WellFormed) :
    w.Index.length = w.URN.length := by
  rw [hw.2]
  simp

theorem rangePassage_eq (rx : Regexp) (w : Work) (hw : w.WellFormed) (q su eu : Str)
    (s m : Nat) (hb : rangeBounds q = some (su, eu))
    (hs : startIndex rx w su = (s : Int))
    (he : endIndex rx w eu + 1 = ((s + m : Nat) : Int)) (hle : s + m ≤ w.URN.length) :
    rangePassage rx w q =
      some { requestURN := [q], Status := "Success".toList,
             Nodes := (List.range' s m).map (nodeOf w) } := by
  have hlen : ((w.URN.drop s).take m).length = m := by
    rw [List.length_take, List.length_drop]
    omega
  have hloop := rangeLoop_eq w ((w.URN.drop s).take m) ((w.Text.drop s).take m)
    ((w.Index.drop s).take m) (fun j => nodeOf w (s + j)) ((w.URN.drop s).take m).length 0 [] (by
      intro j _ hj
      have hjm : j < m := by omega
      apply nodeAt_of w hw _ _ _ j (s + j) (by omega)
      · rw [slice_getElem? _ _ _ _ hjm]
      · rw [slice_getElem? _ _ _ _ hjm]
      · rw [slice_getElem? _ _ _ _ hjm])
  unfold rangePassage
  simp only [hb, Option.bind_eq_bind, Option.some_bind, hs, he]
  rw [goSlice_natCast w.URN s m hle, goSlice_natCast w.Text s m (by rw [hw.1]; exact hle),
    goSlice_natCast w.Index s m (by rw [WellFormed_index_length w hw]; exact hle)]
  rw [hlen] at hloop
  simp only [Option.some_bind, hlen, hloop, List.nil_append, Option.pure_def]
  congr 2
  rw [List.range'_eq_map_range, List.range'_eq_map_range, List.map_map, List.map_map]
  apply List.map_congr_left
  intro j _
  simp [Function.comp]

theorem reff_range_eq (rx : Regexp) (w : Work) (q su eu : Str) (s m : Nat)
    (hr : isRange q = true) (hb : rangeBounds q = some (su, eu))
    (hs : startIndex rx w su = (s : Int))
    (he : endIndex rx w eu + 1 = ((s + m : Nat) : Int)) (hle : s + m ≤ w.URN.length) :
    reff rx w q =
      some { requestURN := [q], Status := "Success".toList, URN := (w.URN.drop s).take m,
             Service := "/texts/urns".toList } := by
  unfold reff
  simp only [hr, if_true, hb, Option.bind_eq_bind, Option.some_bind, hs, he]
  rw [goSlice_natCast w.URN s m hle]
  rfl

theorem passage_range (rx : Regexp) (w : Work) (q : Str) (hn : NoMatch rx w q)
    (hr : isRange q = true) : passage rx w q = rangePassage rx w q := by
  obtain ⟨h0, h1, h2, h3, h4⟩ := hn
  unfold passage
  simp [h0, h1, h2, h3, h4, hr]

theorem rangeRequest_fields (stem a b : Str) (ha : ':' ∉ a) (hb : ':' ∉ b) :
    Split (rangeRequest stem a b) ':' = Split stem ':' ++ [a ++ "-".toList ++ b] := by
  have hq : rangeRequest stem a b = stem ++ ':' :: (a ++ "-".toList ++ b) := by
    simp [rangeRequest]
  have hab : ':' ∉ a ++ "-".toList ++ b := by
    simp only [List.mem_append, not_or]
    exact ⟨⟨ha, by decide⟩, hb⟩
  rw [hq, Split_append_sep, Split_of_not_mem _ ':' hab]

theorem rangeRequest_isRange (stem a b : Str) (hstem : (Split stem ':').length = 4)
    (ha : ':' ∉ a) (hb : ':' ∉ b) : isRange (rangeRequest stem a b) = true := by
  apply (isRange_true_iff _).mpr
  rw [rangeRequest_fields stem a b ha hb]
  refine ⟨by simp [hstem], a ++ "-".toList ++ b, ?_, by simp⟩
  rw [List.getElem?_append_right (by omega), hstem]
  rfl

theorem rangeRequest_bounds (stem a b : Str) (hstem : (Split stem ':').length = 4)
    (ha : ':' ∉ a ∧ '-' ∉ a) (hb : ':' ∉ b ∧ '-' ∉ b) :
    rangeBounds (rangeRequest stem a b) =
      some (stem ++ ":".toList ++ a, stem ++ ":".toList ++ b) := by
  have hf := rangeRequest_fields stem a b ha.1 hb.1
  have hslice : goSlice (Split (rangeRequest stem a b) ':') 0 4 = some (Split stem ':') := by
    rw [hf]
    unfold goSlice
    have hc : (0 : Int) ≤ 0 ∧ (0 : Int) ≤ 4 ∧
        (4 : Int) ≤ ((Split stem ':' ++ [a ++ "-".toList ++ b]).length : Int) := by
      simp [hstem]
    rw [if_pos hc]
    simp [← hstem]
  have hidx : goIdx (Split (rangeRequest stem a b) ':') 4 = some (a ++ "-".toList ++ b) := by
    rw [hf]
    have : (4 : Int) = ((4 : Nat) : Int) := rfl
    rw [this, goIdx_natCast, List.getElem?_append_right (by omega), hstem]
    rfl
  have hsplit : Split (a ++ "-".toList ++ b) '-' = [a, b] := by
    have : a ++ "-".toList ++ b = a ++ '-' :: b := by simp
    rw [this, Split_append_sep, Split_of_not_mem a '-' ha.2, Split_of_not_mem b '-' hb.2]
    rfl
  unfold rangeBounds splitCTS
  simp only [hslice, hidx, Option.bind_eq_bind, Option.some_bind, Option.pure_def, hsplit]
  have h0 : goIdx [a, b] 0 = some a := rfl
  have h1 : goIdx [a, b] 1 = some b := rfl
  rw [h0, h1]
  simp only [Option.some_bind]
  rw [show (":".toList : Str) = [':'] from rfl, Join_Split]

/-- C11 (amended): for a range request `stem:a-b` (where `a` and `b` contain neither ':' nor
'-') whose boundaries `stem:a` and `stem:b` are URNs of nodes, last found at the positions `s`
and `e` with `s ≤ e + 1`, range resolution returns the contiguous nodes from `s` to `e`
inclusive, `e + 1 - s` of them: as annotated nodes from the range case of `passage` (which
`passage` takes when the request itself matches no node exactly or at depth 1 to 4), and as
URNs from `reff`. -/
theorem range_exact_slice (rx : Regexp) (w : Work) (stem a b : Str) (s e : Nat)
    (hw : w.WellFormed) (hstem : (Split stem ':').length = 4)
    (ha : ':' ∉ a ∧ '-' ∉ a) (hb : ':' ∉ b ∧ '-' ∉ b)
    (hs : w.URN[s]? = some (stem ++ ":".toList ++ a))
    (hslast : ∀ j, s < j → w.URN[j]? ≠ some (stem ++ ":".toList ++ a))
    (he : w.URN[e]? = some (stem ++ ":".toList ++ b))
    (helast : ∀ j, e < j → w.URN[j]? ≠ some (stem ++ ":".toList ++ b))
    (hse : s ≤ e + 1) :
    rangePassage rx w (rangeRequest stem a b) =
      some { requestURN := [rangeRequest stem a b], Status := "Success".toList,
             Nodes := (List.range' s (e + 1 - s)).map (nodeOf w) } ∧
    ((List.range' s (e + 1 - s)).map (nodeOf w)).length = e + 1 - s ∧
    reff rx w (rangeRequest stem a b) =
      some { requestURN := [rangeRequest stem a b], Status := "Success".toList,
             URN := (w.URN.drop s).take (e + 1 - s), Service := "/texts/urns".toList } ∧
    (NoMatch rx w (rangeRequest stem a b) →
      passage rx w (rangeRequest stem a b) =
        some { requestURN := [rangeRequest stem a b], Status := "Success".toList,
               Nodes := (List.range' s (e + 1 - s)).map (nodeOf w) }) := by
  have hbounds := rangeRequest_bounds stem a b hstem ha hb
  have hrange := rangeRequest_isRange stem a b hstem ha.1 hb.1
  obtain ⟨hcs, his⟩ := indexLoop_eq_of_last w _ s hs hslast
  obtain ⟨hce, hie⟩ := indexLoop_eq_of_last w _ e he helast
  have hsi : startIndex rx w (stem ++ ":".toList ++ a) = (s : Int) := by
    rw [startIndex_of_contains rx w _ hcs, his]
  have hei : endIndex rx w (stem ++ ":".toList ++ b) + 1 = ((s + (e + 1 - s) : Nat) : Int) := by
    rw [endIndex_of_contains rx w _ hce, hie]
    omega
  have hlt : e < w.URN.length := (List.getElem?_eq_some.mp he).1
  have hle : s + (e + 1 - s) ≤ w.URN.length := by omega
  have hp := rangePassage_eq rx w hw _ _ _ s (e + 1 - s) hbounds hsi hei hle
  refine ⟨hp, by simp, reff_range_eq rx w _ _ _ s (e + 1 - s) hrange hbounds hsi hei hle, ?_⟩
  intro hn
  rw [passage_range rx w _ hn hrange, hp]

/-- Witness of C11 (amended): the request `urn:cts:ns:work:1.1-2.1` over the nodes 1.1, 1.2,
2.1 of `exampleWork` returns all three nodes. -/
theorem range_exact_slice_witness :
    exampleWork.WellFormed ∧ (Split exampleStem ':').length = 4 ∧
    rangeRequest exampleStem "1.1".toList "2.1".toList = "urn:cts:ns:work:1.1-2.1".toList ∧
    exampleWork.URN[0]? = some (exampleStem ++ ":".toList ++ "1.1".toList) ∧
    exampleWork.URN[2]? = some (exampleStem ++ ":".toList ++ "2.1".toList) ∧
    NoMatch goRegexp exampleWork (rangeRequest exampleStem "1.1".toList "2.1".toList) ∧
    (rangePassage goRegexp exampleWork (rangeRequest exampleStem "1.1".toList "2.1".toList) =
      some { requestURN := [rangeRequest exampleStem "1.1".toList "2.1".toList],
             Status := "Success".toList,
             Nodes := (List.range' 0 (2 + 1 - 0)).map (nodeOf exampleWork) } ∧
    ((List.range' 0 (2 + 1 - 0)).map (nodeOf exampleWork)).length = 2 + 1 - 0 ∧
    reff goRegexp exampleWork (rangeRequest exampleStem "1.1".toList "2.1".toList) =
      some { requestURN := [rangeRequest exampleStem "1.1".toList "2.1".toList],
             Status := "Success".toList,
             URN := (exampleWork.URN.drop 0).take (2 + 1 - 0),
             Service := "/texts/urns".toList } ∧
    (NoMatch goRegexp exampleWork (rangeRequest exampleStem "1.1".toList "2.1".toList) →
      passage goRegexp exampleWork (rangeRequest exampleStem "1.1".toList "2.1".toList) =
        some { requestURN := [rangeRequest exampleStem "1.1".toList "2.1".toList],
               Status := "Success".toList,
               Nodes := (List.range' 0 (2 + 1 - 0)).map (nodeOf exampleWork) })) ∧
    (List.range' 0 (2 + 1 - 0)).map (nodeOf exampleWork) =
      [nodeOf exampleWork 0, nodeOf exampleWork 1, nodeOf exampleWork 2] :=
  ⟨⟨by decide, by decide⟩, by decide, by decide, by decide, by decide,
    ⟨by decide, by decide, by decide, by decide, by decide⟩,
    range_exact_slice goRegexp exampleWork exampleStem "1.1".toList "2.1".toList 0 2
      ⟨by decide, by decide⟩ (by decide) ⟨by decide, by decide⟩ ⟨by decide, by decide⟩
      (by decide) (no_later_of_not_mem_drop _ _ 0 (by decide))
      (by decide) (no_later_of_not_mem_drop _ _ 2 (by decide)) (by decide),
    by decide⟩

/-- C11 fails as stated. Over the records of `repeatedLines` (nodes 1, 2, 1) the request
`urn:cts:ns:work:1-2` names the first and the second node, yet the start is taken at the
last node named `urn:cts:ns:work:1` and `ReturnPassage` answers Success without nodes. Over
`shadowedLines` the request `urn:cts:ns:work:1.1-2.1` names the first two nodes, yet
`ReturnPassage` answers from its depth-1 case with the third node alone. Over `exampleLines`
the request `urn:cts:ns:work:2.1-1.1` names the third and the first node and
`ReturnPassage` panics on the slice bounds. -/
theorem range_exact_counterexample :
    ReturnPassage insertionOrder goRegexp repeatedLines "urn:cts:ns:work:1-2".toList =
      some { requestURN := ["urn:cts:ns:work:1-2".toList], Status := "Success".toList,
             Service := "/texts".toList, Nodes := [] } ∧
    ReturnPassage insertionOrder goRegexp shadowedLines "urn:cts:ns:work:1.1-2.1".toList =
      some { requestURN := ["urn:cts:ns:work:1.1-2.1".toList], Status := "Success".toList,
             Service := "/texts".toList,
             Nodes := [{ URN := ["urn:cts:ns:work:1.1-2.15".toList], Text := ["gamma".toList],
                         Previous := ["urn:cts:ns:work:2.1".toList], Next := [[]],
                         Index := 3 }] } ∧
    ReturnPassage insertionOrder goRegexp exampleLines "urn:cts:ns:work:2.1-1.1".toList = none := by
  refine ⟨by decide, by decide, by decide⟩

theorem mem_range'_map_nodeOf (w : Work) (s m i : Nat) (h1 : s ≤ i) (h2 : i < s + m) :
    nodeOf w i ∈ (List.range' s m).map (nodeOf w) :=
  List.mem_map_of_mem _ (List.mem_range'_1.mpr ⟨h1, h2⟩)

/-- C14 (amended): for a range request whose start and end are both resolved by depth
containment, when every node matching `startURN` at its resolved depth is followed or
equalled by a node matching `endURN` at its resolved depth, and every node matching
`endURN` is preceded or equalled by a node matching `startURN`, the range case returns a
slice that contains every node matching `startURN` at its resolved depth and every node
matching `endURN` at its resolved depth; `passage` returns that slice when the request
itself matches no node exactly or at depth 1 to 4. -/
theorem range_depth_slice (rx : Regexp) (w : Work) (q su eu : Str) (ds de : Nat)
    (hw : w.WellFormed) (hb : rangeBounds q = some (su, eu))
    (hcs : contains w.URN su = false) (hce : contains w.URN eu = false)
    (hds : FirstDepth rx w su ds) (hde : FirstDepth rx w eu de)
    (hfollow : ∀ i, i < w.URN.length → matchesAt rx w su ds i = true →
      ∃ j, i ≤ j ∧ j < w.URN.length ∧ matchesAt rx w eu de j = true)
    (hprecede : ∀ j, j < w.URN.length → matchesAt rx w eu de j = true →
      ∃ i, i ≤ j ∧ matchesAt rx w su ds i = true) :
    ∃ resp, rangePassage rx w q = some resp ∧ resp.Status = "Success".toList ∧
      (∀ i, i < w.URN.length → matchesAt rx w su ds i = true → nodeOf w i ∈ resp.Nodes) ∧
      (∀ j, j < w.URN.length → matchesAt rx w eu de j = true → nodeOf w j ∈ resp.Nodes) ∧
      (NoMatch rx w q → isRange q = true → passage rx w q = some resp) := by
  obtain ⟨s, hs, hsl, hsm, hsfirst⟩ := startIndex_first_match rx w su ds hcs hds
  obtain ⟨e, he, hel, hem, helast⟩ := endIndex_last_match rx w eu de hce hde
  have hle_of_end : ∀ j, j < w.URN.length → matchesAt rx w eu de j = true → j ≤ e := by
    intro j hj hm
    by_contra hc
    rw [helast j (by omega) hj] at hm
    cases hm
  have hge_of_start : ∀ i, matchesAt rx w su ds i = true → s ≤ i := by
    intro i hm
    by_contra hc
    rw [hsfirst i (by omega)] at hm
    cases hm
  have hse : s ≤ e := by
    obtain ⟨j, hj1, hj2, hj3⟩ := hfollow s hsl hsm
    have := hle_of_end j hj2 hj3
    omega
  have hei : endIndex rx w eu + 1 = ((s + (e + 1 - s) : Nat) : Int) := by
    rw [he]
    omega
  have hp := rangePassage_eq rx w hw q su eu s (e + 1 - s) hb hs hei (by omega)
  refine ⟨_, hp, rfl, ?_, ?_, ?_⟩
  · intro i hi hm
    obtain ⟨j, hj1, hj2, hj3⟩ := hfollow i hi hm
    have h1 := hle_of_end j hj2 hj3
    have h2 := hge_of_start i hm
    exact mem_range'_map_nodeOf w s (e + 1 - s) i h2 (by omega)
  · intro j hj hm
    obtain ⟨i, hi1, hi2⟩ := hprecede j hj hm
    have h1 := hle_of_end j hj hm
    have h2 := hge_of_start i hi2
    exact mem_range'_map_nodeOf w s (e + 1 - s) j (by omega) (by omega)
  · intro hn hr
    rw [passage_range rx w q hn hr, hp]

/-- Witness of C14 (amended): the request `urn:cts:ns:work:1-2` over `exampleWork`, whose
nodes 1.1 and 1.2 match the start and whose node 2.1 matches the end, both at depth 1. -/
theorem range_depth_slice_witness :
    exampleWork.WellFormed ∧
    rangeBounds "urn:cts:ns:work:1-2".toList =
      some (exampleRequest, "urn:cts:ns:work:2".toList) ∧
    contains exampleWork.URN exampleRequest = false ∧
    contains exampleWork.URN "urn:cts:ns:work:2".toList = false ∧
    FirstDepth goRegexp exampleWork exampleRequest 1 ∧
    FirstDepth goRegexp exampleWork "urn:cts:ns:work:2".toList 1 ∧
    (∀ i, i < exampleWork.URN.length → matchesAt goRegexp exampleWork exampleRequest 1 i = true →
      ∃ j, i ≤ j ∧ j < exampleWork.URN.length ∧
        matchesAt goRegexp exampleWork "urn:cts:ns:work:2".toList 1 j = true) ∧
    (∀ j, j < exampleWork.URN.length →
      matchesAt goRegexp exampleWork "urn:cts:ns:work:2".toList 1 j = true →
      ∃ i, i ≤ j ∧ matchesAt goRegexp exampleWork exampleRequest 1 i = true) ∧
    (∃ resp, rangePassage goRegexp exampleWork "urn:cts:ns:work:1-2".toList = some resp ∧
      resp.Status = "Success".toList ∧
      (∀ i, i < exampleWork.URN.length → matchesAt goRegexp exampleWork exampleRequest 1 i = true →
        nodeOf exampleWork i ∈ resp.Nodes) ∧
      (∀ j, j < exampleWork.URN.length →
        matchesAt goRegexp exampleWork "urn:cts:ns:work:2".toList 1 j = true →
        nodeOf exampleWork j ∈ resp.Nodes) ∧
      (NoMatch goRegexp exampleWork "urn:cts:ns:work:1-2".toList →
        isRange "urn:cts:ns:work:1-2".toList = true →
        passage goRegexp exampleWork "urn:cts:ns:work:1-2".toList = some resp)) ∧
    passage goRegexp exampleWork "urn:cts:ns:work:1-2".toList =
      some { requestURN := ["urn:cts:ns:work:1-2".toList], Status := "Success".toList,
             Nodes := [nodeOf exampleWork 0, nodeOf exampleWork 1, nodeOf exampleWork 2] } :=
  have hfollow : ∀ i, i < exampleWork.URN.length →
      matchesAt goRegexp exampleWork exampleRequest 1 i = true →
      ∃ j, i ≤ j ∧ j < exampleWork.URN.length ∧
        matchesAt goRegexp exampleWork "urn:cts:ns:work:2".toList 1 j = true := by
    intro i hi _
    exact ⟨2, by simp [exampleWork] at hi; omega, by decide, by decide⟩
  have hprecede : ∀ j, j < exampleWork.URN.length →
      matchesAt goRegexp exampleWork "urn:cts:ns:work:2".toList 1 j = true →
      ∃ i, i ≤ j ∧ matchesAt goRegexp exampleWork exampleRequest 1 i = true := by
    intro j _ _
    exact ⟨0, by omega, by decide⟩
  ⟨⟨by decide, by decide⟩, by decide, by decide, by decide, exampleRequest_firstDepth,
    secondChapter_firstDepth, hfollow, hprecede,
    range_depth_slice goRegexp exampleWork "urn:cts:ns:work:1-2".toList exampleRequest
      "urn:cts:ns:work:2".toList 1 1 ⟨by decide, by decide⟩ (by decide) (by decide) (by decide)
      exampleRequest_firstDepth secondChapter_firstDepth hfollow hprecede,
    by decide⟩

/-- C14 fails as stated: over the records of `interleavedLines` (nodes 1.1, 2.1, 1.2) the
request `urn:cts:ns:work:1-2` has both boundaries resolved at depth 1, the node 1.2 matches
the start `urn:cts:ns:work:1` at depth 1, and `ReturnPassage` returns the nodes 1.1 and 2.1
only. -/
theorem range_depth_counterexample :
    rangeBounds "urn:cts:ns:work:1-2".toList =
      some (exampleRequest, "urn:cts:ns:work:2".toList) ∧
    contains (interleavedLines.map Prod.fst) exampleRequest = false ∧
    contains (interleavedLines.map Prod.fst) "urn:cts:ns:work:2".toList = false ∧
    level1contains goRegexp (interleavedLines.map Prod.fst) exampleRequest = true ∧
    level1contains goRegexp (interleavedLines.map Prod.fst) "urn:cts:ns:work:2".toList = true ∧
    goRegexp (exampleRequest ++ level1pattern) "urn:cts:ns:work:1.2".toList = true ∧
    ReturnPassage insertionOrder goRegexp interleavedLines "urn:cts:ns:work:1-2".toList =
      some { requestURN := ["urn:cts:ns:work:1-2".toList], Status := "Success".toList,
             Service := "/texts".toList,
             Nodes := [{ URN := ["urn:cts:ns:work:1.1".toList], Text := ["alpha".toList],
                         Previous := [[]], Next := ["urn:cts:ns:work:2.1".toList], Index := 1 },
                       { URN := ["urn:cts:ns:work:2.1".toList], Text := ["beta".toList],
                         Previous := ["urn:cts:ns:work:1.1".toList],
                         Next := ["urn:cts:ns:work:1.2".toList], Index := 2 }] } := by
  refine ⟨by decide, by decide, by decide, by decide, by decide, by decide, by decide⟩

/-- C15 (amended): when `startURN` matches no node, exactly or at any depth from 1 to 4, the
start index is 0, and when `endURN` matches no node the end index is `N - 1`; so a range
request whose two boundaries both match nothing is answered with status Success and all
`N` nodes by the range case of `passage`, which `passage` takes when the request itself
matches no node exactly or at depth 1 to 4, and with all `N` URNs by `reff`. -/
theorem range_defaults (rx : Regexp) (w : Work) (q su eu : Str) (hw : w.WellFormed)
    (hr : isRange q = true) (hb : rangeBounds q = some (su, eu))
    (hs : NoMatch rx w su) (he : NoMatch rx w eu) :
    startIndex rx w su = 0 ∧ endIndex rx w eu = (w.URN.length : Int) - 1 ∧
    rangePassage rx w q =
      some { requestURN := [q], Status := "Success".toList,
             Nodes := (List.range w.URN.length).map (nodeOf w) } ∧
    reff rx w q =
      some { requestURN := [q], Status := "Success".toList, URN := w.URN,
             Service := "/texts/urns".toList } ∧
    (NoMatch rx w q →
      passage rx w q =
        some { requestURN := [q], Status := "Success".toList,
               Nodes := (List.range w.URN.length).map (nodeOf w) }) := by
  have hsi := startIndex_of_noMatch rx w su hs
  have hei := endIndex_of_noMatch rx w eu he
  have hsi' : startIndex rx w su = ((0 : Nat) : Int) := by rw [hsi]; rfl
  have hei' : endIndex rx w eu + 1 = ((0 + w.URN.length : Nat) : Int) := by
    rw [hei]
    omega
  have hp := rangePassage_eq rx w hw q su eu 0 w.URN.length hb hsi' hei' (by omega)
  rw [← List.range_eq_range'] at hp
  have hre := reff_range_eq rx w q su eu 0 w.URN.length hr hb hsi' hei' (by omega)
  rw [List.drop_zero, List.take_length] at hre
  refine ⟨hsi, hei, hp, hre, ?_⟩
  intro hn
  rw [passage_range rx w q hn hr, hp]

/-- Witness of C15 (amended): over `exampleWork` neither boundary of the request
`urn:cts:ns:work:8-9` matches a node, and all three nodes are returned. -/
theorem range_defaults_witness :
    exampleWork.WellFormed ∧ isRange "urn:cts:ns:work:8-9".toList = true ∧
    rangeBounds "urn:cts:ns:work:8-9".toList =
      some ("urn:cts:ns:work:8".toList, "urn:cts:ns:work:9".toList) ∧
    NoMatch goRegexp exampleWork "urn:cts:ns:work:8".toList ∧
    NoMatch goRegexp exampleWork "urn:cts:ns:work:9".toList ∧
    NoMatch goRegexp exampleWork "urn:cts:ns:work:8-9".toList ∧
    (startIndex goRegexp exampleWork "urn:cts:ns:work:8".toList = 0 ∧
      endIndex goRegexp exampleWork "urn:cts:ns:work:9".toList =
        (exampleWork.URN.length : Int) - 1 ∧
      rangePassage goRegexp exampleWork "urn:cts:ns:work:8-9".toList =
        some { requestURN := ["urn:cts:ns:work:8-9".toList], Status := "Success".toList,
               Nodes := (List.range exampleWork.URN.length).map (nodeOf exampleWork) } ∧
      reff goRegexp exampleWork "urn:cts:ns:work:8-9".toList =
        some { requestURN := ["urn:cts:ns:work:8-9".toList], Status := "Success".toList,
               URN := exampleWork.URN, Service := "/texts/urns".toList } ∧
      (NoMatch goRegexp exampleWork "urn:cts:ns:work:8-9".toList →
        passage goRegexp exampleWork "urn:cts:ns:work:8-9".toList =
          some { requestURN := ["urn:cts:ns:work:8-9".toList], Status := "Success".toList,
                 Nodes := (List.range exampleWork.URN.length).map (nodeOf exampleWork) })) :=
  ⟨⟨by decide, by decide⟩, by decide, by decide,
    ⟨by decide, by decide, by decide, by decide, by decide⟩,
    ⟨by decide, by decide, by decide, by decide, by decide⟩,
    ⟨by decide, by decide, by decide, by decide, by decide⟩,
    range_defaults goRegexp exampleWork "urn:cts:ns:work:8-9".toList "urn:cts:ns:work:8".toList
      "urn:cts:ns:work:9".toList ⟨by decide, by decide⟩ (by decide) (by decide)
      ⟨by decide, by decide, by decide, by decide, by decide⟩
      ⟨by decide, by decide, by decide, by decide, by decide⟩⟩

/-- C15 fails as stated for `passage`: over the records of `hyphenLines` neither boundary of
the range request `urn:cts:ns:work:1-2` matches a node, yet the request itself matches the
first node at depth 1, and `ReturnPassage` answers from its depth-1 case with that node
alone instead of both nodes. -/
theorem range_defaults_counterexample :
    buildWork (ParseWork hyphenLines) exampleStem = some hyphenWork ∧
    isRange "urn:cts:ns:work:1-2".toList = true ∧
    rangeBounds "urn:cts:ns:work:1-2".toList =
      some (exampleRequest, "urn:cts:ns:work:2".toList) ∧
    NoMatch goRegexp hyphenWork exampleRequest ∧
    NoMatch goRegexp hyphenWork "urn:cts:ns:work:2".toList ∧
    ReturnPassage insertionOrder goRegexp hyphenLines "urn:cts:ns:work:1-2".toList =
      some { requestURN := ["urn:cts:ns:work:1-2".toList], Status := "Success".toList,
             Service := "/texts".toList,
             Nodes := [{ URN := ["urn:cts:ns:work:1-25".toList], Text := ["alpha".toList],
                         Previous := [[]], Next := ["urn:cts:ns:work:7".toList],
                         Index := 1 }] } := by
  refine ⟨by decide, by decide, by decide,
    ⟨by decide, by decide, by decide, by decide, by decide⟩,
    ⟨by decide, by decide, by decide, by decide, by decide⟩, by decide⟩

/-! ## C16 to C20: first, last, previous, next -/

theorem firstPassage_eq (w : Work) (q : Str) (hw : w.WellFormed) (hN : 1 < w.URN.length) :
    firstPassage w q =
      some { requestURN := [q], Status := "Success".toList,
             Nodes := [{ URN := [w.URN.getD 0 []], Text := [w.Text.getD 0 []],
                         Previous := [], Next := [w.URN.getD 1 []], Index := 1 }] } := by
  have h0 : goIdx w.URN 0 = some (w.URN.getD 0 []) := by
    rw [show (0 : Int) = ((0 : Nat) : Int) from rfl, goIdx_natCast, getElem?_getD w.URN 0 (by omega)]
  have h1 : goIdx w.URN 1 = some (w.URN.getD 1 []) := by
    rw [show (1 : Int) = ((1 : Nat) : Int) from rfl, goIdx_natCast, getElem?_getD w.URN 1 hN]
  have ht : goIdx w.Text 0 = some (w.Text.getD 0 []) := by
    rw [show (0 : Int) = ((0 : Nat) : Int) from rfl, goIdx_natCast,
      WellFormed_text w hw 0 (by omega)]
  have hi : goIdx w.Index 0 = some 1 := by
    rw [show (0 : Int) = ((0 : Nat) : Int) from rfl, goIdx_natCast,
      WellFormed_index w hw 0 (by omega)]
    rfl
  unfold firstPassage
  rw [h0, ht, h1, hi]
  rfl

theorem lastPassage_eq (w : Work) (q : Str) (hw : w.WellFormed) (hN : 1 < w.URN.length) :
    lastPassage w q =
      some { requestURN := [q], Status := "Success".toList,
             Nodes := [{ URN := [w.URN.getD (w.URN.length - 1) []],
                         Text := [w.Text.getD (w.URN.length - 1) []],
                         Previous := [w.URN.getD (w.URN.length - 2) []], Next := [],
                         Index := (w.URN.length : Int) }] } := by
  have e1 : (w.URN.length : Int) - 1 = ((w.URN.length - 1 : Nat) : Int) := by omega
  have e2 : (w.URN.length : Int) - 2 = ((w.URN.length - 2 : Nat) : Int) := by omega
  have h0 : goIdx w.URN ((w.URN.length : Int) - 1) = some (w.URN.getD (w.URN.length - 1) []) := by
    rw [e1, goIdx_natCast, getElem?_getD w.URN _ (by omega)]
  have h1 : goIdx w.URN ((w.URN.length : Int) - 2) = some (w.URN.getD (w.URN.length - 2) []) := by
    rw [e2, goIdx_natCast, getElem?_getD w.URN _ (by omega)]
  have ht : goIdx w.Text ((w.URN.length : Int) - 1) =
      some (w.Text.getD (w.URN.length - 1) []) := by
    rw [e1, goIdx_natCast, WellFormed_text w hw _ (by omega)]
  have hi : goIdx w.Index ((w.URN.length : Int) - 1) = some (w.URN.length : Int) := by
    rw [e1, goIdx_natCast, WellFormed_index w hw _ (by omega)]
    congr 1
    omega
  unfold lastPassage
  rw [h0, ht, h1, hi]
  rfl

/-- The handler `ReturnFirst` and its last case: for a validated request that selects the
stem at position `i` of the stem list, the handler builds a well-formed work for that stem
and answers with what `firstPassage` returns on it, or with the recovered response when
`firstPassage` panics. -/
theorem ReturnFirst_resolved (o : MapOrder) (lines : List (Str × Str))
    (q : Str) (cropped : List Str) (i : Nat) (S : Str)
    (hq : isCTSURN q = true) (hc : cropAll (ParseWork lines).URN = some cropped)
    (hsel : selectWork q (removeDuplicatesUnordered o cropped) = i + 1)
    (hS : (removeDuplicatesUnordered o cropped)[i]? = some S) :
    ∃ w, buildWork (ParseWork lines) S = some w ∧ w.WellFormed ∧
      ReturnFirst o lines q =
        match firstPassage w q with
        | some r => { r with Service := "/texts/first".toList }
        | none => recoveredFirst := by
  have hfields : ∀ l ∈ lines, 4 ≤ (Split l.1 ':').length := by
    intro l hl
    apply cropAll_fields _ cropped hc
    rw [ParseWork_URN]
    exact List.mem_map_of_mem _ hl
  have hb := buildWork_eq lines S hfields
  refine ⟨_, hb, buildWork_wellFormed lines S _ hfields hb, ?_⟩
  unfold ReturnFirst
  simp only [hq, ne_eq, not_true_eq_false, if_false, hc, Option.bind_eq_bind, Option.some_bind,
    hsel, Nat.add_one_ne_zero, Nat.add_sub_cancel, hS, hb]
  cases firstPassage _ q <;> rfl

/-- The handlers `ReturnLast`, `ReturnPrev` and `ReturnNext` and their last cases: for a
validated request that selects the stem at position `i` of the stem list, each handler
builds a well-formed work for that stem and answers with what its case returns on it, with
the service name filled in. -/
theorem navigation_resolved (o : MapOrder) (lines : List (Str × Str))
    (q : Str) (cropped : List Str) (i : Nat) (S : Str)
    (hq : isCTSURN q = true) (hc : cropAll (ParseWork lines).URN = some cropped)
    (hsel : selectWork q (removeDuplicatesUnordered o cropped) = i + 1)
    (hS : (removeDuplicatesUnordered o cropped)[i]? = some S) :
    ∃ w, buildWork (ParseWork lines) S = some w ∧ w.WellFormed ∧
      ReturnLast o lines q =
        (lastPassage w q).map (fun r => { r with Service := "/texts/last".toList }) ∧
      ReturnPrev o lines q =
        (prevPassage w q).map (fun r => { r with Service := "/texts/previous".toList }) ∧
      ReturnNext o lines q =
        (nextPassage w q).map (fun r => { r with Service := "/texts/next".toList }) := by
  have hfields : ∀ l ∈ lines, 4 ≤ (Split l.1 ':').length := by
    intro l hl
    apply cropAll_fields _ cropped hc
    rw [ParseWork_URN]
    exact List.mem_map_of_mem _ hl
  have hb := buildWork_eq lines S hfields
  refine ⟨_, hb, buildWork_wellFormed lines S _ hfields hb, ?_, ?_, ?_⟩
  · unfold ReturnLast
    simp only [hq, ne_eq, not_true_eq_false, if_false, hc, Option.bind_eq_bind, Option.some_bind,
      hsel, Nat.add_one_ne_zero, Nat.add_sub_cancel, hS, hb]
    cases lastPassage _ q <;> rfl
  · unfold ReturnPrev
    simp only [hq, ne_eq, not_true_eq_false, if_false, hc, Option.bind_eq_bind, Option.some_bind,
      hsel, Nat.add_one_ne_zero, Nat.add_sub_cancel, hS, hb]
    cases prevPassage _ q <;> rfl
  · unfold ReturnNext
    simp only [hq, ne_eq, not_true_eq_false, if_false, hc, Option.bind_eq_bind, Option.some_bind,
      hsel, Nat.add_one_ne_zero, Nat.add_sub_cancel, hS, hb]
    cases nextPassage _ q <;> rfl

/-- C16: for a work of more than one node (one text per URN, `Index` enumerating from 1),
`first` answers with status Success and exactly one node: the node at index 0, with its
URN, its text and `Index` 1, whose next is the URN of the node at index 1 and which has no
previous. -/
theorem first_node (w : Work) (q : Str) (hw : w.WellFormed) (hN : 1 < w.URN.length) :
    ∃ node, firstPassage w q =
        some { requestURN := [q], Status := "Success".toList, Nodes := [node] } ∧
      node.URN = [w.URN.getD 0 []] ∧ node.Text = [w.Text.getD 0 []] ∧ node.Index = 1 ∧
      node.Next = [w.URN.getD 1 []] ∧ node.Previous = [] :=
  ⟨_, firstPassage_eq w q hw hN, rfl, rfl, rfl, rfl, rfl⟩

/-- Witness of C16: `first` over the example records answers with node 1.1, whose next is
node 1.2. -/
theorem first_node_witness :
    exampleWork.WellFormed ∧ 1 < exampleWork.URN.length ∧
    (∃ node, firstPassage exampleWork exampleRequest =
        some { requestURN := [exampleRequest], Status := "Success".toList, Nodes := [node] } ∧
      node.URN = [exampleWork.URN.getD 0 []] ∧ node.Text = [exampleWork.Text.getD 0 []] ∧
      node.Index = 1 ∧ node.Next = [exampleWork.URN.getD 1 []] ∧ node.Previous = []) ∧
    ReturnFirst insertionOrder exampleLines exampleRequest =
      { requestURN := [exampleRequest], Status := "Success".toList,
        Service := "/texts/first".toList,
        Nodes := [{ URN := ["urn:cts:ns:work:1.1".toList], Text := ["alpha".toList],
                    Next := ["urn:cts:ns:work:1.2".toList], Index := 1 }] } :=
  ⟨⟨by decide, by decide⟩, by decide,
    first_node exampleWork exampleRequest ⟨by decide, by decide⟩ (by decide), by decide⟩

/-- C17, evaluated at a corpus of one record: the `default` case of `ReturnFirst` reads the
second node and panics; the deferred `recover` turns the panic into an Exception response
without nodes. `ReturnLast` reads the node before the last, panics, and writes no response.
Neither returns the single node. -/
theorem single_node_first_last :
    buildWork (ParseWork singleLines) exampleStem =
      some { WorkURN := exampleStem, URN := [exampleRequest], Text := ["alpha".toList],
             Index := [1] } ∧
    ReturnFirst insertionOrder singleLines exampleRequest = recoveredFirst ∧
    recoveredFirst.Status = "Exception".toList ∧ recoveredFirst.Nodes = [] ∧
    ReturnLast insertionOrder singleLines exampleRequest = none := by
  refine ⟨by decide, by decide, by decide, by decide, by decide⟩

/-- C18: for a work of more than one node (one text per URN, `Index` enumerating from 1),
`last` answers with status Success and exactly one node: the node at index `N - 1`, with
its URN, its text and `Index` `N`, whose previous is the URN of the node at index `N - 2`
and which has no next. -/
theorem last_node (w : Work) (q : Str) (hw : w.WellFormed) (hN : 1 < w.URN.length) :
    ∃ node, lastPassage w q =
        some { requestURN := [q], Status := "Success".toList, Nodes := [node] } ∧
      node.URN = [w.URN.getD (w.URN.length - 1) []] ∧
      node.Text = [w.Text.getD (w.URN.length - 1) []] ∧
      node.Index = (w.URN.length : Int) ∧
      node.Previous = [w.URN.getD (w.URN.length - 2) []] ∧ node.Next = [] :=
  ⟨_, lastPassage_eq w q hw hN, rfl, rfl, rfl, rfl, rfl⟩

/-- Witness of C18: `last` over the example records answers with node 2.1, whose previous is
node 1.2. -/
theorem last_node_witness :
    exampleWork.WellFormed ∧ 1 < exampleWork.URN.length ∧
    (∃ node, lastPassage exampleWork exampleRequest =
        some { requestURN := [exampleRequest], Status := "Success".toList, Nodes := [node] } ∧
      node.URN = [exampleWork.URN.getD (exampleWork.URN.length - 1) []] ∧
      node.Text = [exampleWork.Text.getD (exampleWork.URN.length - 1) []] ∧
      node.Index = (exampleWork.URN.length : Int) ∧
      node.Previous = [exampleWork.URN.getD (exampleWork.URN.length - 2) []] ∧
      node.Next = []) ∧
    ReturnLast insertionOrder exampleLines exampleRequest =
      some { requestURN := [exampleRequest], Status := "Success".toList,
             Service := "/texts/last".toList,
             Nodes := [{ URN := ["urn:cts:ns:work:2.1".toList], Text := ["gamma".toList],
                         Previous := ["urn:cts:ns:work:1.2".toList], Index := 3 }] } :=
  ⟨⟨by decide, by decide⟩, by decide,
    last_node exampleWork exampleRequest ⟨by decide, by decide⟩ (by decide), by decide⟩

/-- C19 (amended): for every work whose first node carries the URN `q`, when no later node
carries the same URN, `previous` queried with `q` answers with status Success and an empty
node list. -/
theorem previous_of_first (w : Work) (q : Str) (hq : w.URN[0]? = some q)
    (hlast : ∀ j, 0 < j → w.URN[j]? ≠ some q) :
    prevPassage w q = some { requestURN := [q], Status := "Success".toList, Nodes := [] } := by
  obtain ⟨hc, hi⟩ := indexLoop_eq_of_last w q 0 hq hlast
  unfold prevPassage
  simp [hc, hi]

/-- Witness of C19 (amended): `previous` of the first node of the example records. -/
theorem previous_of_first_witness :
    exampleWork.URN[0]? = some "urn:cts:ns:work:1.1".toList ∧
    (∀ j, 0 < j → exampleWork.URN[j]? ≠ some "urn:cts:ns:work:1.1".toList) ∧
    prevPassage exampleWork "urn:cts:ns:work:1.1".toList =
      some { requestURN := ["urn:cts:ns:work:1.1".toList], Status := "Success".toList,
             Nodes := [] } ∧
    ReturnPrev insertionOrder exampleLines "urn:cts:ns:work:1.1".toList =
      some { requestURN := ["urn:cts:ns:work:1.1".toList], Status := "Success".toList,
             Service := "/texts/previous".toList, Nodes := [] } :=
  ⟨by decide, no_later_of_not_mem_drop _ _ 0 (by decide),
    previous_of_first exampleWork "urn:cts:ns:work:1.1".toList (by decide)
      (no_later_of_not_mem_drop _ _ 0 (by decide)),
    by decide⟩

/-- C19 fails as stated: in the work built from `repeatedLines` the first node carries the
URN `urn:cts:ns:work:1`, which the third node carries too; `ReturnPrev` queried with it
answers with the second node instead of an empty list. -/
theorem previous_of_first_counterexample :
    buildWork (ParseWork repeatedLines) exampleStem = some repeatedWork ∧
    repeatedWork.URN[0]? = some exampleRequest ∧
    ReturnPrev insertionOrder repeatedLines exampleRequest =
      some { requestURN := [exampleRequest], Status := "Success".toList,
             Service := "/texts/previous".toList,
             Nodes := [{ URN := ["urn:cts:ns:work:2".toList], Text := ["beta".toList],
                         Previous := [exampleRequest], Next := [exampleRequest],
                         Index := 2 }] } := by
  refine ⟨by decide, by decide, by decide⟩

/-- C20: for every non-empty work, `next` queried with the URN of the last node answers with
status Success and an empty node list. -/
theorem next_of_last (w : Work) (q : Str) (hN : 0 < w.URN.length)
    (hq : w.URN[w.URN.length - 1]? = some q) :
    nextPassage w q = some { requestURN := [q], Status := "Success".toList, Nodes := [] } := by
  have hlast : ∀ j, w.URN.length - 1 < j → w.URN[j]? ≠ some q := by
    intro j hj
    rw [List.getElem?_eq_none (by omega)]
    simp
  obtain ⟨hc, hi⟩ := indexLoop_eq_of_last w q (w.URN.length - 1) hq hlast
  have e1 : ((w.URN.length - 1 : Nat) : Int) = (w.URN.length : Int) - 1 := by omega
  unfold nextPassage
  simp [hc, hi, e1]

/-- Witness of C20: `next` of the last node of the example records, and of the last node of
`repeatedWork`, whose URN also occurs at the first position. -/
theorem next_of_last_witness :
    0 < exampleWork.URN.length ∧
    exampleWork.URN[exampleWork.URN.length - 1]? = some "urn:cts:ns:work:2.1".toList ∧
    nextPassage exampleWork "urn:cts:ns:work:2.1".toList =
      some { requestURN := ["urn:cts:ns:work:2.1".toList], Status := "Success".toList,
             Nodes := [] } ∧
    ReturnNext insertionOrder exampleLines "urn:cts:ns:work:2.1".toList =
      some { requestURN := ["urn:cts:ns:work:2.1".toList], Status := "Success".toList,
             Service := "/texts/next".toList, Nodes := [] } ∧
    nextPassage repeatedWork exampleRequest =
      some { requestURN := [exampleRequest], Status := "Success".toList, Nodes := [] } :=
  ⟨by decide, by decide,
    next_of_last exampleWork "urn:cts:ns:work:2.1".toList (by decide) (by decide),
    by decide,
    next_of_last repeatedWork exampleRequest (by decide) (by decide)⟩

/-! ## C21, C22: previous and next of an inner node -/

theorem lt_length_of_getElem? (l : List Str) (i : Nat) (u : Str) (h : l[i]? = some u) :
    i < l.length := by
  by_contra hc
  rw [List.getElem?_eq_none (by omega)] at h
  exact Option.noConfusion h

theorem getD_of_getElem? (l : List Str) (i : Nat) (u : Str) (h : l[i]? = some u) :
    l.getD i [] = u := by
  have := getElem?_getD l i (lt_length_of_getElem? l i u h)
  rw [h] at this
  exact (Option.some.inj this).symm

theorem prevPassage_eq (w : Work) (q : Str) (i : Nat) (hw : w.WellFormed) (hi : 0 < i)
    (hq : w.URN[i]? = some q) (hlast : ∀ j, i < j → w.URN[j]? ≠ some q) :
    prevPassage w q =
      some { requestURN := [q], Status := "Success".toList,
             Nodes := [{ URN := [w.URN.getD (i - 1) []], Text := [w.Text.getD (i - 1) []],
                         Previous := if i = 1 then [] else [w.URN.getD (i - 2) []],
                         Next := [q], Index := (i : Int) }] } := by
  obtain ⟨hc, hidx⟩ := indexLoop_eq_of_last w q i hq hlast
  have hlen := lt_length_of_getElem? w.URN i q hq
  have e1 : (i : Int) - 1 = ((i - 1 : Nat) : Int) := by omega
  have hu : goIdx w.URN ((i : Int) - 1) = some (w.URN.getD (i - 1) []) := by
    rw [e1, goIdx_natCast, getElem?_getD w.URN _ (by omega)]
  have ht : goIdx w.Text ((i : Int) - 1) = some (w.Text.getD (i - 1) []) := by
    rw [e1, goIdx_natCast, WellFormed_text w hw _ (by omega)]
  have hn : goIdx w.URN (i : Int) = some q := by rw [goIdx_natCast, hq]
  have hx : goIdx w.Index ((i : Int) - 1) = some (i : Int) := by
    rw [e1, goIdx_natCast, WellFormed_index w hw _ (by omega)]
    congr 1
    omega
  have h0 : ¬ ((i : Int) = 0) := by omega
  unfold prevPassage
  simp only [hc, hidx, if_true, h0, if_false]
  by_cases h1 : i = 1
  · have h1' : (i : Int) - 1 = 0 := by omega
    rw [if_pos h1', hu, ht, hn, hx, if_pos h1]
    rfl
  · have h1' : ¬ ((i : Int) - 1 = 0) := by omega
    have e2 : (i : Int) - 2 = ((i - 2 : Nat) : Int) := by omega
    have hp : goIdx w.URN ((i : Int) - 2) = some (w.URN.getD (i - 2) []) := by
      rw [e2, goIdx_natCast, getElem?_getD w.URN _ (by omega)]
    rw [if_neg h1', hu, ht, hn, hp, hx, if_neg h1]
    rfl

theorem nextPassage_eq (w : Work) (q : Str) (i : Nat) (hw : w.WellFormed)
    (hi : i + 1 < w.URN.length)
    (hq : w.URN[i]? = some q) (hlast : ∀ j, i < j → w.URN[j]? ≠ some q) :
    nextPassage w q =
      some { requestURN := [q], Status := "Success".toList,
             Nodes := [{ URN := [w.URN.getD (i + 1) []], Text := [w.Text.getD (i + 1) []],
                         Previous := [q],
                         Next := if i + 2 < w.URN.length then [w.URN.getD (i + 2) []] else [],
                         Index := (i : Int) + 2 }] } := by
  obtain ⟨hc, hidx⟩ := indexLoop_eq_of_last w q i hq hlast
  have e1 : (i : Int) + 1 = ((i + 1 : Nat) : Int) := by omega
  have hu : goIdx w.URN ((i : Int) + 1) = some (w.URN.getD (i + 1) []) := by
    rw [e1, goIdx_natCast, getElem?_getD w.URN _ (by omega)]
  have ht : goIdx w.Text ((i : Int) + 1) = some (w.Text.getD (i + 1) []) := by
    rw [e1, goIdx_natCast, WellFormed_text w hw _ (by omega)]
  have hp : goIdx w.URN (i : Int) = some q := by rw [goIdx_natCast, hq]
  have hx : goIdx w.Index ((i : Int) + 1) = some ((i : Int) + 2) := by
    rw [e1, goIdx_natCast, WellFormed_index w hw _ (by omega)]
    exact congrArg some (by omega)
  have h0 : ¬ ((i : Int) = (w.URN.length : Int) - 1) := by omega
  unfold nextPassage
  simp only [hc, hidx, if_true, h0, if_false]
  by_cases h1 : i + 2 < w.URN.length
  · have h1' : ¬ ((i : Int) + 1 = (w.URN.length : Int) - 1) := by omega
    have e2 : (i : Int) + 2 = ((i + 2 : Nat) : Int) := by omega
    have hn : goIdx w.URN ((i : Int) + 2) = some (w.URN.getD (i + 2) []) := by
      rw [e2, goIdx_natCast, getElem?_getD w.URN _ h1]
    rw [if_neg h1', hu, ht, hn, hp, hx, if_pos h1]
    rfl
  · have h1' : (i : Int) + 1 = (w.URN.length : Int) - 1 := by omega
    rw [if_pos h1', hu, ht, hp, hx, if_neg h1]
    rfl

/-- C21 (amended): for a work with one text per URN and `Index` enumerating from 1, and a
query `q` that is the URN of the node at 0-based index `i > 0` and of no later node,
`previous` answers with status Success and exactly one node: the node at index `i - 1`,
with its URN, its text and `Index` `i`; its next is the node at index `i` (the query
itself), and its previous is the node at index `i - 2` when `i ≥ 2` and absent when
`i = 1`. -/
theorem previous_node (w : Work) (q : Str) (i : Nat) (hw : w.WellFormed) (hi : 0 < i)
    (hq : w.URN[i]? = some q) (hlast : ∀ j, i < j → w.URN[j]? ≠ some q) :
    ∃ node, prevPassage w q =
        some { requestURN := [q], Status := "Success".toList, Nodes := [node] } ∧
      node.URN = [w.URN.getD (i - 1) []] ∧ node.Text = [w.Text.getD (i - 1) []] ∧
      node.Index = (i : Int) ∧ node.Next = [w.URN.getD i []] ∧
      node.Previous = if i = 1 then [] else [w.URN.getD (i - 2) []] :=
  ⟨_, prevPassage_eq w q i hw hi hq hlast, rfl, rfl, rfl,
    by rw [getD_of_getElem? w.URN i q hq], rfl⟩

/-- Witness of C21 (amended): `previous` of the fourth node of `fourLines` is the third node,
between the second and the fourth. -/
theorem previous_node_witness :
    fourWork.WellFormed ∧ 0 < 3 ∧ fourWork.URN[3]? = some "urn:cts:ns:work:2.2".toList ∧
    (∀ j, 3 < j → fourWork.URN[j]? ≠ some "urn:cts:ns:work:2.2".toList) ∧
    (∃ node, prevPassage fourWork "urn:cts:ns:work:2.2".toList =
        some { requestURN := ["urn:cts:ns:work:2.2".toList], Status := "Success".toList,
               Nodes := [node] } ∧
      node.URN = [fourWork.URN.getD (3 - 1) []] ∧ node.Text = [fourWork.Text.getD (3 - 1) []] ∧
      node.Index = ((3 : Nat) : Int) ∧ node.Next = [fourWork.URN.getD 3 []] ∧
      node.Previous = if 3 = 1 then [] else [fourWork.URN.getD (3 - 2) []]) ∧
    ReturnPrev insertionOrder fourLines "urn:cts:ns:work:1.2".toList =
      some { requestURN := ["urn:cts:ns:work:1.2".toList], Status := "Success".toList,
             Service := "/texts/previous".toList,
             Nodes := [{ URN := ["urn:cts:ns:work:1.1".toList], Text := ["alpha".toList],
                         Next := ["urn:cts:ns:work:1.2".toList], Index := 1 }] } :=
  ⟨⟨by decide, by decide⟩, by decide, by decide, no_later_of_not_mem_drop _ _ 3 (by decide),
    previous_node fourWork "urn:cts:ns:work:2.2".toList 3 ⟨by decide, by decide⟩ (by decide)
      (by decide) (no_later_of_not_mem_drop _ _ 3 (by decide)),
    by decide⟩

/-- C21 fails as stated, in two ways. In the work built from `fourLines`, `ReturnPrev` queried
with the URN of the node at index 3 answers with the node at index 2, whose previous is the
node at index 1 and whose next is the node at index 3, not the nodes at indices 0 and 2. In
the work built from `revisitedLines` the URN of the node at index 1 occurs again at index 3;
`ReturnPrev` queried with it answers with the node at index 2, not the node at index 0. -/
theorem previous_node_counterexample :
    buildWork (ParseWork fourLines) exampleStem = some fourWork ∧
    fourWork.URN =
      ["urn:cts:ns:work:1.1".toList, "urn:cts:ns:work:1.2".toList,
       "urn:cts:ns:work:2.1".toList, "urn:cts:ns:work:2.2".toList] ∧
    ReturnPrev insertionOrder fourLines "urn:cts:ns:work:2.2".toList =
      some { requestURN := ["urn:cts:ns:work:2.2".toList], Status := "Success".toList,
             Service := "/texts/previous".toList,
             Nodes := [{ URN := ["urn:cts:ns:work:2.1".toList], Text := ["gamma".toList],
                         Previous := ["urn:cts:ns:work:1.2".toList],
                         Next := ["urn:cts:ns:work:2.2".toList], Index := 3 }] } ∧
    buildWork (ParseWork revisitedLines) exampleStem = some revisitedWork ∧
    revisitedWork.URN =
      ["urn:cts:ns:work:1".toList, "urn:cts:ns:work:2".toList,
       "urn:cts:ns:work:3".toList, "urn:cts:ns:work:2".toList] ∧
    ReturnPrev insertionOrder revisitedLines "urn:cts:ns:work:2".toList =
      some { requestURN := ["urn:cts:ns:work:2".toList], Status := "Success".toList,
             Service := "/texts/previous".toList,
             Nodes := [{ URN := ["urn:cts:ns:work:3".toList], Text := ["gamma".toList],
                         Previous := ["urn:cts:ns:work:2".toList],
                         Next := ["urn:cts:ns:work:2".toList], Index := 3 }] } := by
  refine ⟨by decide, by decide, by decide, by decide, by decide, by decide⟩

/-- C22 (amended): for a work of `N` nodes with one text per URN and `Index` enumerating from
1, and a query `q` that is the URN of the node at 0-based index `i < N - 1` and of no later
node, `next` answers with status Success and exactly one node: the node at index `i + 1`,
with its URN, its text and `Index` `i + 2`; its previous is the node at index `i` (the query
itself), and its next is the node at index `i + 2` when `i + 2 ≤ N - 1` and absent when
`i + 1` is the last index. -/
theorem next_node (w : Work) (q : Str) (i : Nat) (hw : w.WellFormed)
    (hi : i + 1 < w.URN.length)
    (hq : w.URN[i]? = some q) (hlast : ∀ j, i < j → w.URN[j]? ≠ some q) :
    ∃ node, nextPassage w q =
        some { requestURN := [q], Status := "Success".toList, Nodes := [node] } ∧
      node.URN = [w.URN.getD (i + 1) []] ∧ node.Text = [w.Text.getD (i + 1) []] ∧
      node.Index = (i : Int) + 2 ∧ node.Previous = [w.URN.getD i []] ∧
      node.Next = if i + 2 < w.URN.length then [w.URN.getD (i + 2) []] else [] :=
  ⟨_, nextPassage_eq w q i hw hi hq hlast, rfl, rfl, rfl,
    by rw [getD_of_getElem? w.URN i q hq], rfl⟩

/-- Witness of C22 (amended): `next` of the second node of `fourLines` is the third node,
between the second and the fourth; `next` of the third node is the fourth, which has no
next. -/
theorem next_node_witness :
    fourWork.WellFormed ∧ 1 + 1 < fourWork.URN.length ∧
    fourWork.URN[1]? = some "urn:cts:ns:work:1.2".toList ∧
    (∀ j, 1 < j → fourWork.URN[j]? ≠ some "urn:cts:ns:work:1.2".toList) ∧
    (∃ node, nextPassage fourWork "urn:cts:ns:work:1.2".toList =
        some { requestURN := ["urn:cts:ns:work:1.2".toList], Status := "Success".toList,
               Nodes := [node] } ∧
      node.URN = [fourWork.URN.getD (1 + 1) []] ∧ node.Text = [fourWork.Text.getD (1 + 1) []] ∧
      node.Index = ((1 : Nat) : Int) + 2 ∧ node.Previous = [fourWork.URN.getD 1 []] ∧
      node.Next = if 1 + 2 < fourWork.URN.length then [fourWork.URN.getD (1 + 2) []] else []) ∧
    ReturnNext insertionOrder fourLines "urn:cts:ns:work:2.1".toList =
      some { requestURN := ["urn:cts:ns:work:2.1".toList], Status := "Success".toList,
             Service := "/texts/next".toList,
             Nodes := [{ URN := ["urn:cts:ns:work:2.2".toList], Text := ["delta".toList],
                         Previous := ["urn:cts:ns:work:2.1".toList], Index := 4 }] } :=
  ⟨⟨by decide, by decide⟩, by decide, by decide, no_later_of_not_mem_drop _ _ 1 (by decide),
    next_node fourWork "urn:cts:ns:work:1.2".toList 1 ⟨by decide, by decide⟩ (by decide)
      (by decide) (no_later_of_not_mem_drop _ _ 1 (by decide)),
    by decide⟩

/-- C22 fails as stated: in the work built from `repeatedLines` (three nodes) the URN of the
node at index 0 occurs again at index 2; `ReturnNext` queried with it answers with an empty
node list, not with the node at index 1. -/
theorem next_node_counterexample :
    buildWork (ParseWork repeatedLines) exampleStem = some repeatedWork ∧
    repeatedWork.URN[0]? = some exampleRequest ∧ 0 < repeatedWork.URN.length - 1 ∧
    ReturnNext insertionOrder repeatedLines exampleRequest =
      some { requestURN := [exampleRequest], Status := "Success".toList,
             Service := "/texts/next".toList, Nodes := [] } := by
  refine ⟨by decide, by decide, by decide, by decide⟩

/-! ## C23 to C26: the Exception responses -/

theorem prevPassage_not_mem (w : Work) (q : Str) (h : q ∉ w.URN) :
    prevPassage w q =
      some { requestURN := [q], Status := "Exception".toList,
             Message := "Could not find node to ".toList ++ q ++ " in source.".toList } := by
  have hc : contains w.URN q = false := by
    rw [← Bool.not_eq_true, contains_iff]
    exact h
  unfold prevPassage
  simp [hc]

theorem nextPassage_not_mem (w : Work) (q : Str) (h : q ∉ w.URN) :
    nextPassage w q =
      some { requestURN := [q], Status := "Exception".toList,
             Message := "Could not find node to ".toList ++ q ++ " in source.".toList } := by
  have hc : contains w.URN q = false := by
    rw [← Bool.not_eq_true, contains_iff]
    exact h
  unfold nextPassage
  simp [hc]

theorem success_ne_exception : "Success".toList ≠ "Exception".toList := by decide

theorem prevPassage_success (w : Work) (q : Str) (r : NodeResponse)
    (h : prevPassage w q = some r) (hs : r.Status = "Success".toList) : q ∈ w.URN := by
  by_contra hq
  rw [prevPassage_not_mem w q hq] at h
  rw [← Option.some.inj h] at hs
  exact success_ne_exception hs.symm

theorem nextPassage_success (w : Work) (q : Str) (r : NodeResponse)
    (h : nextPassage w q = some r) (hs : r.Status = "Success".toList) : q ∈ w.URN := by
  by_contra hq
  rw [nextPassage_not_mem w q hq] at h
  rw [← Option.some.inj h] at hs
  exact success_ne_exception hs.symm

theorem map_service_status (x : Option NodeResponse) (service : Str) (r : NodeResponse)
    (h : x.map (fun r => { r with Service := service }) = some r) :
    ∃ r', x = some r' ∧ r'.Status = r.Status ∧ r'.Nodes = r.Nodes := by
  cases x with
  | none => exact Option.noConfusion h
  | some r' =>
    refine ⟨r', rfl, ?_, ?_⟩
    · rw [← Option.some.inj h]
    · rw [← Option.some.inj h]

/-- C23: for a validated request that selects the stem at position `i` of the stem list, with
`w` the work built for that stem: when the request is the URN of no node of `w`, `ReturnPrev`
and `ReturnNext` both answer with status Exception and no nodes; and whenever one of them
answers with status Success, the request is the URN of a node of `w`. -/
theorem navigation_needs_exact (o : MapOrder) (lines : List (Str × Str))
    (q : Str) (cropped : List Str) (i : Nat) (S : Str) (w : Work)
    (hq : isCTSURN q = true) (hc : cropAll (ParseWork lines).URN = some cropped)
    (hsel : selectWork q (removeDuplicatesUnordered o cropped) = i + 1)
    (hS : (removeDuplicatesUnordered o cropped)[i]? = some S)
    (hb : buildWork (ParseWork lines) S = some w) :
    (q ∉ w.URN →
      ReturnPrev o lines q =
        some { requestURN := [q], Status := "Exception".toList,
               Message := "Could not find node to ".toList ++ q ++ " in source.".toList,
               Service := "/texts/previous".toList, Nodes := [] } ∧
      ReturnNext o lines q =
        some { requestURN := [q], Status := "Exception".toList,
               Message := "Could not find node to ".toList ++ q ++ " in source.".toList,
               Service := "/texts/next".toList, Nodes := [] }) ∧
    (∀ r, ReturnPrev o lines q = some r → r.Status = "Success".toList → q ∈ w.URN) ∧
    (∀ r, ReturnNext o lines q = some r → r.Status = "Success".toList → q ∈ w.URN) := by
  obtain ⟨w', hb', _, _, hprev, hnext⟩ := navigation_resolved o lines q cropped i S hq hc hsel hS
  obtain rfl : w' = w := Option.some.inj (hb'.symm.trans hb)
  refine ⟨?_, ?_, ?_⟩
  · intro hmem
    rw [hprev, hnext, prevPassage_not_mem w' q hmem, nextPassage_not_mem w' q hmem]
    exact ⟨rfl, rfl⟩
  · intro r h hs
    rw [hprev] at h
    obtain ⟨r', hr', hst, _⟩ := map_service_status _ _ r h
    exact prevPassage_success w' q r' hr' (hst.trans hs)
  · intro r h hs
    rw [hnext] at h
    obtain ⟨r', hr', hst, _⟩ := map_service_status _ _ r h
    exact nextPassage_success w' q r' hr' (hst.trans hs)

/-- Witness of C23: over the example records the request `urn:cts:ns:work:1` selects the work
`urn:cts:ns:work` but is the URN of none of its nodes (it is a hierarchical prefix of two of
them); `ReturnPrev` and `ReturnNext` answer with status Exception. -/
theorem navigation_needs_exact_witness :
    isCTSURN exampleRequest = true ∧
    cropAll (ParseWork exampleLines).URN =
      some [exampleStem, "urn:cts:ns:other".toList, exampleStem, exampleStem] ∧
    selectWork exampleRequest
        (removeDuplicatesUnordered insertionOrder
          [exampleStem, "urn:cts:ns:other".toList, exampleStem, exampleStem]) = 0 + 1 ∧
    (removeDuplicatesUnordered insertionOrder
        [exampleStem, "urn:cts:ns:other".toList, exampleStem, exampleStem])[0]? =
      some exampleStem ∧
    buildWork (ParseWork exampleLines) exampleStem = some exampleWork ∧
    exampleRequest ∉ exampleWork.URN ∧
    (ReturnPrev insertionOrder exampleLines exampleRequest =
        some { requestURN := [exampleRequest], Status := "Exception".toList,
               Message :=
                 "Could not find node to ".toList ++ exampleRequest ++ " in source.".toList,
               Service := "/texts/previous".toList, Nodes := [] } ∧
      ReturnNext insertionOrder exampleLines exampleRequest =
        some { requestURN := [exampleRequest], Status := "Exception".toList,
               Message :=
                 "Could not find node to ".toList ++ exampleRequest ++ " in source.".toList,
               Service := "/texts/next".toList, Nodes := [] }) :=
  ⟨by decide, by decide, by decide, by decide, by decide, by decide,
    (navigation_needs_exact insertionOrder exampleLines exampleRequest
      [exampleStem, "urn:cts:ns:other".toList, exampleStem, exampleStem] 0 exampleStem
      exampleWork (by decide) (by decide) (by decide) (by decide) (by decide)).1 (by decide)⟩

theorem exactPassage_status (w : Work) (q : Str) (idx : Int) (r : NodeResponse)
    (h : exactPassage w q idx = some r) : r.Status = "Success".toList := by
  unfold exactPassage at h
  split_ifs at h <;>
    simp only [Option.bind_eq_bind, Option.bind_eq_some, Option.pure_def, Option.some.injEq] at h <;>
    · obtain ⟨_, _, h⟩ := h
      rcases h with ⟨_, _, _, _, h⟩
      first
        | (obtain ⟨_, _, rfl⟩ := h; rfl)
        | (obtain ⟨_, _, _, _, rfl⟩ := h; rfl)

theorem levelPassage_status (rx : Regexp) (p : Str) (w : Work) (q : Str) (r : NodeResponse)
    (h : levelPassage rx p w q = some r) : r.Status = "Success".toList := by
  unfold levelPassage at h
  simp only [Option.bind_eq_bind, Option.bind_eq_some, Option.pure_def, Option.some.injEq] at h
  obtain ⟨_, _, rfl⟩ := h
  rfl

theorem rangePassage_status (rx : Regexp) (w : Work) (q : Str) (r : NodeResponse)
    (h : rangePassage rx w q = some r) : r.Status = "Success".toList := by
  unfold rangePassage at h
  simp only [Option.bind_eq_bind, Option.bind_eq_some, Option.pure_def, Option.some.injEq] at h
  obtain ⟨_, _, _, _, _, _, _, _, _, _, rfl⟩ := h
  rfl

theorem levelReff_status (rx : Regexp) (p : Str) (w : Work) (q : Str) (r : URNResponse)
    (h : levelReff rx p w q = some r) : r.Status = "Success".toList := by
  unfold levelReff at h
  simp only [Option.bind_eq_bind, Option.bind_eq_some, Option.pure_def, Option.some.injEq] at h
  obtain ⟨_, _, rfl⟩ := h
  rfl

theorem not_noMatch_cases (rx : Regexp) (w : Work) (q : Str) (h : ¬ NoMatch rx w q) :
    contains w.URN q = true ∨ level1contains rx w.URN q = true ∨
      level2contains rx w.URN q = true ∨ level3contains rx w.URN q = true ∨
      level4contains rx w.URN q = true := by
  by_contra hc
  apply h
  simp only [not_or, Bool.not_eq_true] at hc
  exact hc

theorem passage_noMatch (rx : Regexp) (w : Work) (q : Str) (hr : isRange q = false)
    (hn : NoMatch rx w q) :
    passage rx w q =
      some { requestURN := [q], Status := "Exception".toList,
             Message := "Could not find node to ".toList ++ q ++ " in source.".toList } := by
  obtain ⟨h0, h1, h2, h3, h4⟩ := hn
  unfold passage
  simp [h0, h1, h2, h3, h4, hr]

theorem reff_noMatch (rx : Regexp) (w : Work) (q : Str) (hr : isRange q = false)
    (hn : NoMatch rx w q) :
    reff rx w q =
      some { requestURN := [q], Status := "Exception".toList,
             Message := "Couldn't find URN.".toList, Service := "/texts/urns".toList } := by
  obtain ⟨h0, h1, h2, h3, h4⟩ := hn
  unfold reff
  simp [h0, h1, h2, h3, h4, hr]

theorem passage_exception (rx : Regexp) (w : Work) (q : Str) (r : NodeResponse)
    (h : passage rx w q = some r) (hs : r.Status = "Exception".toList) :
    isRange q = false ∧ NoMatch rx w q := by
  have hne : r.Status ≠ "Success".toList := by
    rw [hs]
    exact fun e => success_ne_exception e.symm
  unfold passage at h
  simp only at h
  split_ifs at h with h0 h1 h2 h3 h4 h5
  · exact absurd (exactPassage_status _ _ _ _ h) hne
  · exact absurd (levelPassage_status _ _ _ _ _ h) hne
  · exact absurd (levelPassage_status _ _ _ _ _ h) hne
  · exact absurd (levelPassage_status _ _ _ _ _ h) hne
  · exact absurd (levelPassage_status _ _ _ _ _ h) hne
  · exact absurd (rangePassage_status _ _ _ _ h) hne
  · simp only [Bool.not_eq_true] at h0 h1 h2 h3 h4 h5
    exact ⟨h5, h0, h1, h2, h3, h4⟩

theorem reff_exception (rx : Regexp) (w : Work) (q : Str) (r : URNResponse)
    (h : reff rx w q = some r) (hs : r.Status = "Exception".toList) :
    isRange q = false ∧ NoMatch rx w q := by
  have hne : r.Status ≠ "Success".toList := by
    rw [hs]
    exact fun e => success_ne_exception e.symm
  unfold reff at h
  split_ifs at h with h5 h0 h1 h2 h3 h4 <;>
    simp only [Option.bind_eq_bind, Option.bind_eq_some, Option.pure_def, Option.some.injEq] at h
  · obtain ⟨_, _, _, _, rfl⟩ := h
    exact absurd rfl hne
  · obtain ⟨r', hr', rfl⟩ := h
    exact absurd (by rw [← hr']) hne
  · obtain ⟨r', hr', rfl⟩ := h
    exact absurd (levelReff_status _ _ _ _ _ hr') hne
  · obtain ⟨r', hr', rfl⟩ := h
    exact absurd (levelReff_status _ _ _ _ _ hr') hne
  · obtain ⟨r', hr', rfl⟩ := h
    exact absurd (levelReff_status _ _ _ _ _ hr') hne
  · obtain ⟨r', hr', rfl⟩ := h
    exact absurd (levelReff_status _ _ _ _ _ hr') hne
  · simp only [Bool.not_eq_true] at h0 h1 h2 h3 h4 h5
    exact ⟨h5, h0, h1, h2, h3, h4⟩

/-- The handler `ReturnReff` and its last case: for a validated request that selects the stem
at position `i` of the stem list, the handler builds a well-formed work for that stem and
answers with the `URNResponse` that `reff` returns on it. -/
theorem ReturnReff_resolved (o : MapOrder) (rx : Regexp) (lines : List (Str × Str))
    (q : Str) (cropped : List Str) (i : Nat) (S : Str)
    (hq : isCTSURN q = true) (hc : cropAll (ParseWork lines).URN = some cropped)
    (hsel : selectWork q (removeDuplicatesUnordered o cropped) = i + 1)
    (hS : (removeDuplicatesUnordered o cropped)[i]? = some S) :
    ∃ w, buildWork (ParseWork lines) S = some w ∧ w.WellFormed ∧
      ReturnReff o rx lines q = (reff rx w q).map Sum.inr := by
  have hfields : ∀ l ∈ lines, 4 ≤ (Split l.1 ':').length := by
    intro l hl
    apply cropAll_fields _ cropped hc
    rw [ParseWork_URN]
    exact List.mem_map_of_mem _ hl
  have hb := buildWork_eq lines S hfields
  refine ⟨_, hb, buildWork_wellFormed lines S _ hfields hb, ?_⟩
  unfold ReturnReff
  simp only [hq, ne_eq, not_true_eq_false, if_false, hc, Option.bind_eq_bind, Option.some_bind,
    hsel, Nat.add_one_ne_zero, Nat.add_sub_cancel, hS, hb]
  cases reff rx _ q <;> rfl

/-- C24: for a validated request that selects the stem at position `i` of the stem list, with
`w` the work built for that stem: when the request is no range and matches no node of `w`
(not exactly and at none of the depths 1 to 4), `ReturnPassage` and `ReturnReff` both answer
with status Exception, without nodes and without URNs; and whenever one of them answers with
status Exception, the request is no range and matches no node of `w`. A validated request is
never answered by `ReturnReff` with a `NodeResponse`. -/
theorem no_matching_node (o : MapOrder) (rx : Regexp) (lines : List (Str × Str))
    (q : Str) (cropped : List Str) (i : Nat) (S : Str) (w : Work)
    (hq : isCTSURN q = true) (hc : cropAll (ParseWork lines).URN = some cropped)
    (hsel : selectWork q (removeDuplicatesUnordered o cropped) = i + 1)
    (hS : (removeDuplicatesUnordered o cropped)[i]? = some S)
    (hb : buildWork (ParseWork lines) S = some w) :
    (isRange q = false → NoMatch rx w q →
      ReturnPassage o rx lines q =
        some { requestURN := [q], Status := "Exception".toList,
               Message := "Could not find node to ".toList ++ q ++ " in source.".toList,
               Service := "/texts".toList, Nodes := [], URN := [] } ∧
      ReturnReff o rx lines q =
        some (Sum.inr { requestURN := [q], Status := "Exception".toList,
                        Message := "Couldn't find URN.".toList,
                        Service := "/texts/urns".toList, URN := [] })) ∧
    (∀ r, ReturnPassage o rx lines q = some r → r.Status = "Exception".toList →
      isRange q = false ∧ NoMatch rx w q) ∧
    (∀ r, ReturnReff o rx lines q = some (Sum.inr r) → r.Status = "Exception".toList →
      isRange q = false ∧ NoMatch rx w q) ∧
    (∀ r, ReturnReff o rx lines q ≠ some (Sum.inl r)) := by
  obtain ⟨w1, hb1, _, hpass⟩ := ReturnPassage_resolved o rx lines q cropped i S hq hc hsel hS
  obtain ⟨w2, hb2, _, hreff⟩ := ReturnReff_resolved o rx lines q cropped i S hq hc hsel hS
  obtain rfl : w1 = w := Option.some.inj (hb1.symm.trans hb)
  obtain rfl : w2 = w1 := Option.some.inj (hb2.symm.trans hb)
  refine ⟨?_, ?_, ?_, ?_⟩
  · intro hr hn
    rw [hpass, hreff, passage_noMatch rx w2 q hr hn, reff_noMatch rx w2 q hr hn]
    exact ⟨rfl, rfl⟩
  · intro r h hs
    rw [hpass] at h
    obtain ⟨r', hr', hst, _⟩ := map_service_status _ _ r h
    exact passage_exception rx w2 q r' hr' (hst.trans hs)
  · intro r h hs
    rw [hreff] at h
    cases hreff' : reff rx w2 q with
    | none => rw [hreff'] at h; exact Option.noConfusion h
    | some r' =>
      rw [hreff'] at h
      have : r' = r := Sum.inr.inj (Option.some.inj h)
      exact reff_exception rx w2 q r' hreff' (this ▸ hs)
  · intro r h
    rw [hreff] at h
    cases hreff' : reff rx w2 q with
    | none => rw [hreff'] at h; exact Option.noConfusion h
    | some r' =>
      rw [hreff'] at h
      exact Sum.noConfusion (Option.some.inj h)

/-- Witness of C24: over the example records the request `urn:cts:ns:work:9` selects the work
`urn:cts:ns:work`, is no range and matches none of its nodes; `ReturnPassage` and `ReturnReff`
answer with status Exception. -/
theorem no_matching_node_witness :
    isCTSURN unmatchedRequest = true ∧
    cropAll (ParseWork exampleLines).URN =
      some [exampleStem, "urn:cts:ns:other".toList, exampleStem, exampleStem] ∧
    selectWork unmatchedRequest
        (removeDuplicatesUnordered insertionOrder
          [exampleStem, "urn:cts:ns:other".toList, exampleStem, exampleStem]) = 0 + 1 ∧
    (removeDuplicatesUnordered insertionOrder
        [exampleStem, "urn:cts:ns:other".toList, exampleStem, exampleStem])[0]? =
      some exampleStem ∧
    buildWork (ParseWork exampleLines) exampleStem = some exampleWork ∧
    isRange unmatchedRequest = false ∧ NoMatch goRegexp exampleWork unmatchedRequest ∧
    (ReturnPassage insertionOrder goRegexp exampleLines unmatchedRequest =
        some { requestURN := [unmatchedRequest], Status := "Exception".toList,
               Message :=
                 "Could not find node to ".toList ++ unmatchedRequest ++ " in source.".toList,
               Service := "/texts".toList, Nodes := [], URN := [] } ∧
      ReturnReff insertionOrder goRegexp exampleLines unmatchedRequest =
        some (Sum.inr { requestURN := [unmatchedRequest], Status := "Exception".toList,
                        Message := "Couldn't find URN.".toList,
                        Service := "/texts/urns".toList, URN := [] })) :=
  ⟨by decide, by decide, by decide, by decide, by decide, by decide,
    ⟨by decide, by decide, by decide, by decide, by decide⟩,
    (no_matching_node insertionOrder goRegexp exampleLines unmatchedRequest
      [exampleStem, "urn:cts:ns:other".toList, exampleStem, exampleStem] 0 exampleStem
      exampleWork (by decide) (by decide) (by decide) (by decide) (by decide)).1 (by decide)
      ⟨by decide, by decide, by decide, by decide, by decide⟩⟩

/-- C25: for a request that `isCTSURN` rejects, each of the six handlers answers with status
Exception, the message that the request is not valid CTS, and neither nodes nor URNs. The
answers are the same for every corpus (and every map order and regular-expression engine):
nothing is parsed or resolved. -/
theorem invalid_urn_exception (o : MapOrder) (rx : Regexp) (lines : List (Str × Str)) (q : Str)
    (hq : isCTSURN q = false) :
    ReturnFirst o lines q =
      { requestURN := [q], Status := "Exception".toList,
        Message := q ++ " is not valid CTS.".toList, Service := "/texts/first".toList,
        Nodes := [], URN := [] } ∧
    ReturnLast o lines q =
      some { requestURN := [q], Status := "Exception".toList,
             Message := q ++ " is not valid CTS.".toList, Service := "/texts/last".toList,
             Nodes := [], URN := [] } ∧
    ReturnPrev o lines q =
      some { requestURN := [q], Status := "Exception".toList,
             Message := q ++ " is not valid CTS.".toList, Service := "/texts/previous".toList,
             Nodes := [], URN := [] } ∧
    ReturnNext o lines q =
      some { requestURN := [q], Status := "Exception".toList,
             Message := q ++ " is not valid CTS.".toList, Service := "/texts/next".toList,
             Nodes := [], URN := [] } ∧
    ReturnPassage o rx lines q =
      some { requestURN := [q], Status := "Exception".toList,
             Message := q ++ " is not valid CTS.".toList, Service := "/texts".toList,
             Nodes := [], URN := [] } ∧
    ReturnReff o rx lines q =
      some (Sum.inl { requestURN := [q], Status := "Exception".toList,
                      Message := q ++ " is not valid CTS.".toList,
                      Service := "/texts/urns".toList, Nodes := [], URN := [] }) := by
  refine ⟨?_, ?_, ?_, ?_, ?_, ?_⟩
  · unfold ReturnFirst
    simp [hq]
  · unfold ReturnLast
    simp [hq]
  · unfold ReturnPrev
    simp [hq]
  · unfold ReturnNext
    simp [hq]
  · unfold ReturnPassage
    simp [hq]
  · unfold ReturnReff
    simp [hq]

/-- Witness of C25: the request `foo:bar` over the example records. -/
theorem invalid_urn_exception_witness :
    isCTSURN invalidRequest = false ∧
    ReturnFirst insertionOrder exampleLines invalidRequest =
      { requestURN := [invalidRequest], Status := "Exception".toList,
        Message := "foo:bar is not valid CTS.".toList, Service := "/texts/first".toList } ∧
    ReturnReff insertionOrder goRegexp exampleLines invalidRequest =
      some (Sum.inl { requestURN := [invalidRequest], Status := "Exception".toList,
                      Message := "foo:bar is not valid CTS.".toList,
                      Service := "/texts/urns".toList }) ∧
    ReturnPassage insertionOrder goRegexp shortLines invalidRequest =
      some { requestURN := [invalidRequest], Status := "Exception".toList,
             Message := "foo:bar is not valid CTS.".toList, Service := "/texts".toList } :=
  ⟨by decide,
    (invalid_urn_exception insertionOrder goRegexp exampleLines invalidRequest (by decide)).1,
    (invalid_urn_exception insertionOrder goRegexp exampleLines invalidRequest
      (by decide)).2.2.2.2.2,
    by decide⟩

theorem cropToStem_of_startsWith (q X : Str) (hX : (Split X ':').length = 4)
    (h : q = X ∨ (X ++ ":".toList) <+: q) : cropToStem q = some X := by
  have hsp : ∃ rest, Split q ':' = Split X ':' ++ rest := by
    rcases h with h | ⟨b, hb⟩
    · exact ⟨[], by rw [h, List.append_nil]⟩
    · refine ⟨Split b ':', ?_⟩
      rw [← hb]
      have : (X ++ ":".toList) ++ b = X ++ ':' :: b := by simp
      rw [this, Split_append_sep]
  obtain ⟨rest, hrest⟩ := hsp
  have hc : (0 : Int) ≤ 0 ∧ (0 : Int) ≤ 4 ∧ (4 : Int) ≤ ((Split q ':').length : Int) := by
    rw [hrest, List.length_append, hX]
    omega
  unfold cropToStem goSlice
  rw [if_pos hc, hrest]
  have ht : List.take 4 (Split X ':' ++ rest) = Split X ':' := by
    rw [List.take_append_of_le_length (by omega), List.take_of_length_le (by omega)]
  simp only [Option.map_some', Int.toNat_zero, List.drop_zero, sub_zero]
  rw [show (4 : Int).toNat = 4 from rfl, ht]
  exact congrArg some (Join_Split X ':')

theorem cropAll_isSome (urns : List Str) (h : ∀ u ∈ urns, 4 ≤ (Split u ':').length) :
    ∃ cropped, cropAll urns = some cropped := by
  induction urns with
  | nil => exact ⟨[], rfl⟩
  | cons u us ih =>
    obtain ⟨rest, hrest⟩ := ih (fun v hv => h v (List.mem_cons_of_mem _ hv))
    have hu : (cropToStem u).isSome = true :=
      (cropToStem_isSome u).mpr (h u (List.mem_cons_self _ _))
    obtain ⟨S, hS⟩ := Option.isSome_iff_exists.mp hu
    exact ⟨S :: rest, by simp [cropAll, hS, hrest]⟩

/-- When the stem of a validated request is the stem of no record (the records beginning with
"urn:cts:"), no stem passes the selection loop: `workindex` stays 0. -/
theorem selectWork_absent (o : MapOrder) (lines : List (Str × Str)) (cropped : List Str)
    (q : Str) (hq : isCTSURN q = true)
    (hwf : ∀ l ∈ lines, "urn:cts:".toList <+: l.1)
    (hc : cropAll (ParseWork lines).URN = some cropped)
    (hstem : ∀ l ∈ lines, cropToStem l.1 ≠ cropToStem q) :
    selectWork q (removeDuplicatesUnordered o cropped) = 0 := by
  apply (selectWork_last_qualifying q _).1
  intro X hX hqual
  have hXs : UrnStem X := works_urnStem o lines cropped hwf hc X hX
  have hXq : cropToStem q = some X :=
    cropToStem_of_startsWith q X hXs.1 (prefix_of_qualifies q X hq hXs hqual)
  have hXc : X ∈ cropped := (mem_removeDuplicatesUnordered o cropped X).mp hX
  obtain ⟨u, hu, huX⟩ := cropAll_mem _ cropped hc X hXc
  rw [ParseWork_URN] at hu
  obtain ⟨l, hl, rfl⟩ := List.mem_map.mp hu
  exact hstem l hl (huX.trans hXq.symm)

/-- C26 (amended): for every corpus whose record URNs all begin with "urn:cts:" and have at
least four fields, and every request accepted by `isCTSURN` whose stem (its first four fields
joined by ':') is the stem of no record, each of the six handlers answers with status
Exception, the message "No results for " followed by the request, and neither nodes nor
URNs. -/
theorem no_matching_work (o : MapOrder) (rx : Regexp) (lines : List (Str × Str)) (q : Str)
    (hq : isCTSURN q = true)
    (hwf : ∀ l ∈ lines, "urn:cts:".toList <+: l.1)
    (h4 : ∀ l ∈ lines, 4 ≤ (Split l.1 ':').length)
    (hstem : ∀ l ∈ lines, cropToStem l.1 ≠ cropToStem q) :
    ReturnPassage o rx lines q =
      some { requestURN := [q], Status := "Exception".toList,
             Message := "No results for ".toList ++ q, Service := "/texts".toList,
             Nodes := [], URN := [] } ∧
    ReturnFirst o lines q =
      { requestURN := [q], Status := "Exception".toList,
        Message := "No results for ".toList ++ q, Service := "/texts/first".toList,
        Nodes := [], URN := [] } ∧
    ReturnLast o lines q =
      some { requestURN := [q], Status := "Exception".toList,
             Message := "No results for ".toList ++ q, Service := "/texts/last".toList,
             Nodes := [], URN := [] } ∧
    ReturnPrev o lines q =
      some { requestURN := [q], Status := "Exception".toList,
             Message := "No results for ".toList ++ q, Service := "/texts/previous".toList,
             Nodes := [], URN := [] } ∧
    ReturnNext o lines q =
      some { requestURN := [q], Status := "Exception".toList,
             Message := "No results for ".toList ++ q, Service := "/texts/next".toList,
             Nodes := [], URN := [] } ∧
    ReturnReff o rx lines q =
      some (Sum.inr { requestURN := [q], Status := "Exception".toList,
                      Message := "No results for ".toList ++ q,
                      Service := "/texts/urns".toList, URN := [] }) := by
  obtain ⟨cropped, hc⟩ := cropAll_isSome (ParseWork lines).URN (by
    intro u hu
    rw [ParseWork_URN] at hu
    obtain ⟨l, hl, rfl⟩ := List.mem_map.mp hu
    exact h4 l hl)
  have hsel := selectWork_absent o lines cropped q hq hwf hc hstem
  refine ⟨?_, ?_, ?_, ?_, ?_, ?_⟩
  · unfold ReturnPassage
    simp only [hq, ne_eq, not_true_eq_false, if_false, hc, Option.bind_eq_bind,
      Option.some_bind, hsel, if_true]
    rfl
  · unfold ReturnFirst
    simp only [hq, ne_eq, not_true_eq_false, if_false, hc, Option.bind_eq_bind,
      Option.some_bind, hsel, if_true]
    rfl
  · unfold ReturnLast
    simp only [hq, ne_eq, not_true_eq_false, if_false, hc, Option.bind_eq_bind,
      Option.some_bind, hsel, if_true]
    rfl
  · unfold ReturnPrev
    simp only [hq, ne_eq, not_true_eq_false, if_false, hc, Option.bind_eq_bind,
      Option.some_bind, hsel, if_true]
    rfl
  · unfold ReturnNext
    simp only [hq, ne_eq, not_true_eq_false, if_false, hc, Option.bind_eq_bind,
      Option.some_bind, hsel, if_true]
    rfl
  · unfold ReturnReff
    simp only [hq, ne_eq, not_true_eq_false, if_false, hc, Option.bind_eq_bind,
      Option.some_bind, hsel, if_true]
    rfl

/-- Witness of C26 (amended): the request `urn:cts:ns:missing:1` over the example records,
none of which has the stem `urn:cts:ns:missing`. -/
theorem no_matching_work_witness :
    isCTSURN absentRequest = true ∧
    (∀ l ∈ exampleLines, "urn:cts:".toList <+: l.1) ∧
    (∀ l ∈ exampleLines, 4 ≤ (Split l.1 ':').length) ∧
    (∀ l ∈ exampleLines, cropToStem l.1 ≠ cropToStem absentRequest) ∧
    ReturnPassage insertionOrder goRegexp exampleLines absentRequest =
      some { requestURN := [absentRequest], Status := "Exception".toList,
             Message := "No results for urn:cts:ns:missing:1".toList,
             Service := "/texts".toList } ∧
    ReturnReff insertionOrder goRegexp exampleLines absentRequest =
      some (Sum.inr { requestURN := [absentRequest], Status := "Exception".toList,
                      Message := "No results for urn:cts:ns:missing:1".toList,
                      Service := "/texts/urns".toList }) :=
  ⟨by decide, by decide, by decide, by decide,
    (no_matching_work insertionOrder goRegexp exampleLines absentRequest (by decide) (by decide)
      (by decide) (by decide)).1,
    (no_matching_work insertionOrder goRegexp exampleLines absentRequest (by decide) (by decide)
      (by decide) (by decide)).2.2.2.2.2⟩

/-- C26 fails as stated, in two ways. The records of `headlessPair` have the stem
`:cts:ns:work`; the stem `urn:cts:ns:work` of the request `urn:cts:ns:work:1` is the stem of
no record, yet the loop selects `:cts:ns:work` because the request contains it followed by
':'. `ReturnPassage` then answers that it could not find the node, and `ReturnFirst` answers
with status Success and the first node. The record of `shortLines` has three fields: the
handlers panic while cropping it; `ReturnPassage` writes no response. -/
theorem no_matching_work_counterexample :
    isCTSURN exampleRequest = true ∧
    (∀ l ∈ headlessPair, cropToStem l.1 ≠ cropToStem exampleRequest) ∧
    ReturnPassage insertionOrder goRegexp headlessPair exampleRequest =
      some { requestURN := [exampleRequest], Status := "Exception".toList,
             Message := "Could not find node to urn:cts:ns:work:1 in source.".toList,
             Service := "/texts".toList } ∧
    ReturnFirst insertionOrder headlessPair exampleRequest =
      { requestURN := [exampleRequest], Status := "Success".toList,
        Service := "/texts/first".toList,
        Nodes := [{ URN := [":cts:ns:work:1".toList], Text := ["alpha".toList],
                    Next := [":cts:ns:work:2".toList], Index := 1 }] } ∧
    (∀ l ∈ shortLines, cropToStem l.1 ≠ cropToStem exampleRequest) ∧
    ReturnPassage insertionOrder goRegexp shortLines exampleRequest = none := by
  refine ⟨by decide, by decide, by decide, by decide, by decide, by decide⟩

/-! ## C27: repeated URNs in the built work -/

/-- C27 (amended): the work built for a stem holds the URNs of all records of that stem, in
their order and with their repetitions; so no two nodes of the built work have the same URN
if and only if no two records of that stem have the same URN. -/
theorem buildWork_nodup_iff (lines : List (Str × Str)) (stem : Str)
    (h : ∀ l ∈ lines, 4 ≤ (Split l.1 ':').length) :
    ∃ w, buildWork (ParseWork lines) stem = some w ∧
      w.URN = (keptLines lines stem).map Prod.fst ∧
      (w.URN.Nodup ↔ ((keptLines lines stem).map Prod.fst).Nodup) :=
  ⟨_, buildWork_eq lines stem h, rfl, Iff.rfl⟩

/-- Witness of C27 (amended): the example records of the stem `urn:cts:ns:work` have three
different URNs, and so has the work built from them. -/
theorem buildWork_nodup_iff_witness :
    (∀ l ∈ exampleLines, 4 ≤ (Split l.1 ':').length) ∧
    (∃ w, buildWork (ParseWork exampleLines) exampleStem = some w ∧
      w.URN = (keptLines exampleLines exampleStem).map Prod.fst ∧
      (w.URN.Nodup ↔ ((keptLines exampleLines exampleStem).map Prod.fst).Nodup)) ∧
    buildWork (ParseWork exampleLines) exampleStem = some exampleWork ∧
    exampleWork.URN.Nodup :=
  ⟨by decide, buildWork_nodup_iff exampleLines exampleStem (by decide), by decide, by decide⟩

/-- C27 fails as stated: the work built from `repeatedLines` keeps both records with the URN
`urn:cts:ns:work:1`, as its first and its third node. -/
theorem buildWork_duplicates :
    buildWork (ParseWork repeatedLines) exampleStem = some repeatedWork ∧
    repeatedWork.URN[0]? = some exampleRequest ∧ repeatedWork.URN[2]? = some exampleRequest ∧
    ¬ repeatedWork.URN.Nodup := by
  refine ⟨by decide, by decide, by decide, by decide⟩

/-! ## C28 to C30: the catalog and the list of works -/

theorem eight_fields (line : List Str) (h : line.length = 8) :
    ∃ a b c d e f g k, line = [a, b, c, d, e, f, g, k] := by
  rcases line with _ | ⟨a, _ | ⟨b, _ | ⟨c, _ | ⟨d, _ | ⟨e, _ | ⟨f, _ | ⟨g, _ | ⟨k, _ | ⟨x, t⟩⟩⟩⟩⟩⟩⟩⟩⟩
  all_goals first
    | exact ⟨_, _, _, _, _, _, _, _, rfl⟩
    | (simp at h)

theorem catalogLoop_short (line : List Str) (rest : List (List Str)) (acc : Catalog)
    (h : line.length ≠ 8) : catalogLoop (line :: rest) acc = none := by
  unfold catalogLoop
  rw [if_pos h]

theorem catalogLoop_cons (a b c d e f g k : Str) (rest : List (List Str)) (acc : Catalog) :
    catalogLoop ([a, b, c, d, e, f, g, k] :: rest) acc =
      if isCTSURN a = true then
        catalogLoop rest
          { acc with
            CatalogEntries := acc.CatalogEntries ++
              [{ URN := a, CitationScheme := b, GroupName := c, WorkTitle := d,
                 VersionLabel := e, ExemplarLabel := f, Online := g, Lang := k }] }
      else catalogLoop rest acc := by
  rw [catalogLoop]
  simp [goIdx]

theorem catalogLoop_eq (lines : List (List Str)) :
    ∀ acc : Catalog, (∀ l ∈ lines, l.length = 8) →
      ∃ cat, catalogLoop lines acc = some cat ∧
        cat.CatalogEntries.map CatalogEntry.fields =
          acc.CatalogEntries.map CatalogEntry.fields ++
            lines.filter (fun l => isCTSURN (recordURN l)) := by
  induction lines with
  | nil => intro acc _; exact ⟨acc, rfl, by simp⟩
  | cons line rest ih =>
    intro acc h
    obtain ⟨a, b, c, d, e, f, g, k, rfl⟩ := eight_fields line (h line (List.mem_cons_self _ _))
    have hrest : ∀ l ∈ rest, l.length = 8 := fun l hl => h l (List.mem_cons_of_mem _ hl)
    rw [catalogLoop_cons]
    by_cases hv : isCTSURN a = true
    · rw [if_pos hv]
      obtain ⟨cat, hcat, hf⟩ := ih _ hrest
      refine ⟨cat, hcat, ?_⟩
      rw [hf, List.filter_cons_of_pos (by simpa [recordURN] using hv)]
      simp [CatalogEntry.fields]
    · rw [if_neg hv]
      obtain ⟨cat, hcat, hf⟩ := ih acc hrest
      refine ⟨cat, hcat, ?_⟩
      rw [hf, List.filter_cons_of_neg (by simpa [recordURN] using hv)]

theorem catalogLoop_valid (lines : List (List Str)) :
    ∀ acc cat : Catalog, (∀ e ∈ acc.CatalogEntries, isCTSURN e.URN = true) →
      catalogLoop lines acc = some cat → ∀ e ∈ cat.CatalogEntries, isCTSURN e.URN = true := by
  induction lines with
  | nil =>
    intro acc cat hacc h
    rw [catalogLoop] at h
    rw [← Option.some.inj h]
    exact hacc
  | cons line rest ih =>
    intro acc cat hacc h
    by_cases h8 : line.length = 8
    · obtain ⟨a, b, c, d, e, f, g, k, rfl⟩ := eight_fields line h8
      rw [catalogLoop_cons] at h
      by_cases hv : isCTSURN a = true
      · rw [if_pos hv] at h
        refine ih _ cat ?_ h
        intro e' he'
        rcases List.mem_append.mp he' with he' | he'
        · exact hacc e' he'
        · rw [List.mem_singleton.mp he']
          exact hv
      · rw [if_neg hv] at h
        exact ih acc cat hacc h
    · rw [catalogLoop_short line rest acc h8] at h
      exact Option.noConfusion h

theorem ParseCatalog_valid (lines : List (List Str)) (cat : Catalog)
    (h : ParseCatalog lines = some cat) : ∀ e ∈ cat.CatalogEntries, isCTSURN e.URN = true :=
  catalogLoop_valid lines {} cat (by intro e he; cases he) h

/-- C28 (amended): for every list of catalog records of eight fields each, `ParseCatalog`
returns a catalog, and its entries, read back as records, are exactly the records whose URN
field `isCTSURN` accepts, in their original order and with all eight fields unchanged; a
record with an invalid URN is left out and raises no error. -/
theorem ParseCatalog_filter (lines : List (List Str)) (h8 : ∀ l ∈ lines, l.length = 8) :
    ∃ cat, ParseCatalog lines = some cat ∧
      cat.CatalogEntries.map CatalogEntry.fields =
        lines.filter (fun l => isCTSURN (recordURN l)) := by
  obtain ⟨cat, hcat, hf⟩ := catalogLoop_eq lines {} h8
  exact ⟨cat, hcat, by simpa using hf⟩

/-- Witness of C28 (amended): of the five records of `catalogLines` the header line and the
record with a three-field URN are left out; the three others are kept in order. -/
theorem ParseCatalog_filter_witness :
    (∀ l ∈ catalogLines, l.length = 8) ∧
    (∃ cat, ParseCatalog catalogLines = some cat ∧
      cat.CatalogEntries.map CatalogEntry.fields =
        catalogLines.filter (fun l => isCTSURN (recordURN l))) ∧
    (ParseCatalog catalogLines).map (fun cat => cat.CatalogEntries.map (fun e => e.URN)) =
      some ["urn:cts:ns:work:".toList, "urn:cts:ns:other:".toList, "urn:cts:ns:work:".toList] :=
  ⟨by decide, ParseCatalog_filter catalogLines (by decide), by decide⟩

/-- C28 fails as stated for records of another length: the only record of `sevenFieldLines`
has seven fields (no language) and a URN that `isCTSURN` accepts; the reader, configured for
eight fields, reports an error on it and `ParseCatalog` panics instead of building a catalog;
`ReturnCatalog` recovers and answers with status Exception. -/
theorem ParseCatalog_counterexample :
    (∀ l ∈ sevenFieldLines, isCTSURN (recordURN l) = true) ∧
    ParseCatalog sevenFieldLines = none ∧
    ReturnCatalog insertionOrder sevenFieldLines [] = Sum.inl (recoveredCatalog []) ∧
    (recoveredCatalog []).Status = "Exception".toList := by
  refine ⟨by decide, by decide, by decide, by decide⟩

theorem five_fields (fs : List Str) (h : fs.length = 5) (h4 : fs[4]? = some []) :
    ∃ a b c d, fs = [a, b, c, d, []] := by
  rcases fs with _ | ⟨a, _ | ⟨b, _ | ⟨c, _ | ⟨d, _ | ⟨e, _ | ⟨x, t⟩⟩⟩⟩⟩⟩
  all_goals first
    | (simp at h4; subst h4; exact ⟨_, _, _, _, rfl⟩)
    | (simp at h)

/-- A URN of five fields of which the last is empty is its own stem followed by ":". -/
theorem stem_colon_eq (u S : Str) (hS : cropToStem u = some S)
    (h5 : (Split u ':').length = 5) (hlast : (Split u ':')[4]? = some []) :
    S ++ ":".toList = u := by
  obtain ⟨a, b, c, d, hsplit⟩ := five_fields _ h5 hlast
  obtain ⟨_, hS'⟩ := cropToStem_some u S hS
  have hu := Join_Split u ':'
  rw [hsplit] at hu hS'
  rw [hS', ← hu]
  simp [Join]

theorem catalog_member (o : MapOrder) (lines : List (List Str)) (cat : Catalog) (q : Str)
    (hcat : ParseCatalog lines = some cat) (hq : q ∈ catalogURNs cat.CatalogEntries)
    (h4 : (Split q ':')[4]? = some []) :
    ReturnCatalog o lines q =
      Sum.inr { Status := "Success".toList, Message := q ++ " is in the CTS Catalog.".toList,
                Service := "/catalog".toList, URN := [] } := by
  have hv : isCTSURN q = true := by
    obtain ⟨e, he, rfl⟩ := List.mem_map.mp hq
    exact ParseCatalog_valid lines cat hcat e he
  have hlen : (Split q ':').length = 5 := by
    rcases ((isCTSURN_true_iff q).mp hv).1 with h | h
    · rw [List.getElem?_eq_none (by omega)] at h4
      exact Option.noConfusion h4
    · exact h
  have hne : q ≠ [] := by
    rintro rfl
    simp [Split] at hlen
  obtain ⟨S, hS⟩ := Option.isSome_iff_exists.mp ((cropToStem_isSome q).mpr (by omega))
  have hSq := stem_colon_eq q S hS hlen h4
  have hc : contains (removeDuplicatesUnordered o (catalogURNs cat.CatalogEntries)) q = true :=
    (contains_iff _ q).mpr ((mem_removeDuplicatesUnordered o _ q).mpr hq)
  unfold ReturnCatalog
  simp only [hne, ne_eq, not_false_eq_true, if_true, hS, hSq, hv, not_true_eq_false, if_false,
    hcat, hc]

/-- C29 (amended): for every built catalog and every entry of it whose URN consists of four
fields followed by a final ':' (its fifth field is empty), the membership query made with the
URN of the entry answers with status Success: the URN is in the catalog. -/
theorem catalog_membership_reflexive (o : MapOrder) (lines : List (List Str)) (cat : Catalog)
    (e : CatalogEntry) (hcat : ParseCatalog lines = some cat) (he : e ∈ cat.CatalogEntries)
    (h4 : (Split e.URN ':')[4]? = some []) :
    ReturnCatalog o lines e.URN =
      Sum.inr { Status := "Success".toList,
                Message := e.URN ++ " is in the CTS Catalog.".toList,
                Service := "/catalog".toList, URN := [] } :=
  catalog_member o lines cat e.URN hcat (List.mem_map_of_mem _ he) h4

/-- Witness of C29 (amended): the first entry of the catalog built from `catalogLines` has the
URN `urn:cts:ns:work:`; the membership query made with it answers with status Success. -/
theorem catalog_membership_reflexive_witness :
    ParseCatalog catalogLines = some exampleCatalog ∧
    workEntry ∈ exampleCatalog.CatalogEntries ∧
    (Split workEntry.URN ':')[4]? = some [] ∧
    ReturnCatalog insertionOrder catalogLines workEntry.URN =
      Sum.inr { Status := "Success".toList,
                Message := "urn:cts:ns:work: is in the CTS Catalog.".toList,
                Service := "/catalog".toList } :=
  ⟨by decide, by decide, by decide,
    catalog_membership_reflexive insertionOrder catalogLines exampleCatalog workEntry
      (by decide) (by decide) (by decide)⟩

/-- C29 fails as stated: the catalog built from `bareCatalogLines` has the single entry
`bareEntry`, whose URN `urn:cts:ns:work` has four fields and no final ':'. The membership
query made with that URN looks for `urn:cts:ns:work:` and answers with status Exception:
not in the catalog. -/
theorem catalog_membership_counterexample :
    ParseCatalog bareCatalogLines = some { CatalogEntries := [bareEntry] } ∧
    ReturnCatalog insertionOrder bareCatalogLines bareEntry.URN =
      Sum.inr { Status := "Exception".toList,
                Message :=
                  "urn:cts:ns:work: is not in the CTS Catalog. Printing URNs in catalog".toList,
                URN := ["urn:cts:ns:work".toList], Service := "/catalog".toList } := by
  refine ⟨by decide, by decide⟩

theorem cropAll_mem_iff (urns : List Str) :
    ∀ cropped, cropAll urns = some cropped →
      ∀ S, S ∈ cropped ↔ ∃ u ∈ urns, cropToStem u = some S := by
  induction urns with
  | nil =>
    intro cropped h S
    rw [cropAll] at h
    rw [← Option.some.inj h]
    simp
  | cons u us ih =>
    intro cropped h S
    rw [cropAll] at h
    simp only [Option.bind_eq_bind, Option.bind_eq_some, Option.pure_def, Option.some.injEq] at h
    obtain ⟨T, hT, rest, hrest, rfl⟩ := h
    rw [List.mem_cons, ih rest hrest S]
    constructor
    · rintro (rfl | ⟨v, hv, hvS⟩)
      · exact ⟨u, List.mem_cons_self _ _, hT⟩
      · exact ⟨v, List.mem_cons_of_mem _ hv, hvS⟩
    · rintro ⟨v, hv, hvS⟩
      rcases List.mem_cons.mp hv with rfl | hv
      · exact Or.inl (Option.some.inj (hvS.symm.trans hT))
      · exact Or.inr ⟨v, hv, hvS⟩

theorem stemColonAll_mem (urns : List Str) (h4 : ∀ u ∈ urns, 4 ≤ (Split u ':').length) :
    ∃ r, stemColonAll urns = some r ∧
      ∀ x, x ∈ r ↔ ∃ u ∈ urns, ∃ S, cropToStem u = some S ∧ x = S ++ ":".toList := by
  induction urns with
  | nil => exact ⟨[], rfl, by simp⟩
  | cons u us ih =>
    obtain ⟨rest, hrest, hmem⟩ := ih (fun v hv => h4 v (List.mem_cons_of_mem _ hv))
    obtain ⟨T, hT⟩ := Option.isSome_iff_exists.mp
      ((cropToStem_isSome u).mpr (h4 u (List.mem_cons_self _ _)))
    refine ⟨(T ++ ":".toList) :: rest, by simp [stemColonAll, hT, hrest], ?_⟩
    intro x
    rw [List.mem_cons, hmem x]
    constructor
    · rintro (rfl | ⟨v, hv, S, hvS, hx⟩)
      · exact ⟨u, List.mem_cons_self _ _, T, hT, rfl⟩
      · exact ⟨v, List.mem_cons_of_mem _ hv, S, hvS, hx⟩
    · rintro ⟨v, hv, S, hvS, hx⟩
      rcases List.mem_cons.mp hv with rfl | hv
      · left
        rw [hx, Option.some.inj (hvS.symm.trans hT)]
      · exact Or.inr ⟨v, hv, S, hvS, hx⟩

theorem ParseURNS_foldl (lines : List (Str × Str)) (acc : URNResponse) :
    (lines.foldl
        (fun urnResponse line => { urnResponse with URN := urnResponse.URN ++ [line.1] })
        acc).URN = acc.URN ++ lines.map Prod.fst := by
  induction lines generalizing acc with
  | nil => simp
  | cons l ls ih => rw [List.foldl_cons, ih]; simp

theorem ParseURNSFromCTSdata_URN (lines : List (Str × Str)) :
    (ParseURNSFromCTSdata lines).URN = lines.map Prod.fst := by
  unfold ParseURNSFromCTSdata
  simp only
  rw [ParseURNS_foldl]
  rfl

/-- C30: `removeDuplicatesUnordered` returns each element of its argument exactly once and
nothing else, in whatever order the map yields its keys. Hence the stem list `works` of the
handlers holds each stem of a record exactly once; the list that `ReturnWorkURNS` returns
holds each stem of a record, followed by ":", exactly once; and the URN list that
`ReturnCatalog` returns holds the URN of each catalog entry exactly once. -/
theorem removeDuplicatesUnordered_exactly_once (o : MapOrder) :
    (∀ xs : List Str, (removeDuplicatesUnordered o xs).Nodup ∧
        ∀ x, x ∈ removeDuplicatesUnordered o xs ↔ x ∈ xs) ∧
    (∀ (lines : List (Str × Str)) (cropped : List Str),
        cropAll (ParseWork lines).URN = some cropped →
        (removeDuplicatesUnordered o cropped).Nodup ∧
          ∀ S, S ∈ removeDuplicatesUnordered o cropped ↔
            ∃ l ∈ lines, cropToStem l.1 = some S) ∧
    (∀ lines : List (Str × Str), (∀ l ∈ lines, 4 ≤ (Split l.1 ':').length) →
        ∃ r, ReturnWorkURNS o lines = Sum.inr r ∧ r.URN.Nodup ∧
          ∀ x, x ∈ r.URN ↔
            ∃ l ∈ lines, ∃ S, cropToStem l.1 = some S ∧ x = S ++ ":".toList) ∧
    (∀ (lines : List (List Str)) (cat : Catalog), ParseCatalog lines = some cat →
        ∃ r, ReturnCatalog o lines [] = Sum.inr r ∧ r.URN.Nodup ∧
          ∀ x, x ∈ r.URN ↔ ∃ e ∈ cat.CatalogEntries, e.URN = x) := by
  refine ⟨?_, ?_, ?_, ?_⟩
  · intro xs
    exact ⟨removeDuplicatesUnordered_nodup o xs, mem_removeDuplicatesUnordered o xs⟩
  · intro lines cropped hc
    refine ⟨removeDuplicatesUnordered_nodup o cropped, ?_⟩
    intro S
    rw [mem_removeDuplicatesUnordered, cropAll_mem_iff _ cropped hc S, ParseWork_URN]
    constructor
    · rintro ⟨u, hu, hS⟩
      obtain ⟨l, hl, rfl⟩ := List.mem_map.mp hu
      exact ⟨l, hl, hS⟩
    · rintro ⟨l, hl, hS⟩
      exact ⟨l.1, List.mem_map_of_mem _ hl, hS⟩
  · intro lines h4
    obtain ⟨r, hr, hmem⟩ := stemColonAll_mem (lines.map Prod.fst) (by
      intro u hu
      obtain ⟨l, hl, rfl⟩ := List.mem_map.mp hu
      exact h4 l hl)
    refine ⟨{ ParseURNSFromCTSdata lines with
              URN := removeDuplicatesUnordered o r, Service := "/texts".toList,
              requestURN := [] }, ?_, removeDuplicatesUnordered_nodup o r, ?_⟩
    · unfold ReturnWorkURNS
      simp only [ParseURNSFromCTSdata_URN, hr]
    · intro x
      show x ∈ removeDuplicatesUnordered o r ↔ _
      rw [mem_removeDuplicatesUnordered, hmem x]
      constructor
      · rintro ⟨u, hu, S, hS, hx⟩
        obtain ⟨l, hl, rfl⟩ := List.mem_map.mp hu
        exact ⟨l, hl, S, hS, hx⟩
      · rintro ⟨l, hl, S, hS, hx⟩
        exact ⟨l.1, List.mem_map_of_mem _ hl, S, hS, hx⟩
  · intro lines cat hcat
    refine ⟨{ Status := "Success".toList,
              Message := "No URN specified. Printing URNs in catalog".toList,
              URN := removeDuplicatesUnordered o (catalogURNs cat.CatalogEntries),
              Service := "/catalog".toList },
      ?_, removeDuplicatesUnordered_nodup o (catalogURNs cat.CatalogEntries), ?_⟩
    · unfold ReturnCatalog
      simp only [ne_eq, not_true_eq_false, if_false, hcat]
    · intro x
      show x ∈ removeDuplicatesUnordered o (catalogURNs cat.CatalogEntries) ↔ _
      rw [mem_removeDuplicatesUnordered]
      exact List.mem_map

/-- Witness of C30: the stems of the example records, the answer of `ReturnWorkURNS` over
them, and the URN list of the catalog built from `catalogLines`, in which the URN
`urn:cts:ns:work:` of two entries is listed once. -/
theorem removeDuplicatesUnordered_exactly_once_witness :
    (removeDuplicatesUnordered insertionOrder
        [exampleStem, "urn:cts:ns:other".toList, exampleStem, exampleStem]).Nodup ∧
    removeDuplicatesUnordered insertionOrder
        [exampleStem, "urn:cts:ns:other".toList, exampleStem, exampleStem] =
      [exampleStem, "urn:cts:ns:other".toList] ∧
    ReturnWorkURNS insertionOrder exampleLines =
      Sum.inr { Status := "Success".toList, Service := "/texts".toList,
                URN := ["urn:cts:ns:work:".toList, "urn:cts:ns:other:".toList] } ∧
    ParseCatalog catalogLines = some exampleCatalog ∧
    ReturnCatalog insertionOrder catalogLines [] =
      Sum.inr { Status := "Success".toList,
                Message := "No URN specified. Printing URNs in catalog".toList,
                Service := "/catalog".toList,
                URN := ["urn:cts:ns:work:".toList, "urn:cts:ns:other:".toList] } :=
  ⟨((removeDuplicatesUnordered_exactly_once insertionOrder).1 _).1,
    by decide, by decide, by decide, by decide⟩

/-! ## C31, C38: the string decomposition of a request -/

theorem splitCTS_of_five (s : Str) (h : 5 ≤ (Split s ':').length) :
    ∃ ref, (Split s ':')[4]? = some ref ∧
      splitCTS s =
        some { Stem := Join ((Split s ':').take 4) ":".toList, Reference := ref } := by
  have h4 : 4 < (Split s ':').length := by omega
  refine ⟨(Split s ':')[4], List.getElem?_eq_getElem h4, ?_⟩
  have hc : (0 : Int) ≤ 0 ∧ (0 : Int) ≤ 4 ∧ (4 : Int) ≤ ((Split s ':').length : Int) := by omega
  have hslice : goSlice (Split s ':') 0 4 = some ((Split s ':').take 4) := by
    unfold goSlice
    rw [if_pos hc]
    simp
  have hidx : goIdx (Split s ':') 4 = some (Split s ':')[4] := by
    rw [show (4 : Int) = ((4 : Nat) : Int) from rfl, goIdx_natCast, List.getElem?_eq_getElem h4]
  unfold splitCTS
  rw [hslice, hidx]
  rfl

theorem splitCTS_of_short (s : Str) (h : (Split s ':').length < 5) : splitCTS s = none := by
  unfold splitCTS
  by_cases h4 : (Split s ':').length < 4
  · have hc : ¬ ((0 : Int) ≤ 0 ∧ (0 : Int) ≤ 4 ∧ (4 : Int) ≤ ((Split s ':').length : Int)) := by
      omega
    have hslice : goSlice (Split s ':') 0 4 = none := by
      unfold goSlice
      rw [if_neg hc]
    rw [hslice]
    rfl
  · have hidx : goIdx (Split s ':') 4 = none := by
      rw [show (4 : Int) = ((4 : Nat) : Int) from rfl, goIdx_natCast,
        List.getElem?_eq_none (by omega)]
    rw [hidx]
    cases goSlice (Split s ':') 0 4 <;> rfl

/-- C31: for a string of at least five ':'-separated fields `splitCTS` returns the first four
fields joined by ':' as `Stem` and the fifth field as `Reference`; for a string of fewer than
five fields it panics (the slice `[0:4]` or the index `[4]` is out of range) and returns
nothing. -/
theorem splitCTS_fields (s : Str) :
    (5 ≤ (Split s ':').length →
      ∃ ref, (Split s ':')[4]? = some ref ∧
        splitCTS s =
          some { Stem := Join ((Split s ':').take 4) ":".toList, Reference := ref }) ∧
    ((Split s ':').length < 5 → splitCTS s = none) :=
  ⟨splitCTS_of_five s, splitCTS_of_short s⟩

/-- Witness of C31: a URN of five fields, one of six fields (the sixth is ignored), one of
four fields and a string of two fields. -/
theorem splitCTS_fields_witness :
    (5 ≤ (Split "urn:cts:ns:work:1.1".toList ':').length ∧
      ∃ ref, (Split "urn:cts:ns:work:1.1".toList ':')[4]? = some ref ∧
        splitCTS "urn:cts:ns:work:1.1".toList =
          some { Stem := Join ((Split "urn:cts:ns:work:1.1".toList ':').take 4) ":".toList,
                 Reference := ref }) ∧
    splitCTS "urn:cts:ns:work:1.1".toList =
      some { Stem := exampleStem, Reference := "1.1".toList } ∧
    splitCTS "urn:cts:ns:work:1.1:x".toList =
      some { Stem := exampleStem, Reference := "1.1".toList } ∧
    ((Split exampleStem ':').length < 5 ∧ splitCTS exampleStem = none) ∧
    splitCTS invalidRequest = none :=
  ⟨⟨by decide, (splitCTS_fields "urn:cts:ns:work:1.1".toList).1 (by decide)⟩,
    by decide, by decide,
    ⟨by decide, (splitCTS_fields exampleStem).2 (by decide)⟩, by decide⟩

theorem Split_length_of_mem (s : Str) (c : Char) (h : c ∈ s) : 2 ≤ (Split s c).length := by
  rw [Split_length]
  have := List.count_pos_iff.mpr h
  omega

/-- C38: for a request accepted by `isCTSURN` and by `isRange`, the string decomposition of the
range branch does not panic: the request has exactly five fields, `splitCTS` returns a value,
its `Reference` splits on '-' into at least two parts, and `startURN` and `endURN` are the
`Stem` followed by ":" and the first, respectively the second part. -/
theorem range_decomposition (q : Str) (hq : isCTSURN q = true) (hr : isRange q = true) :
    (Split q ':').length = 5 ∧
    ∃ c p0 p1, splitCTS q = some c ∧ 2 ≤ (Split c.Reference '-').length ∧
      (Split c.Reference '-')[0]? = some p0 ∧ (Split c.Reference '-')[1]? = some p1 ∧
      rangeBounds q = some (c.Stem ++ ":".toList ++ p0, c.Stem ++ ":".toList ++ p1) := by
  obtain ⟨h5, ref, href, hmem⟩ := (isRange_true_iff q).mp hr
  have hle := (isCTSURN_fields q hq).1
  obtain ⟨ref', href', hsplit⟩ := splitCTS_of_five q h5
  obtain rfl : ref' = ref := Option.some.inj (href'.symm.trans href)
  have h2 := Split_length_of_mem ref' '-' hmem
  obtain ⟨p0, hp0⟩ : ∃ p0, (Split ref' '-')[0]? = some p0 :=
    ⟨_, List.getElem?_eq_getElem (by omega)⟩
  obtain ⟨p1, hp1⟩ : ∃ p1, (Split ref' '-')[1]? = some p1 :=
    ⟨_, List.getElem?_eq_getElem (by omega)⟩
  refine ⟨by omega, _, p0, p1, hsplit, h2, hp0, hp1, ?_⟩
  have h0 : goIdx (Split ref' '-') 0 = some p0 := by
    rw [show (0 : Int) = ((0 : Nat) : Int) from rfl, goIdx_natCast, hp0]
  have h1 : goIdx (Split ref' '-') 1 = some p1 := by
    rw [show (1 : Int) = ((1 : Nat) : Int) from rfl, goIdx_natCast, hp1]
  unfold rangeBounds
  simp only [hsplit, Option.bind_eq_bind, Option.some_bind, h0, h1, Option.pure_def]

/-- Witness of C38: the request `urn:cts:ns:work:1.1-2.1`, and a request whose reference has
three parts, of which the third is ignored. -/
theorem range_decomposition_witness :
    isCTSURN "urn:cts:ns:work:1.1-2.1".toList = true ∧
    isRange "urn:cts:ns:work:1.1-2.1".toList = true ∧
    ((Split "urn:cts:ns:work:1.1-2.1".toList ':').length = 5 ∧
      ∃ c p0 p1, splitCTS "urn:cts:ns:work:1.1-2.1".toList = some c ∧
        2 ≤ (Split c.Reference '-').length ∧
        (Split c.Reference '-')[0]? = some p0 ∧ (Split c.Reference '-')[1]? = some p1 ∧
        rangeBounds "urn:cts:ns:work:1.1-2.1".toList =
          some (c.Stem ++ ":".toList ++ p0, c.Stem ++ ":".toList ++ p1)) ∧
    rangeBounds "urn:cts:ns:work:1.1-2.1".toList =
      some ("urn:cts:ns:work:1.1".toList, "urn:cts:ns:work:2.1".toList) ∧
    rangeBounds "urn:cts:ns:work:1-2-3".toList =
      some ("urn:cts:ns:work:1".toList, "urn:cts:ns:work:2".toList) :=
  ⟨by decide, by decide,
    range_decomposition "urn:cts:ns:work:1.1-2.1".toList (by decide) (by decide),
    by decide, by decide⟩

/-! ## C32: reversed ranges -/

theorem firstTrueLoop_nonneg (ms : List Bool) :
    ∀ (i : Nat) (idx : Int), 0 ≤ idx → 0 ≤ firstTrueLoop ms i idx := by
  induction ms with
  | nil => intro i idx h; exact h
  | cons m ms ih =>
    intro i idx h
    unfold firstTrueLoop
    split_ifs
    · omega
    · exact ih (i + 1) idx h

theorem startIndex_nonneg (rx : Regexp) (w : Work) (u : Str) : 0 ≤ startIndex rx w u := by
  unfold startIndex
  split_ifs with h0
  · obtain ⟨i, hi, _⟩ := indexLoop_of_contains w u h0
    rw [hi]
    omega
  · exact firstTrueLoop_nonneg _ 0 0 (le_refl 0)
  · exact firstTrueLoop_nonneg _ 0 0 (le_refl 0)
  · exact firstTrueLoop_nonneg _ 0 0 (le_refl 0)
  · exact firstTrueLoop_nonneg _ 0 0 (le_refl 0)
  · exact le_refl 0

theorem lastTrueLoop_lt (rx : Regexp) (pattern : Str) (urns : List Str) (u : Str)
    (h : boolcontains (matchAll rx pattern urns u) true = true) :
    lastTrueLoop (matchAll rx pattern urns u) (matchAll rx pattern urns u).length 0 <
      (urns.length : Int) := by
  have hlen : (matchAll rx pattern urns u).length = urns.length := by simp [matchAll]
  obtain ⟨j, hjl, hj⟩ := exists_match_index rx pattern urns u
    ((matchAll_contains_iff rx pattern urns u).mp h)
  obtain ⟨k, hk, h1, _⟩ := lastTrueLoop_spec (matchAll rx pattern urns u)
    (matchAll rx pattern urns u).length 0 ⟨j, by omega, hj⟩
  rw [h1]
  omega

theorem endIndex_lt (rx : Regexp) (w : Work) (u : Str) :
    endIndex rx w u < (w.URN.length : Int) := by
  unfold endIndex
  simp only
  split_ifs with h0 h1 h2 h3 h4
  · obtain ⟨i, hi, hget, _⟩ := indexLoop_of_contains w u h0
    have := lt_length_of_getElem? w.URN i u hget
    rw [hi]
    omega
  · exact lastTrueLoop_lt rx level1pattern w.URN u h1
  · exact lastTrueLoop_lt rx level2pattern w.URN u h2
  · exact lastTrueLoop_lt rx level3pattern w.URN u h3
  · exact lastTrueLoop_lt rx level4pattern w.URN u h4
  · omega

theorem rangePassage_reversed (rx : Regexp) (w : Work) (q su eu : Str)
    (hb : rangeBounds q = some (su, eu))
    (hrev : endIndex rx w eu + 1 < startIndex rx w su) : rangePassage rx w q = none := by
  have hc : ¬ (0 ≤ startIndex rx w su ∧ startIndex rx w su ≤ endIndex rx w eu + 1 ∧
      endIndex rx w eu + 1 ≤ (w.URN.length : Int)) := by omega
  have hslice : goSlice w.URN (startIndex rx w su) (endIndex rx w eu + 1) = none := by
    unfold goSlice
    rw [if_neg hc]
  unfold rangePassage
  simp only [hb, Option.bind_eq_bind, Option.some_bind, hslice, Option.none_bind]

theorem reff_reversed (rx : Regexp) (w : Work) (q su eu : Str) (hr : isRange q = true)
    (hb : rangeBounds q = some (su, eu))
    (hrev : endIndex rx w eu + 1 < startIndex rx w su) : reff rx w q = none := by
  have hc : ¬ (0 ≤ startIndex rx w su ∧ startIndex rx w su ≤ endIndex rx w eu + 1 ∧
      endIndex rx w eu + 1 ≤ (w.URN.length : Int)) := by omega
  have hslice : goSlice w.URN (startIndex rx w su) (endIndex rx w eu + 1) = none := by
    unfold goSlice
    rw [if_neg hc]
  unfold reff
  simp only [hr, if_true, hb, Option.bind_eq_bind, Option.some_bind, hslice, Option.none_bind]

/-- C32: for a work with one text per URN and `Index` enumerating from 1, and a range request
whose start index `s` exceeds its end index `e`: when `s = e + 1` the range case of `passage`
answers with status Success and an empty node list, and `reff` with status Success and an
empty URN list; when `s > e + 1` the slice expression panics and neither writes a response.
No guard stands before the slice: a range request is never answered with status Exception
by `passage` or `reff`. -/
theorem reversed_range (rx : Regexp) (w : Work) (q su eu : Str) (hw : w.WellFormed)
    (hr : isRange q = true) (hb : rangeBounds q = some (su, eu)) :
    (startIndex rx w su = endIndex rx w eu + 1 →
      rangePassage rx w q =
        some { requestURN := [q], Status := "Success".toList, Nodes := [] } ∧
      reff rx w q =
        some { requestURN := [q], Status := "Success".toList, URN := [],
               Service := "/texts/urns".toList }) ∧
    (endIndex rx w eu + 1 < startIndex rx w su →
      rangePassage rx w q = none ∧ reff rx w q = none) ∧
    (NoMatch rx w q → passage rx w q = rangePassage rx w q) ∧
    (∀ r, passage rx w q = some r → r.Status ≠ "Exception".toList) ∧
    (∀ r, reff rx w q = some r → r.Status ≠ "Exception".toList) := by
  refine ⟨?_, ?_, ?_, ?_, ?_⟩
  · intro heq
    have h0 := startIndex_nonneg rx w su
    have hlt := endIndex_lt rx w eu
    have hs : startIndex rx w su = (((startIndex rx w su).toNat : Nat) : Int) := by omega
    have he : endIndex rx w eu + 1 = (((startIndex rx w su).toNat + 0 : Nat) : Int) := by omega
    have hle : (startIndex rx w su).toNat + 0 ≤ w.URN.length := by omega
    constructor
    · rw [rangePassage_eq rx w hw q su eu _ 0 hb hs he hle]
      rfl
    · rw [reff_range_eq rx w q su eu _ 0 hr hb hs he hle]
      simp
  · intro hgt
    exact ⟨rangePassage_reversed rx w q su eu hb hgt, reff_reversed rx w q su eu hr hb hgt⟩
  · intro hn
    exact passage_range rx w q hn hr
  · intro r h hs
    have := (passage_exception rx w q r h hs).1
    rw [hr] at this
    cases this
  · intro r h hs
    have := (reff_exception rx w q r h hs).1
    rw [hr] at this
    cases this

/-- Witness of C32 on `exampleWork` (nodes 1.1, 1.2, 2.1): the range `2.1-1.2` has start index
2 and end index 1 and is answered with an empty list; the range `2.1-1.1` has start index 2
and end index 0 and makes `ReturnPassage` and `ReturnReff` panic. -/
theorem reversed_range_witness :
    exampleWork.WellFormed ∧ isRange "urn:cts:ns:work:2.1-1.2".toList = true ∧
    rangeBounds "urn:cts:ns:work:2.1-1.2".toList =
      some ("urn:cts:ns:work:2.1".toList, "urn:cts:ns:work:1.2".toList) ∧
    startIndex goRegexp exampleWork "urn:cts:ns:work:2.1".toList = 2 ∧
    endIndex goRegexp exampleWork "urn:cts:ns:work:1.2".toList = 1 ∧
    (rangePassage goRegexp exampleWork "urn:cts:ns:work:2.1-1.2".toList =
        some { requestURN := ["urn:cts:ns:work:2.1-1.2".toList], Status := "Success".toList,
               Nodes := [] } ∧
      reff goRegexp exampleWork "urn:cts:ns:work:2.1-1.2".toList =
        some { requestURN := ["urn:cts:ns:work:2.1-1.2".toList], Status := "Success".toList,
               URN := [], Service := "/texts/urns".toList }) ∧
    ReturnPassage insertionOrder goRegexp exampleLines "urn:cts:ns:work:2.1-1.2".toList =
      some { requestURN := ["urn:cts:ns:work:2.1-1.2".toList], Status := "Success".toList,
             Service := "/texts".toList, Nodes := [] } ∧
    endIndex goRegexp exampleWork "urn:cts:ns:work:1.1".toList = 0 ∧
    ReturnPassage insertionOrder goRegexp exampleLines "urn:cts:ns:work:2.1-1.1".toList = none ∧
    ReturnReff insertionOrder goRegexp exampleLines "urn:cts:ns:work:2.1-1.1".toList = none :=
  ⟨⟨by decide, by decide⟩, by decide, by decide, by decide, by decide,
    (reversed_range goRegexp exampleWork "urn:cts:ns:work:2.1-1.2".toList
      "urn:cts:ns:work:2.1".toList "urn:cts:ns:work:1.2".toList ⟨by decide, by decide⟩
      (by decide) (by decide)).1 (by decide),
    by decide, by decide, by decide, by decide⟩

/-! ## C33, C34: the depth-1 matcher -/

theorem WildEq_self (p : Str) : WildEq p p := by
  unfold WildEq
  rw [List.forall₂_same]
  intro x _
  by_cases hx : x = '.'
  · rw [if_pos hx, hx]
    decide
  · rw [if_neg hx]

/-- C33: for a request `p` without regular-expression metacharacters other than `.`, and a
non-empty string `c` of digits, lowercase letters and '|', the depth-1 matcher accepts the
node `p + "." + c`; `c` may contain the literal '|' or consist of it alone. -/
theorem pipe_accepted (p c : Str) (hp : ∀ x ∈ p, plainChar x = true) (hc : c ≠ [])
    (hcc : ∀ x ∈ c, isCompChar x = true) :
    level1contains goRegexp [p ++ ".".toList ++ c] p = true := by
  rw [level1contains, matchAll, List.map_singleton, boolcontains_singleton]
  apply (goRegexp_level 1 level1pattern _ p (compile_level p hp).1).mpr
  refine ⟨[], p, ".".toList ++ c, by simp, WildEq_self p, ?_⟩
  refine ⟨".".toList, c, [], by simp, ?_, hc, hcc, rfl⟩
  intro x hx
  right
  right
  exact List.mem_singleton.mp hx

/-- Witness of C33: the components `a|b` and `|` after the request `urn:cts:ns:work:1`. -/
theorem pipe_accepted_witness :
    (∀ x ∈ exampleRequest, plainChar x = true) ∧ "a|b".toList ≠ [] ∧
    (∀ x ∈ "a|b".toList, isCompChar x = true) ∧
    level1contains goRegexp [exampleRequest ++ ".".toList ++ "a|b".toList] exampleRequest =
      true ∧
    level1contains goRegexp ["urn:cts:ns:work:1.|".toList] exampleRequest = true :=
  ⟨by decide, by decide, by decide,
    pipe_accepted exampleRequest "a|b".toList (by decide) (by decide) (by decide), by decide⟩

/-- C34: the depth-1 matcher accepts the node `urn:cts:ns:work:11` for the request
`urn:cts:ns:work:1`, although no ':' or '.' stands between the request and the further
digit; over records that hold this node and no node `urn:cts:ns:work:1`, `ReturnPassage`
answers the request for passage 1 with node 11. -/
theorem depth1_without_separator :
    level1contains goRegexp ["urn:cts:ns:work:11".toList] exampleRequest = true ∧
    contains ((ParseWork elevenLines).URN) exampleRequest = false ∧
    ReturnPassage insertionOrder goRegexp elevenLines exampleRequest =
      some { requestURN := [exampleRequest], Status := "Success".toList,
             Service := "/texts".toList,
             Nodes := [{ URN := ["urn:cts:ns:work:11".toList], Text := ["alpha".toList],
                         Previous := [[]], Next := ["urn:cts:ns:work:2".toList],
                         Index := 1 }] } := by
  refine ⟨by decide, by decide, by decide⟩

/-! ## C35, C36: `reff` and `passage` on hierarchical requests -/

theorem matchingURNLoop_eq (w : Work) (f : Str → Bool) (us : List Str) :
    ∀ (i : Nat) (acc : List Str), w.URN.drop i = us →
      matchingURNLoop w (us.map f) i acc =
        some (acc ++ ((List.range' i us.length).filter
          (fun j => f (w.URN.getD j []))).map (fun j => w.URN.getD j [])) := by
  induction us with
  | nil => intro i acc _; simp [matchingURNLoop]
  | cons u us ih =>
    intro i acc hdrop
    obtain ⟨hi, hu, hdrop'⟩ := drop_eq_cons w.URN i u us hdrop
    have hgd : w.URN.getD i [] = u := by
      have := getElem?_getD w.URN i hi
      rw [hu] at this
      exact (Option.some.inj this).symm
    simp only [List.map_cons, matchingURNLoop, List.length_cons, List.range'_succ,
      List.filter_cons, hgd]
    by_cases hf : f u = true
    · rw [if_pos hf, if_pos hf, hu]
      simp only [Option.bind_eq_bind, Option.some_bind]
      rw [ih (i + 1) _ hdrop']
      simp [hu]
    · rw [if_neg hf, if_neg hf, ih (i + 1) _ hdrop']

theorem levelReff_eq (rx : Regexp) (pattern : Str) (w : Work) (q : Str) :
    levelReff rx pattern w q =
      some { requestURN := [q], Status := "Success".toList,
             URN := ((List.range w.URN.length).filter
               (fun j => rx (q ++ pattern) (w.URN.getD j []))).map
                 (fun j => w.URN.getD j []) } := by
  unfold levelReff matchAll
  rw [matchingURNLoop_eq w (fun si => rx (q ++ pattern) si) w.URN 0 [] (by simp)]
  simp [List.range_eq_range']

/-- The case `passage` takes when the request equals no node URN and `d` is the first depth
at which a node matches it. -/
theorem passage_of_firstDepth (rx : Regexp) (w : Work) (q : Str) (d : Nat) (hw : w.WellFormed)
    (hq : contains w.URN q = false) (hd : FirstDepth rx w q d) :
    passage rx w q =
      some { requestURN := [q], Status := "Success".toList,
             Nodes := ((List.range w.URN.length).filter
               (fun j => matchesAt rx w q d j)).map (nodeOf w) } := by
  unfold matchesAt passage
  rcases levels_of_firstDepth rx w q d hd with ⟨rfl, h1⟩ | ⟨rfl, h1, h2⟩ | ⟨rfl, h1, h2, h3⟩ |
    ⟨rfl, h1, h2, h3, h4⟩
  · simp only [hq, h1, Bool.false_eq_true, if_false, if_true]
    exact levelPassage_eq rx level1pattern w hw q
  · simp only [hq, h1, h2, Bool.false_eq_true, if_false, if_true]
    exact levelPassage_eq rx level2pattern w hw q
  · simp only [hq, h1, h2, h3, Bool.false_eq_true, if_false, if_true]
    exact levelPassage_eq rx level3pattern w hw q
  · simp only [hq, h1, h2, h3, h4, Bool.false_eq_true, if_false, if_true]
    exact levelPassage_eq rx level4pattern w hw q

/-- The case `reff` takes for a request that is no range, equals no node URN and matches
first at depth `d`: it collects with the pattern of depth `d`, except at depth 4, where it
collects with the pattern of depth 3. -/
theorem reff_of_firstDepth (rx : Regexp) (w : Work) (q : Str) (d : Nat)
    (hr : isRange q = false) (hq : contains w.URN q = false) (hd : FirstDepth rx w q d) :
    reff rx w q =
      some { requestURN := [q], Status := "Success".toList, Service := "/texts/urns".toList,
             URN := ((List.range w.URN.length).filter
               (fun j => matchesAt rx w q (if d = 4 then 3 else d) j)).map
                 (fun j => w.URN.getD j []) } := by
  unfold matchesAt reff
  rcases levels_of_firstDepth rx w q d hd with ⟨rfl, h1⟩ | ⟨rfl, h1, h2⟩ | ⟨rfl, h1, h2, h3⟩ |
    ⟨rfl, h1, h2, h3, h4⟩
  · simp only [hr, hq, h1, Bool.false_eq_true, if_false, if_true,
      levelReff_eq rx level1pattern w q]
    rfl
  · simp only [hr, hq, h1, h2, Bool.false_eq_true, if_false, if_true,
      levelReff_eq rx level2pattern w q]
    rfl
  · simp only [hr, hq, h1, h2, h3, Bool.false_eq_true, if_false, if_true,
      levelReff_eq rx level3pattern w q]
    rfl
  · simp only [hr, hq, h1, h2, h3, h4, Bool.false_eq_true, if_false, if_true,
      levelReff_eq rx level3pattern w q]
    rfl

/-- C35: for a work with one text per URN and `Index` enumerating from 1, and a request that
is no range, equals no node URN, matches no node at depth 1, 2 or 3 and matches some node at
depth 4: `reff` answers with status Success and an empty URN list, whereas `passage` answers
with the nodes that match at depth 4, of which there is at least one. -/
theorem reff_depth4_empty (rx : Regexp) (w : Work) (q : Str) (hw : w.WellFormed)
    (hr : isRange q = false) (hq : contains w.URN q = false) (hd : FirstDepth rx w q 4) :
    reff rx w q =
      some { requestURN := [q], Status := "Success".toList, Service := "/texts/urns".toList,
             URN := [] } ∧
    passage rx w q =
      some { requestURN := [q], Status := "Success".toList,
             Nodes := ((List.range w.URN.length).filter
               (fun j => matchesAt rx w q 4 j)).map (nodeOf w) } ∧
    ((List.range w.URN.length).filter (fun j => matchesAt rx w q 4 j)).map (nodeOf w) ≠ [] := by
  refine ⟨?_, passage_of_firstDepth rx w q 4 hw hq hd, ?_⟩
  · rw [reff_of_firstDepth rx w q 4 hr hq hd]
    have hnone : (List.range w.URN.length).filter (fun j => matchesAt rx w q 3 j) = [] := by
      rw [List.filter_eq_nil_iff]
      intro j hj
      have hjl : j < w.URN.length := List.mem_range.mp hj
      have hmem : w.URN.getD j [] ∈ w.URN := List.getElem?_mem (getElem?_getD w.URN j hjl)
      have := hd.2.2 3 (by omega) (by omega) _ hmem
      simp only [matchesAt, this, Bool.false_eq_true, not_false_eq_true]
    simp only [if_true, hnone, List.map_nil]
  · obtain ⟨x, hx, hm⟩ := hd.2.1
    obtain ⟨j, hj⟩ := List.mem_iff_getElem?.mp hx
    have hjl := lt_length_of_getElem? w.URN j x hj
    have hjm : matchesAt rx w q 4 j = true := by
      unfold matchesAt
      rw [getD_of_getElem? w.URN j x hj]
      exact hm
    intro hnil
    have hmemj : j ∈ (List.range w.URN.length).filter (fun j => matchesAt rx w q 4 j) :=
      List.mem_filter.mpr ⟨List.mem_range.mpr hjl, hjm⟩
    rw [List.map_eq_nil_iff] at hnil
    rw [hnil] at hmemj
    cases hmemj


theorem deepRequest_firstDepth : FirstDepth goRegexp deepWork exampleRequest 4 := by
  refine ⟨⟨by decide, by decide⟩, by decide, ?_⟩
  intro d' h1 h2
  interval_cases d' <;> decide

/-- Witness of C35: over `deepLines` the request `urn:cts:ns:work:1` matches the second and
the third node at depth 4 and no node at a lower depth; `ReturnReff` answers with an empty
URN list, `ReturnPassage` with the two nodes. -/
theorem reff_depth4_empty_witness :
    deepWork.WellFormed ∧ isRange exampleRequest = false ∧
    contains deepWork.URN exampleRequest = false ∧
    FirstDepth goRegexp deepWork exampleRequest 4 ∧
    (reff goRegexp deepWork exampleRequest =
        some { requestURN := [exampleRequest], Status := "Success".toList,
               Service := "/texts/urns".toList, URN := [] } ∧
      passage goRegexp deepWork exampleRequest =
        some { requestURN := [exampleRequest], Status := "Success".toList,
               Nodes := ((List.range deepWork.URN.length).filter
                 (fun j => matchesAt goRegexp deepWork exampleRequest 4 j)).map
                   (nodeOf deepWork) } ∧
      ((List.range deepWork.URN.length).filter
        (fun j => matchesAt goRegexp deepWork exampleRequest 4 j)).map (nodeOf deepWork) ≠
          []) ∧
    buildWork (ParseWork deepLines) exampleStem = some deepWork ∧
    ReturnReff insertionOrder goRegexp deepLines exampleRequest =
      some (Sum.inr { requestURN := [exampleRequest], Status := "Success".toList,
                      Service := "/texts/urns".toList, URN := [] }) ∧
    ReturnPassage insertionOrder goRegexp deepLines exampleRequest =
      some { requestURN := [exampleRequest], Status := "Success".toList,
             Service := "/texts".toList,
             Nodes := [nodeOf deepWork 1, nodeOf deepWork 2] } :=
  ⟨⟨by decide, by decide⟩, by decide, by decide, deepRequest_firstDepth,
    reff_depth4_empty goRegexp deepWork exampleRequest ⟨by decide, by decide⟩ (by decide)
      (by decide) deepRequest_firstDepth,
    by decide, by decide, by decide⟩

/-- C36: for a work with one text per URN and `Index` enumerating from 1, and a request that
is no range, equals no node URN and matches first at depth 1, 2 or 3, `reff` and `passage`
both answer with status Success, and the URN list of `reff` is, in the same order, the list
of the URNs of the nodes of `passage` (each node holding its URN as a list of one string). -/
theorem reff_passage_agree (rx : Regexp) (w : Work) (q : Str) (d : Nat) (hw : w.WellFormed)
    (hr : isRange q = false) (hq : contains w.URN q = false) (hd : FirstDepth rx w q d)
    (h3 : d ≤ 3) :
    ∃ r1 r2, reff rx w q = some r1 ∧ passage rx w q = some r2 ∧
      r1.Status = "Success".toList ∧ r2.Status = "Success".toList ∧
      r2.Nodes.map (fun node => node.URN) = r1.URN.map (fun u => [u]) := by
  refine ⟨_, _, reff_of_firstDepth rx w q d hr hq hd, passage_of_firstDepth rx w q d hw hq hd,
    rfl, rfl, ?_⟩
  have hd4 : ¬ d = 4 := by omega
  simp only [hd4, if_false, List.map_map]
  rfl

/-- Witness of C36: over the example records the request `urn:cts:ns:work:1` matches first at
depth 1; `ReturnReff` lists the URNs 1.1 and 1.2, `ReturnPassage` the nodes 1.1 and 1.2. -/
theorem reff_passage_agree_witness :
    exampleWork.WellFormed ∧ isRange exampleRequest = false ∧
    contains exampleWork.URN exampleRequest = false ∧
    FirstDepth goRegexp exampleWork exampleRequest 1 ∧ 1 ≤ 3 ∧
    (∃ r1 r2, reff goRegexp exampleWork exampleRequest = some r1 ∧
      passage goRegexp exampleWork exampleRequest = some r2 ∧
      r1.Status = "Success".toList ∧ r2.Status = "Success".toList ∧
      r2.Nodes.map (fun node => node.URN) = r1.URN.map (fun u => [u])) ∧
    ReturnReff insertionOrder goRegexp exampleLines exampleRequest =
      some (Sum.inr { requestURN := [exampleRequest], Status := "Success".toList,
                      Service := "/texts/urns".toList,
                      URN := ["urn:cts:ns:work:1.1".toList, "urn:cts:ns:work:1.2".toList] }) ∧
    ReturnPassage insertionOrder goRegexp exampleLines exampleRequest =
      some { requestURN := [exampleRequest], Status := "Success".toList,
             Service := "/texts".toList,
             Nodes := [nodeOf exampleWork 0, nodeOf exampleWork 1] } :=
  ⟨⟨by decide, by decide⟩, by decide, by decide, exampleRequest_firstDepth, by decide,
    reff_passage_agree goRegexp exampleWork exampleRequest 1 ⟨by decide, by decide⟩ (by decide)
      (by decide) exampleRequest_firstDepth (by decide),
    by decide, by decide⟩

/-! ## C37: the order of the stem list -/

/-- The responses of the six handlers to a validated request for which the selection loop
leaves `workindex` at 0. -/
theorem handlers_unselected (o : MapOrder) (rx : Regexp) (lines : List (Str × Str))
    (cropped : List Str) (q : Str) (hq : isCTSURN q = true)
    (hc : cropAll (ParseWork lines).URN = some cropped)
    (hsel : selectWork q (removeDuplicatesUnordered o cropped) = 0) :
    ReturnPassage o rx lines q =
      some { requestURN := [q], Status := "Exception".toList,
             Message := "No results for ".toList ++ q, Service := "/texts".toList } ∧
    ReturnReff o rx lines q =
      some (Sum.inr { requestURN := [q], Status := "Exception".toList,
                      Message := "No results for ".toList ++ q,
                      Service := "/texts/urns".toList }) ∧
    ReturnFirst o lines q =
      { requestURN := [q], Status := "Exception".toList,
        Message := "No results for ".toList ++ q, Service := "/texts/first".toList } ∧
    ReturnLast o lines q =
      some { requestURN := [q], Status := "Exception".toList,
             Message := "No results for ".toList ++ q, Service := "/texts/last".toList } ∧
    ReturnPrev o lines q =
      some { requestURN := [q], Status := "Exception".toList,
             Message := "No results for ".toList ++ q, Service := "/texts/previous".toList } ∧
    ReturnNext o lines q =
      some { requestURN := [q], Status := "Exception".toList,
             Message := "No results for ".toList ++ q, Service := "/texts/next".toList } := by
  refine ⟨?_, ?_, ?_, ?_, ?_, ?_⟩
  · unfold ReturnPassage
    simp only [hq, ne_eq, not_true_eq_false, if_false, hc, Option.bind_eq_bind,
      Option.some_bind, hsel, if_true]
    rfl
  · unfold ReturnReff
    simp only [hq, ne_eq, not_true_eq_false, if_false, hc, Option.bind_eq_bind,
      Option.some_bind, hsel, if_true]
    rfl
  · unfold ReturnFirst
    simp only [hq, ne_eq, not_true_eq_false, if_false, hc, Option.bind_eq_bind,
      Option.some_bind, hsel, if_true]
    rfl
  · unfold ReturnLast
    simp only [hq, ne_eq, not_true_eq_false, if_false, hc, Option.bind_eq_bind,
      Option.some_bind, hsel, if_true]
    rfl
  · unfold ReturnPrev
    simp only [hq, ne_eq, not_true_eq_false, if_false, hc, Option.bind_eq_bind,
      Option.some_bind, hsel, if_true]
    rfl
  · unfold ReturnNext
    simp only [hq, ne_eq, not_true_eq_false, if_false, hc, Option.bind_eq_bind,
      Option.some_bind, hsel, if_true]
    rfl

/-- In a stem list without repetitions whose stems begin with "urn", a stem that passes the
selection test is selected, at whatever position the list holds it. -/
theorem selectWork_position (q : Str) (works : List Str) (T : Str) (hq : isCTSURN q = true)
    (hnd : works.Nodup) (hwf : ∀ X ∈ works, UrnStem X) (hT : T ∈ works)
    (hqual : Qualifies q T) :
    ∃ i, selectWork q works = i + 1 ∧ works[i]? = some T := by
  obtain ⟨a, b, hab⟩ := List.append_of_mem hT
  refine ⟨a.length, selectWork_of_unique q works a b T hq hnd hwf hab hqual, ?_⟩
  rw [hab, List.getElem?_append_right (le_refl _)]
  simp

/-- C37: for records whose URNs all begin with "urn:cts:" and have at least four fields, and
a request accepted by `isCTSURN`: at most one stem of the records passes the selection test
(the request equals the stem, or contains the stem followed by ':'); and each of the six
handlers writes the same response for every two orders in which `removeDuplicatesUnordered`
may return the stems. -/
theorem selection_deterministic (o1 o2 : MapOrder) (rx : Regexp) (lines : List (Str × Str))
    (q : Str) (hq : isCTSURN q = true)
    (hwf : ∀ l ∈ lines, "urn:cts:".toList <+: l.1)
    (h4 : ∀ l ∈ lines, 4 ≤ (Split l.1 ':').length) :
    (∀ S T, (∃ l ∈ lines, cropToStem l.1 = some S) → (∃ l ∈ lines, cropToStem l.1 = some T) →
      Qualifies q S → Qualifies q T → S = T) ∧
    ReturnPassage o1 rx lines q = ReturnPassage o2 rx lines q ∧
    ReturnReff o1 rx lines q = ReturnReff o2 rx lines q ∧
    ReturnFirst o1 lines q = ReturnFirst o2 lines q ∧
    ReturnLast o1 lines q = ReturnLast o2 lines q ∧
    ReturnPrev o1 lines q = ReturnPrev o2 lines q ∧
    ReturnNext o1 lines q = ReturnNext o2 lines q := by
  obtain ⟨cropped, hc⟩ := cropAll_isSome (ParseWork lines).URN (by
    intro u hu
    rw [ParseWork_URN] at hu
    obtain ⟨l, hl, rfl⟩ := List.mem_map.mp hu
    exact h4 l hl)
  have hstem : ∀ S, (∃ l ∈ lines, cropToStem l.1 = some S) → UrnStem S := by
    rintro S ⟨l, hl, hS⟩
    exact UrnStem_of_crop l.1 S (hwf l hl) hS
  refine ⟨?_, ?_⟩
  · intro S T hS hT hqS hqT
    have hS' := hstem S hS
    have hT' := hstem T hT
    exact stem_unique q S T hS'.1 hT'.1 (prefix_of_qualifies q S hq hS' hqS)
      (prefix_of_qualifies q T hq hT' hqT)
  · by_cases hex : ∃ T ∈ cropped, Qualifies q T
    · obtain ⟨T, hTc, hqual⟩ := hex
      obtain ⟨i1, hsel1, hget1⟩ := selectWork_position q (removeDuplicatesUnordered o1 cropped) T
        hq (removeDuplicatesUnordered_nodup o1 cropped) (works_urnStem o1 lines cropped hwf hc)
        ((mem_removeDuplicatesUnordered o1 cropped T).mpr hTc) hqual
      obtain ⟨i2, hsel2, hget2⟩ := selectWork_position q (removeDuplicatesUnordered o2 cropped) T
        hq (removeDuplicatesUnordered_nodup o2 cropped) (works_urnStem o2 lines cropped hwf hc)
        ((mem_removeDuplicatesUnordered o2 cropped T).mpr hTc) hqual
      obtain ⟨w1, hb1, _, hp1⟩ :=
        ReturnPassage_resolved o1 rx lines q cropped i1 T hq hc hsel1 hget1
      obtain ⟨w2, hb2, _, hp2⟩ :=
        ReturnPassage_resolved o2 rx lines q cropped i2 T hq hc hsel2 hget2
      obtain ⟨w3, hb3, _, hr1⟩ :=
        ReturnReff_resolved o1 rx lines q cropped i1 T hq hc hsel1 hget1
      obtain ⟨w4, hb4, _, hr2⟩ :=
        ReturnReff_resolved o2 rx lines q cropped i2 T hq hc hsel2 hget2
      obtain ⟨w5, hb5, _, hf1⟩ :=
        ReturnFirst_resolved o1 lines q cropped i1 T hq hc hsel1 hget1
      obtain ⟨w6, hb6, _, hf2⟩ :=
        ReturnFirst_resolved o2 lines q cropped i2 T hq hc hsel2 hget2
      obtain ⟨w7, hb7, _, hl1, hv1, hn1⟩ :=
        navigation_resolved o1 lines q cropped i1 T hq hc hsel1 hget1
      obtain ⟨w8, hb8, _, hl2, hv2, hn2⟩ :=
        navigation_resolved o2 lines q cropped i2 T hq hc hsel2 hget2
      obtain rfl : w2 = w1 := Option.some.inj (hb2.symm.trans hb1)
      obtain rfl : w3 = w2 := Option.some.inj (hb3.symm.trans hb1)
      obtain rfl : w4 = w3 := Option.some.inj (hb4.symm.trans hb1)
      obtain rfl : w5 = w4 := Option.some.inj (hb5.symm.trans hb1)
      obtain rfl : w6 = w5 := Option.some.inj (hb6.symm.trans hb1)
      obtain rfl : w7 = w6 := Option.some.inj (hb7.symm.trans hb1)
      obtain rfl : w8 = w7 := Option.some.inj (hb8.symm.trans hb1)
      exact ⟨hp1.trans hp2.symm, hr1.trans hr2.symm, hf1.trans hf2.symm, hl1.trans hl2.symm,
        hv1.trans hv2.symm, hn1.trans hn2.symm⟩
    · have hnone : ∀ (o : MapOrder), selectWork q (removeDuplicatesUnordered o cropped) = 0 := by
        intro o
        apply (selectWork_last_qualifying q _).1
        intro X hX hqual
        exact hex ⟨X, (mem_removeDuplicatesUnordered o cropped X).mp hX, hqual⟩
      obtain ⟨a1, a2, a3, a4, a5, a6⟩ := handlers_unselected o1 rx lines cropped q hq hc (hnone o1)
      obtain ⟨b1, b2, b3, b4, b5, b6⟩ := handlers_unselected o2 rx lines cropped q hq hc (hnone o2)
      exact ⟨a1.trans b1.symm, a2.trans b2.symm, a3.trans b3.symm, a4.trans b4.symm,
        a5.trans b5.symm, a6.trans b6.symm⟩

/-- Witness of C37: over the example records, whose stems are listed as work, other by one
order and as other, work by the other, the request `urn:cts:ns:work:1` is answered alike. -/
theorem selection_deterministic_witness :
    isCTSURN exampleRequest = true ∧
    (∀ l ∈ exampleLines, "urn:cts:".toList <+: l.1) ∧
    (∀ l ∈ exampleLines, 4 ≤ (Split l.1 ':').length) ∧
    removeDuplicatesUnordered insertionOrder
        [exampleStem, "urn:cts:ns:other".toList, exampleStem, exampleStem] =
      [exampleStem, "urn:cts:ns:other".toList] ∧
    removeDuplicatesUnordered reverseOrder
        [exampleStem, "urn:cts:ns:other".toList, exampleStem, exampleStem] =
      ["urn:cts:ns:other".toList, exampleStem] ∧
    ReturnPassage insertionOrder goRegexp exampleLines exampleRequest =
      ReturnPassage reverseOrder goRegexp exampleLines exampleRequest ∧
    ReturnPassage reverseOrder goRegexp exampleLines exampleRequest =
      some { requestURN := [exampleRequest], Status := "Success".toList,
             Service := "/texts".toList,
             Nodes := [nodeOf exampleWork 0, nodeOf exampleWork 1] } :=
  ⟨by decide, by decide, by decide, by decide, by decide,
    (selection_deterministic insertionOrder reverseOrder goRegexp exampleLines exampleRequest
      (by decide) (by decide) (by decide)).2.1,
    by decide⟩

/-! ## C39: the neighbours of a returned node -/

/-- C39: whenever `previous` returns a node, the next of that node is the query; whenever
`next` returns a node, the previous of that node is the query. No assumption is made on the
work: its URNs may repeat, the index the code uses being that of the last occurrence of the
query. -/
theorem neighbours_point_back (w : Work) (q : Str) :
    (∀ r, prevPassage w q = some r → ∀ node ∈ r.Nodes, node.Next = [q]) ∧
    (∀ r, nextPassage w q = some r → ∀ node ∈ r.Nodes, node.Previous = [q]) := by
  by_cases hc : contains w.URN q = true
  · obtain ⟨i, hidx, hget, _⟩ := indexLoop_of_contains w q hc
    have hgo : goIdx w.URN (i : Int) = some q := by rw [goIdx_natCast, hget]
    constructor
    · intro r h node hnode
      unfold prevPassage at h
      simp only [hc, hidx, if_true] at h
      split_ifs at h <;>
        simp only [Option.bind_eq_bind, Option.bind_eq_some, Option.pure_def,
          Option.some.injEq] at h
      · rw [← h] at hnode
        cases hnode
      · obtain ⟨_, _, _, _, nx, hnx, _, _, rfl⟩ := h
        rw [hgo] at hnx
        rw [List.mem_singleton.mp hnode, ← Option.some.inj hnx]
      · obtain ⟨_, _, _, _, nx, hnx, _, _, _, _, rfl⟩ := h
        rw [hgo] at hnx
        rw [List.mem_singleton.mp hnode, ← Option.some.inj hnx]
    · intro r h node hnode
      unfold nextPassage at h
      simp only [hc, hidx, if_true] at h
      split_ifs at h <;>
        simp only [Option.bind_eq_bind, Option.bind_eq_some, Option.pure_def,
          Option.some.injEq] at h
      · rw [← h] at hnode
        cases hnode
      · obtain ⟨_, _, _, _, pv, hpv, _, _, rfl⟩ := h
        rw [hgo] at hpv
        rw [List.mem_singleton.mp hnode, ← Option.some.inj hpv]
      · obtain ⟨_, _, _, _, _, _, pv, hpv, _, _, rfl⟩ := h
        rw [hgo] at hpv
        rw [List.mem_singleton.mp hnode, ← Option.some.inj hpv]
  · have hmem : q ∉ w.URN := fun hm => hc ((contains_iff w.URN q).mpr hm)
    constructor
    · intro r h node hnode
      rw [prevPassage_not_mem w q hmem] at h
      rw [← Option.some.inj h] at hnode
      cases hnode
    · intro r h node hnode
      rw [nextPassage_not_mem w q hmem] at h
      rw [← Option.some.inj h] at hnode
      cases hnode

/-- Witness of C39: in `revisitedWork` (nodes 1, 2, 3, 2) `previous` queried with the URN of
node 2 returns node 3, the node before the last occurrence, whose next is the query; in
`fourWork`, `next` of node 1.2 returns node 2.1, whose previous is the query. -/
theorem neighbours_point_back_witness :
    (∀ r, prevPassage revisitedWork "urn:cts:ns:work:2".toList = some r →
      ∀ node ∈ r.Nodes, node.Next = ["urn:cts:ns:work:2".toList]) ∧
    prevPassage revisitedWork "urn:cts:ns:work:2".toList =
      some { requestURN := ["urn:cts:ns:work:2".toList], Status := "Success".toList,
             Nodes := [{ URN := ["urn:cts:ns:work:3".toList], Text := ["gamma".toList],
                         Previous := ["urn:cts:ns:work:2".toList],
                         Next := ["urn:cts:ns:work:2".toList], Index := 3 }] } ∧
    (∀ r, nextPassage fourWork "urn:cts:ns:work:1.2".toList = some r →
      ∀ node ∈ r.Nodes, node.Previous = ["urn:cts:ns:work:1.2".toList]) ∧
    nextPassage fourWork "urn:cts:ns:work:1.2".toList =
      some { requestURN := ["urn:cts:ns:work:1.2".toList], Status := "Success".toList,
             Nodes := [{ URN := ["urn:cts:ns:work:2.1".toList], Text := ["gamma".toList],
                         Previous := ["urn:cts:ns:work:1.2".toList],
                         Next := ["urn:cts:ns:work:2.2".toList], Index := 3 }] } :=
  ⟨(neighbours_point_back revisitedWork "urn:cts:ns:work:2".toList).1, by decide,
    (neighbours_point_back fourWork "urn:cts:ns:work:1.2".toList).2, by decide⟩

end CiteMicro
